import Mathlib

/-!
# flow-on: recording orchestrator

A shallow embedding of the capture buffer (`audio_manager.cpp`), the single-flight
transcription dispatcher (`transcriber.cpp`) and the window procedure state machine
(`main.cpp`), with the properties of the recording pipeline proved over it.
-/

namespace FlowOn

/-! ## Machine integers -/

/-- Two's-complement wrap of an integer into the range of a 32-bit `int`
(`std::atomic<int>` arithmetic and `static_cast<int>` are modular). -/
def wrapInt32 (z : Int) : Int := (z + 2 ^ 31) % 2 ^ 32 - 2 ^ 31

/-! ## audio_manager.cpp -/

/-- One mono PCM sample, kept as the bit pattern of the 32-bit float. Samples are only
moved between containers; the running RMS computed from them in `onAudioData` is
floating-point telemetry and is left out of the model. -/
abbrev Sample := Nat

/-- Modelled from the spec: `moodycamel::ReaderWriterQueue<float>` from
readerwriterqueue.h, the single-producer/single-consumer ring behind `g_ring`.
Its capacity is fixed at construction; `items` lists the pending samples, oldest first. -/
structure ReaderWriterQueue where
  cap : Nat
  items : List Sample
deriving DecidableEq, Repr

/-- Modelled from the spec: `try_enqueue` (`produce`) never blocks and never allocates;
it returns `false` and leaves the queue alone when there is no room. -/
def ReaderWriterQueue.try_enqueue (q : ReaderWriterQueue) (s : Sample) :
    Bool × ReaderWriterQueue :=
  if q.items.length < q.cap then (true, { q with items := q.items ++ [s] })
  else (false, q)

/-- Modelled from the spec: `try_dequeue` (`tryConsume`) is non-blocking; it yields the
oldest pending sample, or nothing when the queue is empty. -/
def ReaderWriterQueue.try_dequeue (q : ReaderWriterQueue) :
    Option (Sample × ReaderWriterQueue) :=
  match q.items with
  | [] => none
  | s :: rest => some (s, { q with items := rest })

/-- The miniaudio capture device owned by the manager (`DeviceHolder`); only whether the
hardware stream is running is tracked. -/
structure DeviceHolder where
  started : Bool
deriving DecidableEq, Repr

/-- `AudioManager` between a successful `init` and `shutdown` (so `m_device` is non-null:
`WinMain` returns before the message loop when `init` fails). `main.cpp` passes a null
`SampleCallback`, so `m_callback` is empty and not modelled. -/
structure AudioManager where
  m_device : DeviceHolder
  m_dropped : Int
  m_recordBuffer : List Sample
deriving DecidableEq, Repr

/-- `getDroppedSamples`: relaxed load of `m_dropped`. -/
def AudioManager.getDroppedSamples (a : AudioManager) : Int := a.m_dropped

/-- `resetDropCounter`: relaxed store of 0 to `m_dropped`. -/
def AudioManager.resetDropCounter (a : AudioManager) : AudioManager :=
  { a with m_dropped := 0 }

/-- `AudioManager::onAudioData(data, frames)`: the list is `data[0 .. frames)`. Each
sample is offered to the ring; a refused sample bumps `m_dropped` (`fetch_add(1)` on a
32-bit atomic `int`). -/
def AudioManager.onAudioData (a : AudioManager) (ring : ReaderWriterQueue) :
    List Sample → AudioManager × ReaderWriterQueue
  | [] => (a, ring)
  | x :: xs =>
    let r := ring.try_enqueue x
    let a1 := if r.1 then a else { a with m_dropped := wrapInt32 (a.m_dropped + 1) }
    AudioManager.onAudioData a1 r.2 xs

/-- The loop `while (g_ring.try_dequeue(dummy)) {}` of `startCapture`. -/
def flushRing (ring : ReaderWriterQueue) : ReaderWriterQueue :=
  match h : ring.try_dequeue with
  | some p => flushRing p.2
  | none => ring
termination_by ring.items.length
decreasing_by
  unfold ReaderWriterQueue.try_dequeue at h
  split at h
  · cases h
  · rename_i s rest hq
    cases h
    simp [hq]

/-- `AudioManager::startCapture`: clear the record buffer, reset the drop counter, flush
stale samples out of the ring, then `ma_device_start`, whose outcome `startOk` is given
by the audio stack. -/
def AudioManager.startCapture (a : AudioManager) (ring : ReaderWriterQueue)
    (startOk : Bool) : Bool × AudioManager × ReaderWriterQueue :=
  let a1 := { a with m_recordBuffer := [] }
  let a2 := a1.resetDropCounter
  let ring1 := flushRing ring
  let dev := if startOk then { a2.m_device with started := true } else a2.m_device
  (startOk, { a2 with m_device := dev }, ring1)

/-- `AudioManager::stopCapture`: `ma_device_stop` on the (non-null) device. -/
def AudioManager.stopCapture (a : AudioManager) : AudioManager :=
  { a with m_device := { a.m_device with started := false } }

/-- The loop `while (g_ring.try_dequeue(s)) m_recordBuffer.push_back(s);` of
`drainBuffer`. -/
def drainLoop (ring : ReaderWriterQueue) (buf : List Sample) :
    List Sample × ReaderWriterQueue :=
  match h : ring.try_dequeue with
  | some p => drainLoop p.2 (buf ++ [p.1])
  | none => (buf, ring)
termination_by ring.items.length
decreasing_by
  unfold ReaderWriterQueue.try_dequeue at h
  split at h
  · cases h
  · rename_i s rest hq
    cases h
    simp [hq]

/-- `AudioManager::drainBuffer`: move every pending sample of the ring to the end of
`m_recordBuffer` and return a copy of the buffer. -/
def AudioManager.drainBuffer (a : AudioManager) (ring : ReaderWriterQueue) :
    List Sample × AudioManager × ReaderWriterQueue :=
  let r := drainLoop ring a.m_recordBuffer
  (r.1, { a with m_recordBuffer := r.1 }, r.2)

/-- The audio thread delivering a sequence of chunks, one `onAudioData` call each. -/
def deliverChunks (a : AudioManager) (ring : ReaderWriterQueue) :
    List (List Sample) → AudioManager × ReaderWriterQueue
  | [] => (a, ring)
  | c :: cs =>
    let r := a.onAudioData ring c
    deliverChunks r.1 r.2 cs

/-- One capture session as seen by the buffer: `startCapture`, the chunks delivered by
the audio thread while the key is held, `stopCapture`, and the state handed to
`drainBuffer`. -/
def captureSession (a : AudioManager) (ring : ReaderWriterQueue) (startOk : Bool)
    (chunks : List (List Sample)) : AudioManager × ReaderWriterQueue :=
  let s := a.startCapture ring startOk
  let d := deliverChunks s.2.1 s.2.2 chunks
  (d.1.stopCapture, d.2)

/-! ## transcriber.cpp -/

/-- `std::atomic<bool>::compare_exchange_strong(expected, desired)` as one indivisible
step: the returned pair is the success flag and the new content of the cell. -/
def compare_exchange_strong (cell expected desired : Bool) : Bool × Bool :=
  if cell = expected then (true, desired) else (false, cell)

/-- A message posted to the hidden window with `PostMessage`: the message number, the
`WPARAM`, and the heap-allocated string the `LPARAM` points to (`none` for 0). -/
structure Msg where
  msg : Nat
  wp : Nat
  lp : Option String
deriving DecidableEq, Repr

/-- Program counter of the worker thread started by `transcribeAsync`. -/
inductive WorkerPc where
  /-- Inside `whisper_full` and the loop that concatenates the segment texts. -/
  | whisper
  /-- About to execute `m_busy.store(false)`; `result` is the concatenated text. -/
  | resetBusy (result : String)
  /-- About to execute `PostMessage(hwnd, doneMsg, 0, s)`. -/
  | post (result : String)
  /-- The lambda has returned. -/
  | exited
deriving DecidableEq, Repr

/-- A detached worker thread: the captures of the lambda (`hwnd` is always the hidden
window, whose posted messages form `World.msgQueue`) and its program counter. -/
structure Worker where
  pcm : List Sample
  doneMsg : Nat
  pc : WorkerPc
deriving DecidableEq, Repr

/-- The `Transcriber` object; `m_ctx` is the opaque engine handle, represented by the
function `whisper` passed to the worker. -/
structure Transcriber where
  m_busy : Bool
deriving DecidableEq, Repr

/-- `Transcriber::transcribeAsync(hwnd, pcm, doneMsg)`: the single-flight guard, then the
detached `std::thread`. `threads` are the worker threads that exist; the result is the
return value, the transcriber and the threads afterwards. -/
def Transcriber.transcribeAsync (t : Transcriber) (threads : List Worker)
    (pcm : List Sample) (doneMsg : Nat) : Bool × Transcriber × List Worker :=
  let r := compare_exchange_strong t.m_busy false true
  let t1 := { t with m_busy := r.2 }
  if !r.1 then (false, t1, threads)
  else (true, t1, threads ++ [{ pcm := pcm, doneMsg := doneMsg, pc := WorkerPc.whisper }])

/-- One step of a worker thread on the transcriber and the window's message queue.
`whisper` is the engine: the text `whisper_full` and the segment loop produce for a
buffer. -/
def Worker.step (whisper : List Sample → String) (t : Transcriber) (queue : List Msg)
    (k : Worker) : Transcriber × List Msg × Worker :=
  match k.pc with
  | WorkerPc.whisper => (t, queue, { k with pc := WorkerPc.resetBusy (whisper k.pcm) })
  | WorkerPc.resetBusy r => ({ t with m_busy := false }, queue, { k with pc := WorkerPc.post r })
  | WorkerPc.post r =>
    (t, queue ++ [{ msg := k.doneMsg, wp := 0, lp := some r }], { k with pc := WorkerPc.exited })
  | WorkerPc.exited => (t, queue, k)

/-! ## overlay.h, formatter.h, dashboard.h, dashboard.cpp -/

/-- `enum class OverlayState` of overlay.h. -/
inductive OverlayState where
  | Hidden | Recording | Processing | Done | Error
deriving DecidableEq, Repr

/-- The part of `Overlay` that `setState` touches: the state cell, the flash countdown and
whether the pill window is shown. -/
structure Overlay where
  m_state : OverlayState
  m_flashFrames : Int
  shown : Bool
deriving DecidableEq, Repr

/-- `Overlay::setState`. -/
def Overlay.setState (o : Overlay) (s : OverlayState) : Overlay :=
  let o1 := { o with m_state := s }
  if s = OverlayState.Hidden then { o1 with shown := false }
  else
    let o2 := if s = OverlayState.Done ∨ s = OverlayState.Error then
      { o1 with m_flashFrames := 45 } else o1
    { o2 with shown := true }

/-- `enum class AppMode` of formatter.h. -/
inductive AppMode where
  | PROSE | CODING
deriving DecidableEq, Repr

/-- `struct TranscriptionEntry` of dashboard.h. -/
structure TranscriptionEntry where
  text : String
  timestamp : String
  latencyMs : Int
  wasCoded : Bool
deriving DecidableEq, Repr

/-- `Dashboard::addEntry` on `m_history`: the entry is appended, and the oldest entry goes
once there are more than 200. -/
def addEntry (m_history : List TranscriptionEntry) (e : TranscriptionEntry) :
    List TranscriptionEntry :=
  let h := m_history ++ [e]
  if h.length > 200 then h.drop 1 else h

/-! ## main.cpp -/

/-- `enum class AppState`. -/
inductive AppState where
  | IDLE | RECORDING | TRANSCRIBING | INJECTING
deriving DecidableEq, Repr

/-- Tray icon resources of Resource.h (not among the sources), kept symbolic. -/
inductive IconId where
  | IDI_IDLE_ICON | IDI_RECORDING_ICON
deriving DecidableEq, Repr

/-- The fields of `g_nid` that `SetTrayIcon` writes. -/
structure NotifyIcon where
  icon : IconId
  szTip : String
deriving DecidableEq, Repr

def WM_TIMER : Nat := 0x0113
def WM_HOTKEY : Nat := 0x0312
def WM_APP : Nat := 0x8000
def WM_START_TRANSCRIPTION : Nat := WM_APP + 3
def WM_TRANSCRIPTION_DONE : Nat := WM_APP + 4
def HOTKEY_ID_RECORD : Nat := 1
def TIMER_ID_KEYCHECK : Nat := 2

/-- The collaborators of the orchestrator, as functions: the speech engine behind
`whisper_full`, `FormatTranscription`, and `SnippetEngine::apply` on `g_snippets`, which
gives `none` for a text on which it never returns. -/
structure Collaborators where
  whisper : List Sample → String
  FormatTranscription : String → AppMode → String
  snippets : String → Option String

/-- What the handlers read from the operating system while they run. -/
structure Env where
  /-- Outcome of `ma_device_start`. -/
  startOk : Bool
  /-- `std::chrono::steady_clock::now()`, in milliseconds. -/
  now : Nat
  /-- High bit of `GetAsyncKeyState(VK_MENU)`. -/
  altHeld : Bool
  /-- High bit of `GetAsyncKeyState(0x56)`, the V key. -/
  vHeld : Bool
  /-- High bit of `GetAsyncKeyState(VK_SHIFT)`. -/
  shiftKey : Bool
  /-- `DetectModeFromActiveWindow()`. -/
  activeWindowMode : AppMode
  /-- Local time formatted as HH:MM. -/
  timestamp : String
deriving DecidableEq, Repr

/-- The globals of main.cpp and what they own, plus the operating-system objects the
handlers act on. `submitted` and `injected` are ghost logs: the buffers passed to
`transcribeAsync` and the texts passed to `InjectText`, in call order; `hung` is a ghost
flag: the window procedure is inside a call that never returns, so the message loop
dispatches nothing any more. -/
structure World where
  g_state : AppState
  g_recordingActive : Bool
  g_hotkeyDown : Bool
  g_altHotkeyFallback : Bool
  g_recordStart : Nat
  g_audio : AudioManager
  g_ring : ReaderWriterQueue
  g_transcriber : Transcriber
  g_overlay : Overlay
  g_nid : NotifyIcon
  /-- `g_dashboard.m_history`. -/
  m_history : List TranscriptionEntry
  /-- `g_config.settings().modeStr`. -/
  modeStr : String
  /-- Messages posted to the hidden window and not yet dispatched, oldest first. -/
  msgQueue : List Msg
  /-- Whether the `TIMER_ID_KEYCHECK` timer is set. -/
  keyTimer : Bool
  /-- The detached worker threads, in the order they were started. -/
  threads : List Worker
  submitted : List (List Sample)
  injected : List String
  hung : Bool
deriving DecidableEq, Repr

/-- `SetTrayIcon(iconId, tip)`. -/
def SetTrayIcon (w : World) (iconId : IconId) (tip : String) : World :=
  { w with g_nid := { icon := iconId, szTip := tip } }

/-- `PostMessageW(hwnd, msg, 0, 0)` to the hidden window. -/
def PostMessageW (w : World) (msg : Nat) : World :=
  { w with msgQueue := w.msgQueue ++ [{ msg := msg, wp := 0, lp := none }] }

/-- `StopRecordingOnce(hwnd)`. -/
def StopRecordingOnce (w : World) : World :=
  let r := compare_exchange_strong w.g_recordingActive true false
  let w0 := { w with g_recordingActive := r.2 }
  if r.1 then
    let w1 := { w0 with g_audio := w0.g_audio.stopCapture }
    let w2 := { w1 with g_state := AppState.TRANSCRIBING }
    let w3 := { w2 with g_overlay := w2.g_overlay.setState OverlayState.Processing }
    let w4 := SetTrayIcon w3 IconId.IDI_IDLE_ICON "FLOW-ON! — Processing…"
    let w5 := PostMessageW w4 WM_START_TRANSCRIPTION
    { w5 with keyTimer := false }
  else w0

/-- `case WM_HOTKEY` of `WindowProc`. -/
def onHotkey (env : Env) (w : World) (wp : Nat) : World :=
  if wp = HOTKEY_ID_RECORD ∧ w.g_hotkeyDown = false ∧ w.g_state = AppState.IDLE then
    let w1 := { w with g_hotkeyDown := true }
    let w2 := { w1 with g_recordingActive := true }
    let w3 := { w2 with g_state := AppState.RECORDING }
    let w4 := { w3 with g_recordStart := env.now }
    let w5 := { w4 with g_overlay := w4.g_overlay.setState OverlayState.Recording }
    let w6 := SetTrayIcon w5 IconId.IDI_RECORDING_ICON "FLOW-ON! — Recording…"
    let s := w6.g_audio.startCapture w6.g_ring env.startOk
    let w7 := { w6 with g_audio := s.2.1, g_ring := s.2.2 }
    { w7 with keyTimer := true }
  else w

/-- `case WM_TIMER` of `WindowProc`. -/
def onTimer (env : Env) (w : World) (wp : Nat) : World :=
  if wp = TIMER_ID_KEYCHECK ∧ w.g_hotkeyDown = true then
    let altHeld := env.altHeld
    let vHeld := env.vHeld
    let shiftHeld := if w.g_altHotkeyFallback then env.shiftKey else true
    if !altHeld || !vHeld || !shiftHeld then
      StopRecordingOnce { w with g_hotkeyDown := false }
    else w
  else w

/-- `case WM_START_TRANSCRIPTION` of `WindowProc`. -/
def onStartTranscription (w : World) : World :=
  let d := w.g_audio.drainBuffer w.g_ring
  let pcm := d.1
  let w1 := { w with g_audio := d.2.1, g_ring := d.2.2 }
  let dropped := w1.g_audio.getDroppedSamples
  let w2 := { w1 with g_audio := w1.g_audio.resetDropCounter }
  let tooShort := decide (pcm.length < 16000 / 4)
  let tooDroppy := decide (dropped > 160)
  if tooShort || tooDroppy then
    let tip := if tooShort then "FLOW-ON! — Too short, try again"
      else "FLOW-ON! — Audio capture error (" ++ toString dropped ++ " drops)"
    let w3 := { w2 with g_overlay := w2.g_overlay.setState OverlayState.Error }
    let w4 := { w3 with g_state := AppState.IDLE }
    SetTrayIcon w4 IconId.IDI_IDLE_ICON tip
  else
    let r := w2.g_transcriber.transcribeAsync w2.threads pcm WM_TRANSCRIPTION_DONE
    let w3 := { w2 with g_transcriber := r.2.1, threads := r.2.2,
                        submitted := w2.submitted ++ [pcm] }
    if !r.1 then
      let w4 := { w3 with g_overlay := w3.g_overlay.setState OverlayState.Error }
      let w5 := { w4 with g_state := AppState.IDLE }
      SetTrayIcon w5 IconId.IDI_IDLE_ICON "FLOW-ON! — Busy, try again"
    else w3

/-- `case WM_TRANSCRIPTION_DONE` of `WindowProc`; `lp` is the string behind the
`LPARAM`. Where `g_snippets.apply` never returns, nothing behind it is executed and the
window procedure stays inside the call. -/
def onTranscriptionDone (c : Collaborators) (env : Env) (w : World) (lp : Option String) :
    World :=
  let raw := match lp with
    | some s => s
    | none => ""
  let mode := if w.modeStr = "code" then AppMode.CODING
    else if w.modeStr = "prose" then AppMode.PROSE
    else env.activeWindowMode
  match c.snippets (c.FormatTranscription raw mode) with
  | none => { w with hung := true }
  | some formatted =>
    let latMs := wrapInt32 ((env.now : Int) - (w.g_recordStart : Int))
    let w1 := if formatted ≠ "" then
        let v := { w with g_state := AppState.INJECTING }
        { v with injected := v.injected ++ [formatted] }
      else w
    let w2 := { w1 with g_overlay := w1.g_overlay.setState OverlayState.Done }
    let w3 := { w2 with g_state := AppState.IDLE }
    let w4 := SetTrayIcon w3 IconId.IDI_IDLE_ICON "FLOW-ON! — Idle (Alt+V to record)"
    let entry : TranscriptionEntry :=
      { text := formatted, timestamp := env.timestamp, latencyMs := latMs,
        wasCoded := decide (mode = AppMode.CODING) }
    { w4 with m_history := addEntry w4.m_history entry }

/-- `WindowProc` on the four messages that drive the recording state machine; every other
message leaves the modelled state alone. -/
def WindowProc (c : Collaborators) (env : Env) (w : World) (m : Msg) : World :=
  if m.msg = WM_HOTKEY then onHotkey env w m.wp
  else if m.msg = WM_TIMER then onTimer env w m.wp
  else if m.msg = WM_START_TRANSCRIPTION then onStartTranscription w
  else if m.msg = WM_TRANSCRIPTION_DONE then onTranscriptionDone c env w m.lp
  else w

/-! ## The message loop and the threads around it -/

/-- What can happen next to the process. -/
inductive Event where
  /-- The system delivers `WM_HOTKEY` with this `WPARAM`. -/
  | hotkey (wp : Nat)
  /-- The system delivers `WM_TIMER` with this `WPARAM`. -/
  | timer (wp : Nat)
  /-- The message loop dispatches the oldest message posted by the application itself. -/
  | dispatch
  /-- The audio thread calls `data_callback` with one chunk. -/
  | audio (data : List Sample)
  /-- Worker thread number `i` executes its next step. -/
  | worker (i : Nat)
deriving DecidableEq, Repr

/-- Worker thread `i` takes one step. -/
def stepWorker (c : Collaborators) (w : World) (i : Nat) : World :=
  match w.threads[i]? with
  | none => w
  | some k =>
    let r := k.step c.whisper w.g_transcriber w.msgQueue
    { w with g_transcriber := r.1, msgQueue := r.2.1, threads := w.threads.set i r.2.2 }

/-- One event, with the readings of the environment at that moment. The audio callback
only fires while the device is started, and the message loop delivers nothing while the
window procedure is inside a call that never returns. -/
def step (c : Collaborators) (w : World) (e : Event × Env) : World :=
  match e.1 with
  | Event.hotkey wp =>
    if w.hung then w else WindowProc c e.2 w { msg := WM_HOTKEY, wp := wp, lp := none }
  | Event.timer wp =>
    if w.hung then w else WindowProc c e.2 w { msg := WM_TIMER, wp := wp, lp := none }
  | Event.dispatch =>
    if w.hung then w
    else
      match w.msgQueue with
      | [] => w
      | m :: rest => WindowProc c e.2 { w with msgQueue := rest } m
  | Event.audio data =>
    if w.g_audio.m_device.started then
      let r := w.g_audio.onAudioData w.g_ring data
      { w with g_audio := r.1, g_ring := r.2 }
    else w
  | Event.worker i => stepWorker c w i

/-- A whole run: the events in order. -/
def run (c : Collaborators) (w : World) (es : List (Event × Env)) : World :=
  es.foldl (step c) w

/-- The state `WinMain` enters the message loop with: the configured mode string, whether
`WM_CREATE` fell back to Alt+Shift+V, and the capacity the ring was built with. -/
def World.init (modeStr : String) (fallback : Bool) (ringCap : Nat) : World :=
  { g_state := AppState.IDLE
    g_recordingActive := false
    g_hotkeyDown := false
    g_altHotkeyFallback := fallback
    g_recordStart := 0
    g_audio := { m_device := { started := false }, m_dropped := 0, m_recordBuffer := [] }
    g_ring := { cap := ringCap, items := [] }
    g_transcriber := { m_busy := false }
    g_overlay := { m_state := OverlayState.Hidden, m_flashFrames := 0, shown := false }
    g_nid := { icon := IconId.IDI_IDLE_ICON, szTip := "FLOW-ON! — Idle (Alt+V to record)" }
    m_history := []
    modeStr := modeStr
    msgQueue := []
    keyTimer := false
    threads := []
    submitted := []
    injected := []
    hung := false }

/-- A world is reachable when some run from the initial state ends in it. -/
def Reachable (c : Collaborators) (w : World) : Prop :=
  ∃ modeStr fallback ringCap es, run c (World.init modeStr fallback ringCap) es = w

/-! ## Several contexts inside `StopRecordingOnce` at once -/

/-- Program counter of one context executing `StopRecordingOnce`, one value per statement. -/
inductive StopPc where
  | cas | stopCapture | storeState | setOverlay | setTray | post | killTimer | done
deriving DecidableEq, Repr

/-- A context inside `StopRecordingOnce`: where it is, and whether its compare-and-swap
succeeded. -/
structure StopThread where
  pc : StopPc
  won : Bool
deriving DecidableEq, Repr

/-- The statement of `StopRecordingOnce` at program counter `t.pc`, executed on `w`. -/
def StopThread.exec (w : World) (t : StopThread) : World × StopThread :=
  match t.pc with
  | StopPc.cas =>
    let r := compare_exchange_strong w.g_recordingActive true false
    ({ w with g_recordingActive := r.2 },
      if r.1 then { pc := StopPc.stopCapture, won := true }
      else { pc := StopPc.done, won := false })
  | StopPc.stopCapture =>
    ({ w with g_audio := w.g_audio.stopCapture }, { t with pc := StopPc.storeState })
  | StopPc.storeState =>
    ({ w with g_state := AppState.TRANSCRIBING }, { t with pc := StopPc.setOverlay })
  | StopPc.setOverlay =>
    ({ w with g_overlay := w.g_overlay.setState OverlayState.Processing },
      { t with pc := StopPc.setTray })
  | StopPc.setTray =>
    (SetTrayIcon w IconId.IDI_IDLE_ICON "FLOW-ON! — Processing…", { t with pc := StopPc.post })
  | StopPc.post =>
    (PostMessageW w WM_START_TRANSCRIPTION, { t with pc := StopPc.killTimer })
  | StopPc.killTimer => ({ w with keyTimer := false }, { t with pc := StopPc.done })
  | StopPc.done => (w, t)

/-- The shared world together with the contexts calling `StopRecordingOnce`, by number. -/
structure StopRace where
  world : World
  th : Nat → StopThread

/-- Every context is about to execute the compare-and-swap. -/
def StopRace.start (w : World) : StopRace :=
  { world := w, th := fun _ => { pc := StopPc.cas, won := false } }

/-- The scheduler lets context `i` execute one statement. -/
def StopRace.step (s : StopRace) (i : Nat) : StopRace :=
  let r := (s.th i).exec s.world
  { world := r.1, th := Function.update s.th i r.2 }

/-- An interleaving: the contexts in the order the scheduler picks them. -/
def StopRace.run (s : StopRace) (sched : List Nat) : StopRace :=
  sched.foldl StopRace.step s

/-! ## WinMain: graceful shutdown -/

/-- `SecureZeroMemory(buf.data(), buf.size() * sizeof(float))`: every sample of the vector
it is given becomes the all-zero bit pattern. -/
def SecureZeroMemory (buf : List Sample) : List Sample :=
  buf.map (fun _ => 0)

/-- The drain-and-erase step of the shutdown sequence in `WinMain`: `g_audio.stopCapture()`
followed by the block `{ auto buf = g_audio.drainBuffer(); SecureZeroMemory(...); }`.
`drainBuffer` returns `m_recordBuffer` by value, so `buf` is a vector of its own. The result
is the world after the block and the content of `buf` when the block ends. -/
def shutdownDrainErase (w : World) : World × List Sample :=
  let w1 := { w with g_audio := w.g_audio.stopCapture }
  let d := w1.g_audio.drainBuffer w1.g_ring
  let w2 := { w1 with g_audio := d.2.1, g_ring := d.2.2 }
  let buf := SecureZeroMemory d.1
  (w2, buf)

/-! ## injector.cpp -/

def KEYEVENTF_KEYUP : Nat := 0x0002
def KEYEVENTF_UNICODE : Nat := 0x0004
def VK_CONTROL : Nat := 0x11

/-- The fields of a keyboard `INPUT` record that `InjectText` fills in. -/
structure INPUT where
  wScan : Nat
  dwFlags : Nat
deriving DecidableEq, Repr

/-- The calls through which `InjectText` reaches the focused application. A `std::wstring`
is the list of its UTF-16 code units. -/
inductive InjectCall where
  | EmptyClipboard
  /-- `SetClipboardData(CF_UNICODETEXT, hMem)`; `none` when the block could not be locked
  and was handed over without the text copied in. -/
  | SetClipboardData (text : Option (List Nat))
  | Sleep (ms : Nat)
  | keybd_event (vk : Nat) (flags : Nat)
  | SendInput (inputs : List INPUT)
deriving DecidableEq, Repr

/-- What the clipboard calls return: `OpenClipboard`, `GlobalAlloc`, `GlobalLock`. -/
structure ClipboardEnv where
  openOk : Bool
  allocOk : Bool
  lockOk : Bool
deriving DecidableEq, Repr

/-- `ContainsSurrogates(text)`. -/
def ContainsSurrogates (text : List Nat) : Bool :=
  text.any (fun ch => decide (ch ≥ 0xD800) && decide (ch ≤ 0xDFFF))

/-- `InjectViaClipboard(text)`. -/
def InjectViaClipboard (env : ClipboardEnv) (text : List Nat) : List InjectCall :=
  if !env.openOk then []
  else
    [InjectCall.EmptyClipboard] ++
    (if env.allocOk then
      [InjectCall.SetClipboardData (if env.lockOk then some text else none)]
     else []) ++
    [InjectCall.Sleep 30,
     InjectCall.keybd_event VK_CONTROL 0,
     InjectCall.keybd_event 0x56 0,
     InjectCall.keybd_event 0x56 KEYEVENTF_KEYUP,
     InjectCall.keybd_event VK_CONTROL KEYEVENTF_KEYUP]

/-- The loop of `InjectText` that builds `inputs`: a key-down and a key-up record per code
unit. -/
def unicodeInputs : List Nat → List INPUT
  | [] => []
  | ch :: rest =>
    { wScan := ch, dwFlags := KEYEVENTF_UNICODE } ::
    { wScan := ch, dwFlags := KEYEVENTF_UNICODE ||| KEYEVENTF_KEYUP } :: unicodeInputs rest

/-- `InjectText(text)`. -/
def InjectText (env : ClipboardEnv) (text : List Nat) : List InjectCall :=
  if text.isEmpty then []
  else if text.length > 200 || ContainsSurrogates text then InjectViaClipboard env text
  else [InjectCall.SendInput (unicodeInputs text)]

/-! ## snippet_engine.cpp

A `std::string` is the list of its characters. The engine only compares, copies and counts
them, so for UTF-8 text it does not matter whether the unit is the byte or the character. -/

/-- `std::tolower` on one `char` in the classic "C" locale (the program never calls
`setlocale`): only the ASCII capitals change. -/
def tolower (c : Char) : Char :=
  if 'A'.toNat ≤ c.toNat ∧ c.toNat ≤ 'Z'.toNat then Char.ofNat (c.toNat + 32) else c

/-- The search of `std::string::find` over the part of the haystack that starts at index
`i`: the first index at which `needle` occurs, `none` for `npos`. -/
def findFrom (needle : List Char) : List Char → Nat → Option Nat
  | [], i => if needle.isEmpty then some i else none
  | c :: cs, i => if needle.isPrefixOf (c :: cs) then some i else findFrom needle cs (i + 1)

/-- `hay.find(needle, pos)`. -/
def stdFind (hay needle : List Char) (pos : Nat) : Option Nat :=
  if pos > hay.length then none else findFrom needle (hay.drop pos) pos

/-- `s.replace(pos, len, str)` for `pos ≤ s.size()`. -/
def stdReplace (s : List Char) (pos len : Nat) (str : List Char) : List Char :=
  s.take pos ++ str ++ s.drop (pos + len)

/-- The `while` loop of `SnippetEngine::apply` for one trigger: `lt` is the lower-cased
trigger, `n` is `trigger.size()`. The first argument bounds the number of iterations;
`none` means the bound was used up. -/
def snippetLoop (lt : List Char) (n : Nat) (value : List Char) :
    Nat → List Char → List Char → Nat → Option (List Char × List Char)
  | 0, _, _, _ => none
  | fuel + 1, result, lower, pos =>
    match stdFind lower lt pos with
    | none => some (result, lower)
    | some p =>
      snippetLoop lt n value fuel (stdReplace result p n value)
        (stdReplace lower p n (List.replicate value.length ' ')) (p + value.length)

/-- The entries of `m_snippets` in the order the range-`for` visits them. -/
abbrev SnippetMap := List (List Char × List Char)

/-- The range-`for` of `SnippetEngine::apply` over the entries, on the pair `result`,
`lower`. Each trigger's loop may run `lower.size() + 1` times, which a non-empty trigger
never uses up; with an empty trigger the C++ loop never ends and the model yields `none`. -/
def applyEntries : SnippetMap → List Char × List Char → Option (List Char × List Char)
  | [], st => some st
  | (trigger, value) :: rest, st =>
    match snippetLoop (trigger.map tolower) trigger.length value (st.2.length + 1) st.1 st.2 0 with
    | none => none
    | some st2 => applyEntries rest st2

/-- `SnippetEngine::apply(text)` on the snippet map `m_snippets`. -/
def SnippetEngine.apply (m_snippets : SnippetMap) (text : List Char) : Option (List Char) :=
  if m_snippets.isEmpty then some text
  else (applyEntries m_snippets (text, text.map tolower)).map Prod.fst

/-! ## formatter.cpp

A `std::wstring` is the list of its characters; a character outside the Basic Multilingual
Plane stands for its surrogate pair, which no pattern or case mapping below tells apart from
any other character that is neither a space nor an ASCII letter. The regular expressions are
ECMAScript patterns: each is embedded as the function that says how long its match at a
given position is, and `regexReplace` is `std::regex_replace` on such a function. `^` and `$`
are the two ends of the text. Character classes and case folding are those of the classic
"C" locale, which the program never changes. -/

/-- `\s`: the space class. -/
def isSpaceW (c : Char) : Bool :=
  c = ' ' || c = '\t' || c = '\n' || c = Char.ofNat 0x0B || c = Char.ofNat 0x0C || c = '\r'

/-- The word characters that `\b` tells from the others: `[A-Za-z0-9_]`. -/
def isWordW (c : Char) : Bool :=
  ('a'.toNat ≤ c.toNat && c.toNat ≤ 'z'.toNat) || ('A'.toNat ≤ c.toNat && c.toNat ≤ 'Z'.toNat) ||
    ('0'.toNat ≤ c.toNat && c.toNat ≤ '9'.toNat) || c = '_'

/-- The line terminators, which `.` does not match. -/
def isLineTerminator (c : Char) : Bool :=
  c = '\n' || c = '\r' || c = Char.ofNat 0x2028 || c = Char.ofNat 0x2029

/-- `::towlower`: only the ASCII capitals change. -/
def towlower (c : Char) : Char :=
  if 'A'.toNat ≤ c.toNat ∧ c.toNat ≤ 'Z'.toNat then Char.ofNat (c.toNat + 32) else c

/-- `::towupper`: only the ASCII small letters change. -/
def towupper (c : Char) : Char :=
  if 'a'.toNat ≤ c.toNat ∧ c.toNat ≤ 'z'.toNat then Char.ofNat (c.toNat - 32) else c

/-- `std::regex_replace(t, r, fmt)` for a pattern `r` whose matches are never empty. `m prev
rest` is the length of the match of `r` that starts where `rest` starts, `prev` being the
character before that position (`none` at the start of the text). The text is scanned from
the left; a match is replaced by `fmt` and the scan goes on behind it. The number counts the
characters of the current match still to be passed over. -/
def regexReplace (m : Option Char → List Char → Option Nat) (fmt : List Char) :
    Nat → Option Char → List Char → List Char
  | _, _, [] => []
  | skip + 1, _, c :: cs => regexReplace m fmt skip (some c) cs
  | 0, prev, c :: cs =>
    match m prev (c :: cs) with
    | some (n + 1) => fmt ++ regexReplace m fmt n (some c) cs
    | _ => c :: regexReplace m fmt 0 (some c) cs

/-- Whether a possibly missing character is a word character. -/
def isWordOpt : Option Char → Bool
  | some c => isWordW c
  | none => false

/-- `\b` between the character `prev` and the character `next`. -/
def wordBoundary (prev next : Option Char) : Bool :=
  isWordOpt prev != isWordOpt next

/-- A literal of a pattern compiled with `icase`, matched at the start of `t`; the literal
is written in small letters. -/
def icasePrefix (lit t : List Char) : Bool :=
  lit.isPrefixOf (t.map towlower)

/-- The length of the run of space characters at the start of `t`: what a greedy `\s*`
takes. -/
def spaceRun (t : List Char) : Nat :=
  (t.takeWhile isSpaceW).length

/-- `,?\s+` at the start of `r`: the comma if there is one, then at least one space. -/
def commaSpaces (r : List Char) : Option Nat :=
  match r with
  | ',' :: r1 => if spaceRun r1 ≥ 1 then some (1 + spaceRun r1) else none
  | _ => if spaceRun r ≥ 1 then some (spaceRun r) else none

/-- `\s+` at the start of `r`. -/
def spaces1 (r : List Char) : Option Nat :=
  if spaceRun r ≥ 1 then some (spaceRun r) else none

/-- `\b,?\s*` behind a word: a word boundary, the comma if there is one, then any spaces. -/
def boundaryCommaSpaces0 (r : List Char) : Option Nat :=
  if isWordOpt r.head? then none
  else
    match r with
    | ',' :: r1 => some (1 + spaceRun r1)
    | _ => some (spaceRun r)

/-- An alternation of literals `(a|b|…)` followed by `tail`: the alternatives are tried in
order, and an alternative whose continuation fails gives way to the next one. -/
def matchAlts (tail : List Char → Option Nat) : List (List Char) → List Char → Option Nat
  | [], _ => none
  | a :: rest, t =>
    if icasePrefix a t then
      match tail (t.drop a.length) with
      | some n => some (a.length + n)
      | none => matchAlts tail rest t
    else matchAlts tail rest t

/-- `FILLERS_GLOBAL[0]`: `\b(um|uh|ah|er|hmm)\b,?\s*`, icase. -/
def FILLERS_GLOBAL_0 (prev : Option Char) (t : List Char) : Option Nat :=
  if wordBoundary prev t.head? then
    matchAlts boundaryCommaSpaces0
      ["um".toList, "uh".toList, "ah".toList, "er".toList, "hmm".toList] t
  else none

/-- `FILLERS_GLOBAL[1]`: `\byou know,?\s+`, icase. -/
def FILLERS_GLOBAL_1 (prev : Option Char) (t : List Char) : Option Nat :=
  if wordBoundary prev t.head? then matchAlts commaSpaces ["you know".toList] t
  else none

/-- `FILLERS_SENTENCE_START[0]`: `^(so|well|okay|ok|like),?\s+`, icase. -/
def FILLERS_SENTENCE_START_0 (prev : Option Char) (t : List Char) : Option Nat :=
  if prev.isNone then
    matchAlts commaSpaces
      ["so".toList, "well".toList, "okay".toList, "ok".toList, "like".toList] t
  else none

/-- `FILLERS_SENTENCE_START[1]`: `^(basically|kind of|sort of)\s+`, icase. -/
def FILLERS_SENTENCE_START_1 (prev : Option Char) (t : List Char) : Option Nat :=
  if prev.isNone then
    matchAlts spaces1 ["basically".toList, "kind of".toList, "sort of".toList] t
  else none

/-- `FILLERS_SENTENCE_START[2]`: `^(right|alright|now then),?\s+`, icase. -/
def FILLERS_SENTENCE_START_2 (prev : Option Char) (t : List Char) : Option Nat :=
  if prev.isNone then
    matchAlts commaSpaces ["right".toList, "alright".toList, "now then".toList] t
  else none

/-- `RE_MULTI_SPACE`: `\s{2,}`. -/
def RE_MULTI_SPACE (_prev : Option Char) (t : List Char) : Option Nat :=
  if spaceRun t ≥ 2 then some (spaceRun t) else none

/-- `RE_TRIM`: `^\s+|\s+$`. A run of spaces matches at the start of the text, or anywhere
if it reaches the end of the text. -/
def RE_TRIM (prev : Option Char) (t : List Char) : Option Nat :=
  if prev.isNone ∧ spaceRun t ≥ 1 then some (spaceRun t)
  else if spaceRun t ≥ 1 ∧ t.drop (spaceRun t) = [] then some (spaceRun t)
  else none

/-- `RE_LEADING_PUNCT`: `^[,;:.]\s*`. -/
def RE_LEADING_PUNCT (prev : Option Char) (t : List Char) : Option Nat :=
  if prev.isNone then
    match t with
    | c :: r => if c = ',' ∨ c = ';' ∨ c = ':' ∨ c = '.' then some (1 + spaceRun r) else none
    | [] => none
  else none

/-- `removeFillers(t)`. -/
def removeFillers (t : List Char) : List Char :=
  let t1 := regexReplace FILLERS_GLOBAL_0 [' '] 0 none t
  let t2 := regexReplace FILLERS_GLOBAL_1 [' '] 0 none t1
  let t3 := regexReplace FILLERS_SENTENCE_START_0 [] 0 none t2
  let t4 := regexReplace FILLERS_SENTENCE_START_1 [] 0 none t3
  regexReplace FILLERS_SENTENCE_START_2 [] 0 none t4

/-- `cleanup(t)`. -/
def cleanup (t : List Char) : List Char :=
  let t1 := regexReplace RE_MULTI_SPACE [' '] 0 none t
  let t2 := regexReplace RE_TRIM [] 0 none t1
  let t3 := regexReplace RE_LEADING_PUNCT [] 0 none t2
  match t3 with
  | [] => []
  | c :: r => towupper c :: r

/-- `fixPunctuation(t)`. -/
def fixPunctuation (t : List Char) : List Char :=
  match t.getLast? with
  | none => t
  | some last =>
    if last ≠ '.' ∧ last ≠ '?' ∧ last ≠ '!' ∧ last ≠ ':' then t ++ ['.'] else t

/-- The loop of `toCamelCase`, with the flag `cap`. -/
def camelLoop : Bool → List Char → List Char
  | _, [] => []
  | cap, c :: cs =>
    if c = ' ' ∨ c = '\t' then camelLoop true cs
    else (if cap then towupper c else towlower c) :: camelLoop false cs

/-- `toCamelCase(s)`. -/
def toCamelCase (s : List Char) : List Char :=
  camelLoop false s

/-- `toSnakeCase(s)`. -/
def toSnakeCase (s : List Char) : List Char :=
  s.map (fun c => if c = ' ' ∨ c = '\t' then '_' else towlower c)

/-- `\s+(.+)$` at the start of `r`, for `std::regex_match`: the capture `(.+)`. The greedy
`\s+` takes the whole run of spaces and `.+` the rest, which must be non-empty and free of
line terminators; when the run reaches the end of the text, `\s+` gives its last character
back to `.+`. -/
def spacesThenCapture (r : List Char) : Option (List Char) :=
  let run := r.takeWhile isSpaceW
  let rest := r.dropWhile isSpaceW
  if run.length ≥ 1 ∧ rest ≠ [] then
    if rest.all (fun c => !isLineTerminator c) then some rest else none
  else if run.length ≥ 2 ∧ rest = [] then
    match run.getLast? with
    | some c => if isLineTerminator c then none else some [c]
    | none => none
  else none

/-- A voice-command pattern `^w1\s+w2\s+(.+)$` with `icase`, for `std::regex_match`: the
capture. `w2` is a list of spellings tried in order (`caps?` is `caps`, then `cap`). -/
def matchVoiceCommand (w1 : List Char) (w2 : List (List Char)) (t : List Char) :
    Option (List Char) :=
  if icasePrefix w1 t then
    let r := t.drop w1.length
    if spaceRun r ≥ 1 then
      let r1 := r.drop (spaceRun r)
      w2.firstM (fun w => if icasePrefix w r1 then spacesThenCapture (r1.drop w.length) else none)
    else none
  else none

/-- `RE_CAMEL`: `^camel\s+case\s+(.+)$`, icase. -/
def RE_CAMEL (t : List Char) : Option (List Char) :=
  matchVoiceCommand "camel".toList ["case".toList] t

/-- `RE_SNAKE`: `^snake\s+case\s+(.+)$`, icase. -/
def RE_SNAKE (t : List Char) : Option (List Char) :=
  matchVoiceCommand "snake".toList ["case".toList] t

/-- `RE_ALLCAP`: `^all\s+caps?\s+(.+)$`, icase. -/
def RE_ALLCAP (t : List Char) : Option (List Char) :=
  matchVoiceCommand "all".toList ["caps".toList, "cap".toList] t

/-- `applyCodingTransforms(t)`. -/
def applyCodingTransforms (t : List Char) : List Char :=
  match RE_CAMEL t with
  | some m1 => toCamelCase m1
  | none =>
    match RE_SNAKE t with
    | some m1 => toSnakeCase m1
    | none =>
      match RE_ALLCAP t with
      | some m1 => (toSnakeCase m1).map towupper
      | none => if t.getLast? = some '.' then t.dropLast else t

/-- `toWide(s)`: the text the engine hands over is built from C strings, so it holds no
NUL and `MultiByteToWideChar` on `c_str()` sees all of it. -/
def toWide (s : String) : List Char := s.toList

/-- `toNarrow(w)`. -/
def toNarrow (w : List Char) : String := String.mk w

/-- `FormatTranscription(raw, mode)`. -/
def FormatTranscription (raw : String) (mode : AppMode) : String :=
  let t := toWide raw
  let t1 := removeFillers t
  let t2 := cleanup t1
  let t3 := fixPunctuation t2
  let t4 := if mode = AppMode.CODING then applyCodingTransforms t3 else t3
  toNarrow t4

/-! ## config_manager.cpp

A `std::string` is the list of its bytes, the `char`s `size()` counts. The settings file is
read with `nlohmann::json` (json.hpp, a library the repository includes): `Json` is the
value a parsed document holds, with the kinds the library tells apart; its strings are
`std::string`s that hold the text in UTF-8. An operation of the library that throws gives
`none`. -/

/-- A `std::string`: its bytes. -/
abbrev Bytes := List Nat

/-- A `std::unordered_map<std::string, std::string>`: its entries. -/
abbrev StringMap := List (Bytes × Bytes)

/-- The UTF-8 encoding of one character: one to four bytes. -/
def utf8EncodeChar (c : Char) : Bytes :=
  let v := c.toNat
  if v ≤ 0x7F then [v]
  else if v ≤ 0x7FF then [0xC0 + v / 64, 0x80 + v % 64]
  else if v ≤ 0xFFFF then [0xE0 + v / 4096, 0x80 + v / 64 % 64, 0x80 + v % 64]
  else [0xF0 + v / 262144, 0x80 + v / 4096 % 64, 0x80 + v / 64 % 64, 0x80 + v % 64]

/-- The `std::string` that holds a text in UTF-8. -/
def utf8 (text : List Char) : Bytes :=
  (text.map utf8EncodeChar).flatten

/-- The `std::string` of a string literal of the source. -/
def str (s : String) : Bytes :=
  utf8 s.toList

/-- A `nlohmann::json` value. The members of an object are listed in the order `items()`
visits them; an object holds each key once. A string is held as a `std::string`, which for
a parsed document is the UTF-8 encoding of the text. A floating-point number is its bit
pattern. -/
inductive Json where
  | null
  | boolean (b : Bool)
  | number_integer (n : Int)
  | number_unsigned (n : Nat)
  | number_float (bits : Nat)
  | string (s : Bytes)
  | array (elems : List Json)
  | object (members : List (Bytes × Json))

instance : Inhabited Json := ⟨Json.null⟩

/-- `j.contains(key)`: only an object contains a key. -/
def Json.contains (j : Json) (key : Bytes) : Bool :=
  match j with
  | Json.object members => (members.lookup key).isSome
  | _ => false

/-- `j.is_object()`. -/
def Json.is_object (j : Json) : Bool :=
  match j with
  | Json.object _ => true
  | _ => false

/-- `j[key]`: the member of an object (null when the object has no such member, as of a
null value); any other kind of value throws. -/
def Json.index (j : Json) (key : Bytes) : Option Json :=
  match j with
  | Json.object members => some ((members.lookup key).getD Json.null)
  | Json.null => some Json.null
  | _ => none

/-- `j.items()` of an object. -/
def Json.items (j : Json) : List (Bytes × Json) :=
  match j with
  | Json.object members => members
  | _ => []

/-- `v.get<std::string>()`, also the conversion in `std::string x = v`: only a string
converts, every other kind throws. -/
def Json.get_string (v : Json) : Option (Bytes) :=
  match v with
  | Json.string s => some s
  | _ => none

/-- `v.get<bool>()`, the conversion in `bool x = v`: only a boolean converts. -/
def Json.get_bool (v : Json) : Option Bool :=
  match v with
  | Json.boolean b => some b
  | _ => none

/-- The members of an object with `key` set to `v`: objects are kept in the order of their
keys. -/
def insertMember (key : Bytes) (v : Json) :
    List (Bytes × Json) → List (Bytes × Json)
  | [] => [(key, v)]
  | (k, x) :: rest =>
    if key = k then (key, v) :: rest
    else if key < k then (key, v) :: (k, x) :: rest
    else (k, x) :: insertMember key v rest

/-- `j[key] = v` for a `j` that is null or an object; a null value becomes an object. -/
def Json.assign (j : Json) (key : Bytes) (v : Json) : Json :=
  match j with
  | Json.object members => Json.object (insertMember key v members)
  | Json.null => Json.object [(key, v)]
  | other => other

/-- `s.resize(n)` of `std::string`: the first `n` bytes, padded with zero bytes if there
are fewer. -/
def resize (s : Bytes) (n : Nat) : Bytes :=
  s.take n ++ List.replicate (n - s.length) 0

/-- `m[k] = v` of `std::unordered_map`: the value of the key is replaced if the map has
the key, and the entry is added if not. -/
def mapAssign (m : StringMap) (k v : Bytes) : StringMap :=
  if (m.lookup k).isSome then m.map (fun e => if e.1 == k then (e.1, v) else e)
  else m ++ [(k, v)]

/-- `struct AppSettings` with its default values. -/
structure AppSettings where
  hotkey : Bytes := str "Alt+V"
  modeStr : Bytes := str "auto"
  model : Bytes := str "tiny.en"
  useGPU : Bool := true
  startWithWindows : Bool := true
  snippets : StringMap :=
    [(str "insert email", str "you@yourdomain.com"),
     (str "insert todo", str "// TODO: "),
     (str "insert fixme", str "// FIXME: ")]

/-- `class ConfigManager`. -/
structure ConfigManager where
  m_settings : AppSettings := {}

/-- What opening `settings.json` for reading and parsing it comes to: the file cannot be
opened, `f >> j` throws, or `j` is the document. -/
inductive SettingsFile where
  | unopened
  | unparsable
  | document (j : Json)

/-- The `std::ofstream` of `save`: whether it opens, and whether it is good after the
write. -/
structure OutStream where
  is_open : Bool
  good : Bool

/-- `ConfigManager::save()`: the value returned and the document written, if any. -/
def ConfigManager.save (cm : ConfigManager) (f : OutStream) : Bool × Option Json :=
  if !f.is_open then (false, none)
  else
    let j := Json.null
    let j := j.assign (str "hotkey") (Json.string cm.m_settings.hotkey)
    let j := j.assign (str "mode") (Json.string cm.m_settings.modeStr)
    let j := j.assign (str "model") (Json.string cm.m_settings.model)
    let j := j.assign (str "use_gpu") (Json.boolean cm.m_settings.useGPU)
    let j := j.assign (str "start_with_windows") (Json.boolean cm.m_settings.startWithWindows)
    let snips := cm.m_settings.snippets.foldl
      (fun (acc : Json) e => acc.assign e.1 (Json.string e.2)) Json.null
    let j := j.assign (str "snippets") snips
    (f.good, some j)

/-- A string setting of `load`: `if (j.contains(key)) field = j[key];`. -/
def readString (j : Json) (key : Bytes) (field : Bytes) : Option (Bytes) :=
  if j.contains key then (j.index key).bind Json.get_string else some field

/-- A boolean setting of `load`: `if (j.contains(key)) field = j[key];`. -/
def readBool (j : Json) (key : Bytes) (field : Bool) : Option Bool :=
  if j.contains key then (j.index key).bind Json.get_bool else some field

/-- The loop of `load` over the items of the "snippets" object, `m` being
`m_settings.snippets`. -/
def loadSnippets : List (Bytes × Json) → StringMap → Option StringMap
  | [], m => some m
  | (k, v) :: rest, m =>
    match v.get_string with
    | none => none
    | some val =>
      let val1 := if val.length > 500 then resize val 500 else val
      loadSnippets rest (mapAssign m k val1)

/-- The `try` block of `load`: the settings when it ends, `none` when it throws. -/
def loadDocument (j : Json) (s : AppSettings) : Option AppSettings := do
  let hotkey ← readString j (str "hotkey") s.hotkey
  let modeStr ← readString j (str "mode") s.modeStr
  let model ← readString j (str "model") s.model
  let useGPU ← readBool j (str "use_gpu") s.useGPU
  let startWithWindows ← readBool j (str "start_with_windows") s.startWithWindows
  let snippets ←
    if j.contains (str "snippets") then
      match j.index (str "snippets") with
      | none => none
      | some snips => if snips.is_object then loadSnippets snips.items [] else some s.snippets
    else some s.snippets
  pure { hotkey := hotkey, modeStr := modeStr, model := model, useGPU := useGPU,
         startWithWindows := startWithWindows, snippets := snippets }

/-- `ConfigManager::load()`: the manager afterwards, the value returned and the document
written, if any. -/
def ConfigManager.load (cm : ConfigManager) (file : SettingsFile) (f : OutStream) :
    ConfigManager × Bool × Option Json :=
  match file with
  | SettingsFile.unopened => (cm, cm.save f)
  | SettingsFile.unparsable =>
    let cm1 : ConfigManager := { m_settings := {} }
    (cm1, cm1.save f)
  | SettingsFile.document j =>
    match loadDocument j cm.m_settings with
    | some s => ({ m_settings := s }, true, none)
    | none =>
      let cm1 : ConfigManager := { m_settings := {} }
      (cm1, cm1.save f)

/-! ## Auxiliary definitions for the statements -/

/-- The drop counter after `n` refused samples, starting from `d`. -/
def bumpDropped (n : Nat) (d : Int) : Int :=
  (fun x => wrapInt32 (x + 1))^[n] d

/-- A recording in progress: the initial state after one hot-key press. -/
def recordingWorld : World :=
  onHotkey ⟨true, 1000, true, true, false, AppMode.PROSE, "09:30"⟩
    (World.init "auto" false (16000 * 30)) HOTKEY_ID_RECORD


/-- Stand-in collaborators for concrete runs: an engine that hears nothing in fewer than
three samples, and formatting and snippet passes that leave the text alone. -/
def demoCollaborators : Collaborators :=
  { whisper := fun pcm => if pcm.length < 3 then "" else "hello world"
    FormatTranscription := fun raw _ => raw
    snippets := fun s => some s }

/-- A world in which one request has just been accepted: the flag is set and the worker
thread is at its first statement. -/
def transcribingWorld : World :=
  { World.init "auto" false (16000 * 30) with
    g_state := AppState.TRANSCRIBING
    g_transcriber := { m_busy := true }
    threads := [{ pcm := [1, 2, 3], doneMsg := WM_TRANSCRIPTION_DONE, pc := WorkerPc.whisper }]
    submitted := [[1, 2, 3]] }

/-- A recording that overflowed: what a capture session leaves when one chunk of 161
samples more than a 480 000-sample ring holds is delivered after a hot-key press. -/
def droppyWorld : World :=
  { StopRecordingOnce recordingWorld with
    g_audio := { m_device := { started := false }, m_dropped := 161, m_recordBuffer := [] }
    g_ring := { cap := 16000 * 30, items := List.replicate (16000 * 30) 0 } }

/-- A worker thread that has not returned yet. -/
def Worker.live (k : Worker) : Bool :=
  match k.pc with
  | WorkerPc.exited => false
  | _ => true

/-- Work in flight for the current session: posted messages not yet dispatched, worker
threads still running, and the completion handler if it is inside a call that never
returns. -/
def pendingWork (w : World) : Nat :=
  w.msgQueue.length + w.threads.countP Worker.live + (if w.hung then 1 else 0)

/-- The invariant of the message loop: the hot-key latch and the recording flag are set
exactly in `RECORDING`, `INJECTING` is never seen between two events, and exactly one
piece of work is in flight in `TRANSCRIBING` and none in any other state. -/
structure Coherent (w : World) : Prop where
  hotkey_iff : w.g_hotkeyDown = true ↔ w.g_state = AppState.RECORDING
  active_iff : w.g_recordingActive = true ↔ w.g_state = AppState.RECORDING
  not_injecting : w.g_state ≠ AppState.INJECTING
  done_msg : ∀ k ∈ w.threads, k.doneMsg = WM_TRANSCRIPTION_DONE
  queue_msgs : ∀ m ∈ w.msgQueue,
    m.msg = WM_START_TRANSCRIPTION ∨ m.msg = WM_TRANSCRIPTION_DONE
  pending : pendingWork w = if w.g_state = AppState.TRANSCRIBING then 1 else 0

/-- The hot-key-down event: `WM_HOTKEY` for the registered record hot key. -/
def hotkeyDownMsg : Msg := { msg := WM_HOTKEY, wp := HOTKEY_ID_RECORD, lp := none }

/-- Environment readings used in concrete runs: the device starts, Alt and V are held. -/
def demoEnv : Env :=
  { startOk := true, now := 1000, altHeld := true, vHeld := true, shiftKey := false,
    activeWindowMode := AppMode.PROSE, timestamp := "09:30" }

/-- The world once the context that won the compare-and-swap on `w` has executed every
statement of `StopRecordingOnce` before program counter `pc`. -/
def stopProgress (w : World) (pc : StopPc) : World :=
  let w0 := { w with g_recordingActive := false }
  let w1 := { w0 with g_audio := w0.g_audio.stopCapture }
  let w2 := { w1 with g_state := AppState.TRANSCRIBING }
  let w3 := { w2 with g_overlay := w2.g_overlay.setState OverlayState.Processing }
  let w4 := SetTrayIcon w3 IconId.IDI_IDLE_ICON "FLOW-ON! — Processing…"
  let w5 := PostMessageW w4 WM_START_TRANSCRIPTION
  let w6 := { w5 with keyTimer := false }
  match pc with
  | StopPc.cas => w
  | StopPc.stopCapture => w0
  | StopPc.storeState => w1
  | StopPc.setOverlay => w2
  | StopPc.setTray => w3
  | StopPc.post => w4
  | StopPc.killTimer => w5
  | StopPc.done => w6

/-- The invariant of a stop race that started on `w0` with the flag set: either nobody has
executed the compare-and-swap yet, or exactly one context `k` has won it, the world is
what `k` alone has made of `w0` so far, and every other context is still before its
compare-and-swap or has returned without winning. -/
def RaceInv (w0 : World) (s : StopRace) : Prop :=
  (s.world = w0 ∧ ∀ j, s.th j = { pc := StopPc.cas, won := false }) ∨
  (∃ k, (s.th k).won = true ∧ (s.th k).pc ≠ StopPc.cas ∧
    s.world = stopProgress w0 (s.th k).pc ∧
    ∀ j, j ≠ k → (s.th j).won = false ∧
      ((s.th j).pc = StopPc.cas ∨ (s.th j).pc = StopPc.done))

/-- How many statements of `StopRecordingOnce` a context at this program counter has
executed at least; a context that lost the compare-and-swap is at `done` after one. -/
def StopPc.rank : StopPc → Nat
  | StopPc.cas => 0
  | StopPc.stopCapture => 1
  | StopPc.storeState => 2
  | StopPc.setOverlay => 3
  | StopPc.setTray => 4
  | StopPc.post => 5
  | StopPc.killTimer => 6
  | StopPc.done => 7

/-- An interleaving of three contexts: context 1 executes its compare-and-swap first,
contexts 0 and 2 cut in while it is still inside the function. -/
def raceSchedule : List Nat := [1, 0, 1, 1, 2, 1, 1, 0, 1, 1]

/-- A world at exit time in which the last recording is still buffered: three samples in
the record buffer and two more pending in the ring. -/
def exitWorld : World :=
  { World.init "auto" false (16000 * 30) with
    g_audio := { m_device := { started := false }, m_dropped := 0, m_recordBuffer := [7, 8, 9] }
    g_ring := { cap := 16000 * 30, items := [10, 11] } }

/-- A world in which a second recording of 4 000 samples is about to be handed over while
the worker of `transcribingWorld` still holds the dispatcher. -/
def busyWorld : World :=
  { transcribingWorld with g_ring := { cap := 16000 * 30, items := List.replicate 4000 5 } }

/-- The capital ASCII letters, each with its small letter. -/
def asciiLetterPairs : List (Char × Char) :=
  "ABCDEFGHIJKLMNOPQRSTUVWXYZ".toList.zip "abcdefghijklmnopqrstuvwxyz".toList

/-- A character with the case of an ASCII letter set aside: a capital letter stands for its
small letter, every other character for itself. -/
def foldCase (c : Char) : Char :=
  (asciiLetterPairs.lookup c).getD c

/-- Whether the trigger stands at the start of the text, ASCII letters compared without
regard to case. -/
def occursAt (trigger text : List Char) : Bool :=
  (trigger.map foldCase).isPrefixOf (text.map foldCase)

/-- The text with every occurrence of the trigger replaced, as the specification words it:
scan left to right; where the trigger occurs (ASCII letters compared without regard to
case) put the value and go on behind the occurrence; copy every other character. The
number counts the characters of an occurrence still to be passed over. -/
def replaceOccurrences (trigger value : List Char) : Nat → List Char → List Char
  | _, [] => []
  | skip + 1, _ :: cs => replaceOccurrences trigger value skip cs
  | 0, c :: cs =>
    if occursAt trigger (c :: cs) then
      value ++ replaceOccurrences trigger value (trigger.length - 1) cs
    else c :: replaceOccurrences trigger value 0 cs

/-- The mode the completion handler formats with: the configured one, or the one detected
from the active window. -/
def completionMode (env : Env) (w : World) : AppMode :=
  if w.modeStr = "code" then AppMode.CODING
  else if w.modeStr = "prose" then AppMode.PROSE
  else env.activeWindowMode

/-- The text the completion handler ends up with (`formatted`): the result behind the
`LPARAM`, formatted, then run through the snippet engine; `none` when the snippet engine
never returns. -/
def completionText (c : Collaborators) (env : Env) (w : World) (lp : Option String) :
    Option String :=
  c.snippets (c.FormatTranscription (lp.getD "") (completionMode env w))

/-- The collaborators of the program itself: `FormatTranscription` and `SnippetEngine::apply`
as formatter.cpp and snippet_engine.cpp define them, on the snippet map `m_snippets`. -/
def flowOnCollaborators (whisper : List Sample → String) (m_snippets : SnippetMap) :
    Collaborators :=
  { whisper := whisper
    FormatTranscription := FormatTranscription
    snippets := fun s => (SnippetEngine.apply m_snippets s.toList).map String.mk }

/-- A pattern finds no match starting inside `pre`, whatever text follows `pre`; `prev` is
the character before `pre`. -/
def NoMatchIn (m : Option Char → List Char → Option Nat) : Option Char → List Char → Prop
  | _, [] => True
  | prev, c :: cs => (∀ y, m prev (c :: cs ++ y) = none) ∧ NoMatchIn m (some c) cs

/-- The two global-filler replacements of `removeFillers`. -/
def globalFillers (t : List Char) : List Char :=
  regexReplace FILLERS_GLOBAL_1 [' '] 0 none (regexReplace FILLERS_GLOBAL_0 [' '] 0 none t)

/-- What `FormatTranscription` does to a text once its leading filler, the comma and the
spaces behind it are gone: `rest` is the text that followed them. The global fillers are
taken out of `rest`, the spaces this leaves at its start go with the filler, and the other
two sentence-start patterns, `cleanup`, `fixPunctuation` and the coding transforms run as
usual. -/
def formatAfterLeadingFiller (rest : List Char) (mode : AppMode) : String :=
  let t3 := (globalFillers rest).dropWhile isSpaceW
  let t4 := regexReplace FILLERS_SENTENCE_START_1 [] 0 none t3
  let t5 := regexReplace FILLERS_SENTENCE_START_2 [] 0 none t4
  let t6 := fixPunctuation (cleanup t5)
  toNarrow (if mode = AppMode.CODING then applyCodingTransforms t6 else t6)

/-- The character before the position behind `pre`, `prev` being the one before `pre`. -/
def lastPrev : Option Char → List Char → Option Char
  | prev, [] => prev
  | _, c :: cs => lastPrev (some c) cs


/-- The characters a finished sentence ends with, for `fixPunctuation`. -/
def sentenceEnds : List Char := ['.', '?', '!', ':']

/-- Whether a text ends with one of the characters of `sentenceEnds`; the empty text does
not. -/
def endsSentence (t : List Char) : Bool :=
  match t.getLast? with
  | some c => sentenceEnds.contains c
  | none => false

/-- The cleaned-up text of `FormatTranscription`: what `fixPunctuation` is given. -/
def cleanedUp (raw : String) : List Char :=
  cleanup (removeFillers (toWide raw))

/-- The snippets of the settings after `load` has read the document whose top-level
members are `members`. -/
def loadedSnippets (cm : ConfigManager) (members : List (Bytes × Json)) (f : OutStream) :
    StringMap :=
  (cm.load (SettingsFile.document (Json.object members)) f).1.m_settings.snippets

/-- The member `key` is a string, or there is no such member. -/
def stringOrAbsent (members : List (Bytes × Json)) (key : Bytes) : Bool :=
  match members.lookup key with
  | some v => v.get_string.isSome
  | none => true

/-- The member `key` is a boolean, or there is no such member. -/
def boolOrAbsent (members : List (Bytes × Json)) (key : Bytes) : Bool :=
  match members.lookup key with
  | some v => v.get_bool.isSome
  | none => true

/-- Every member of the document that `load` converts has the kind of its setting: the
strings are strings, the booleans booleans, and the values of a "snippets" object are
strings. -/
def wellTyped (members : List (Bytes × Json)) : Bool :=
  stringOrAbsent members (str "hotkey") && stringOrAbsent members (str "mode") &&
    stringOrAbsent members (str "model") && boolOrAbsent members (str "use_gpu") &&
    boolOrAbsent members (str "start_with_windows") &&
    (match members.lookup (str "snippets") with
     | some (Json.object entries) => entries.all (fun e => e.2.get_string.isSome)
     | _ => true)

/-- The entries of a "snippets" object with a value of 501 letters x, one of 500 letters y
and a short one. -/
def longSnippetEntries : List (Bytes × Json) :=
  [(str "insert long", Json.string (utf8 (List.replicate 501 'x'))),
   (str "insert full", Json.string (utf8 (List.replicate 500 'y'))),
   (str "insert todo", Json.string (str "// TODO: "))]

/-- The members of a settings document with the snippets `longSnippetEntries`. -/
def longSnippetMembers : List (Bytes × Json) :=
  [(str "mode", Json.string (str "code")),
   (str "snippets", Json.object longSnippetEntries)]


/-- A text of 251 characters: the letter a and 250 times the letter é, which takes two
bytes in UTF-8. -/
def accentedText : List Char :=
  'a' :: List.replicate 250 'é'

/-- The members of a settings document whose one snippet has the value `accentedText`. -/
def accentedMembers : List (Bytes × Json) :=
  [(str "snippets", Json.object [(str "insert cafe", Json.string (utf8 accentedText))])]

/-- The characters of the class `\s`. -/
def spaceChars : List Char :=
  [' ', '\t', '\n', Char.ofNat 0x0B, Char.ofNat 0x0C, '\r']

/-- A filler as a sentence-start pattern takes it off a text: one of the pattern's words,
its letters in any case, then a comma if the pattern allows one, then one or more space
characters. -/
def IsFillerPrefix (words : List (List Char)) (comma : Bool) (p : List Char) : Prop :=
  ∃ F C WS, p = F ++ C ++ WS ∧ F.map foldCase ∈ words ∧
    (C = [] ∨ (comma = true ∧ C = [','])) ∧ WS ≠ [] ∧ ∀ c ∈ WS, c ∈ spaceChars

/-- What one sentence-start pattern makes of a text `x`: if `x` begins with a filler of the
pattern, `y` is `x` without that one filler and all the spaces behind it; if not, `y` is
`x`. -/
def StripsOneFiller (words : List (List Char)) (comma : Bool) (x y : List Char) : Prop :=
  (∃ p, x = p ++ y ∧ IsFillerPrefix words comma p ∧ ∀ c, y.head? = some c → c ∉ spaceChars) ∨
  (y = x ∧ ¬ ∃ p r, x = p ++ r ∧ IsFillerPrefix words comma p)

/-- A snippet map with the empty trigger. -/
def emptyTriggerMap : SnippetMap :=
  [([], "x".toList)]

/-- The members of a settings document whose one snippet has the empty trigger. -/
def emptyTriggerMembers : List (Bytes × Json) :=
  [(str "snippets", Json.object [([], Json.string (str "x"))])]

/-- The collaborators of the program with the empty trigger in its snippet map, and an
engine that hears "hello world". -/
def emptyTriggerCollaborators : Collaborators :=
  flowOnCollaborators (fun _ => "hello world") emptyTriggerMap

/-- The end of a transcription, from `transcribingWorld`: the worker thread runs the
engine, clears the busy flag and posts its result, and the message loop dispatches the
completion message. -/
def hangRun : List (Event × Env) :=
  [(Event.worker 0, demoEnv), (Event.worker 0, demoEnv), (Event.worker 0, demoEnv),
   (Event.dispatch, demoEnv)]
/-! ## Lemmas on the capture buffer -/

theorem wrapInt32_of_range (z : Int) (h1 : -(2 ^ 31) ≤ z) (h2 : z < 2 ^ 31) :
    wrapInt32 z = z := by
  unfold wrapInt32
  rw [Int.emod_eq_of_lt (by omega) (by omega)]
  omega

theorem wrapInt32_succ (z : Int) : wrapInt32 (wrapInt32 z + 1) = wrapInt32 (z + 1) := by
  unfold wrapInt32
  omega

theorem bumpDropped_succ (n : Nat) (d : Int) :
    bumpDropped (n + 1) d = wrapInt32 (d + (n + 1 : Nat)) := by
  induction n generalizing d with
  | zero => simp [bumpDropped]
  | succ m ih =>
    have h : bumpDropped (m + 1 + 1) d = bumpDropped (m + 1) (wrapInt32 (d + 1)) := by
      simp [bumpDropped, Function.iterate_succ]
    rw [h, ih]
    unfold wrapInt32
    push_cast
    omega

theorem bumpDropped_zero_lt (n : Nat) (h : n < 2 ^ 31) : bumpDropped n 0 = n := by
  cases n with
  | zero => simp [bumpDropped]
  | succ m =>
    rw [bumpDropped_succ, Int.zero_add]
    apply wrapInt32_of_range <;> omega

theorem flushRing_eq (ring : ReaderWriterQueue) :
    flushRing ring = { ring with items := [] } := by
  obtain ⟨cap, items⟩ := ring
  induction items with
  | nil => rw [flushRing]; simp [ReaderWriterQueue.try_dequeue]
  | cons s rest ih => rw [flushRing]; simp [ReaderWriterQueue.try_dequeue, ih]

theorem drainLoop_eq (ring : ReaderWriterQueue) (buf : List Sample) :
    drainLoop ring buf = (buf ++ ring.items, { ring with items := [] }) := by
  obtain ⟨cap, items⟩ := ring
  induction items generalizing buf with
  | nil => rw [drainLoop]; simp [ReaderWriterQueue.try_dequeue]
  | cons s rest ih => rw [drainLoop]; simp [ReaderWriterQueue.try_dequeue, ih]

theorem onAudioData_eq (a : AudioManager) (ring : ReaderWriterQueue) (data : List Sample) :
    a.onAudioData ring data =
      ({ a with m_dropped :=
            bumpDropped (data.length - (ring.cap - ring.items.length)) a.m_dropped },
       { ring with items := ring.items ++ data.take (ring.cap - ring.items.length) }) := by
  induction data generalizing a ring with
  | nil => simp [AudioManager.onAudioData, bumpDropped]
  | cons x xs ih =>
    rw [AudioManager.onAudioData]
    by_cases h : ring.items.length < ring.cap
    · have hk : ring.cap - ring.items.length = (ring.cap - (ring.items.length + 1)) + 1 := by
        omega
      simp only [ReaderWriterQueue.try_enqueue, h, if_true, ih]
      simp only [List.length_append, List.length_singleton, List.length_cons]
      rw [hk]
      simp [List.take_succ_cons]
    · have hk : ring.cap - ring.items.length = 0 := by omega
      simp only [ReaderWriterQueue.try_enqueue, h, if_false, ih]
      simp only [hk, List.take_zero, List.append_nil, Nat.sub_zero, List.length_cons]
      simp [bumpDropped, Function.iterate_succ]

theorem onAudioData_append (a : AudioManager) (ring : ReaderWriterQueue)
    (xs ys : List Sample) :
    a.onAudioData ring (xs ++ ys) =
      (a.onAudioData ring xs).1.onAudioData (a.onAudioData ring xs).2 ys := by
  induction xs generalizing a ring with
  | nil => simp [AudioManager.onAudioData]
  | cons x rest ih =>
    simp only [List.cons_append, AudioManager.onAudioData]
    exact ih _ _

theorem deliverChunks_eq (a : AudioManager) (ring : ReaderWriterQueue)
    (chunks : List (List Sample)) :
    deliverChunks a ring chunks = a.onAudioData ring chunks.flatten := by
  induction chunks generalizing a ring with
  | nil => simp [deliverChunks, AudioManager.onAudioData]
  | cons c cs ih => simp only [deliverChunks, List.flatten_cons, onAudioData_append, ih]

/-- What a capture session leaves behind: an empty record buffer, the first `cap`
delivered samples in the ring, and one counter bump per sample beyond them. -/
theorem captureSession_eq (a : AudioManager) (ring : ReaderWriterQueue) (startOk : Bool)
    (chunks : List (List Sample)) :
    captureSession a ring startOk chunks =
      ({ m_device := { started := false },
         m_dropped := bumpDropped (chunks.flatten.length - ring.cap) 0,
         m_recordBuffer := [] },
       { cap := ring.cap, items := chunks.flatten.take ring.cap }) := by
  simp [captureSession, AudioManager.startCapture, AudioManager.resetDropCounter,
    flushRing_eq, deliverChunks_eq, onAudioData_eq, AudioManager.stopCapture]

/-- The buffer `drainBuffer` returns after a capture session. -/
theorem drain_session_eq (a : AudioManager) (ring : ReaderWriterQueue) (startOk : Bool)
    (chunks : List (List Sample)) :
    ((captureSession a ring startOk chunks).1.drainBuffer
        (captureSession a ring startOk chunks).2).1 = chunks.flatten.take ring.cap := by
  simp [captureSession_eq, AudioManager.drainBuffer, drainLoop_eq]

theorem drain_session_dropped (a : AudioManager) (ring : ReaderWriterQueue) (startOk : Bool)
    (chunks : List (List Sample)) :
    ((captureSession a ring startOk chunks).1.drainBuffer
        (captureSession a ring startOk chunks).2).2.1.getDroppedSamples =
      bumpDropped (chunks.flatten.length - ring.cap) 0 := by
  simp [captureSession_eq, AudioManager.drainBuffer, AudioManager.getDroppedSamples]

/-- The counter after the ring of capacity `cap` has been offered 2^32 samples: it has
wrapped past the top of the 32-bit range and reads `-cap`. -/
theorem bumpDropped_wrapped (cap : Nat) (h1 : 0 < cap) (h2 : cap ≤ 2 ^ 31) :
    bumpDropped (2 ^ 32 - cap) 0 = -(cap : Int) := by
  have e : 2 ^ 32 - cap = (2 ^ 32 - cap - 1) + 1 := by omega
  rw [e, bumpDropped_succ, ← e]
  unfold wrapInt32
  omega

/-- Two chunks of 2^31 samples each break the accounting on any ring of at most 2^31
samples: the ring keeps `cap` of them and the wrapped counter reads `-cap`. -/
theorem drain_overflow (a : AudioManager) (ring : ReaderWriterQueue) (startOk : Bool)
    (x : Sample) (h1 : 0 < ring.cap) (h2 : ring.cap ≤ 2 ^ 31) :
    ¬ ((((captureSession a ring startOk
          [List.replicate (2 ^ 31) x, List.replicate (2 ^ 31) x]).1.drainBuffer
        (captureSession a ring startOk
          [List.replicate (2 ^ 31) x, List.replicate (2 ^ 31) x]).2).1.length : Int) =
      (([List.replicate (2 ^ 31) x, List.replicate (2 ^ 31) x]
          : List (List Sample)).flatten.length : Int) -
        ((captureSession a ring startOk
          [List.replicate (2 ^ 31) x, List.replicate (2 ^ 31) x]).1.drainBuffer
        (captureSession a ring startOk
          [List.replicate (2 ^ 31) x, List.replicate (2 ^ 31) x]).2).2.1.getDroppedSamples) := by
  rw [drain_session_dropped, drain_session_eq]
  generalize hn : (2 : Nat) ^ 31 = n at *
  have hj : ([List.replicate n x, List.replicate n x] : List (List Sample)).flatten.length
      = n + n := by
    simp only [List.flatten_cons, List.flatten_nil, List.append_nil, List.length_append,
      List.length_replicate]
  rw [List.length_take, hj]
  have e : n + n = 2 ^ 32 := by omega
  rw [e, bumpDropped_wrapped ring.cap h1 (by omega)]
  omega

/-! ## Capture buffer: drop accounting and order -/

/-- C3 (as amended): in a session that drops fewer than 2^31 samples, the length of the
vector returned by `drainBuffer` equals the number of samples delivered to `onAudioData`
minus the value of the drop counter. -/
theorem drain_length_eq_delivered_sub_dropped (a : AudioManager) (ring : ReaderWriterQueue)
    (startOk : Bool) (chunks : List (List Sample))
    (h : chunks.flatten.length -
      ((captureSession a ring startOk chunks).1.drainBuffer
        (captureSession a ring startOk chunks).2).1.length < 2 ^ 31) :
    ((((captureSession a ring startOk chunks).1.drainBuffer
        (captureSession a ring startOk chunks).2).1.length : Nat) : Int) =
      (chunks.flatten.length : Int) -
        ((captureSession a ring startOk chunks).1.drainBuffer
          (captureSession a ring startOk chunks).2).2.1.getDroppedSamples := by
  rw [drain_session_dropped]
  rw [drain_session_eq] at h ⊢
  rw [List.length_take] at h ⊢
  have hd : chunks.flatten.length - ring.cap < 2 ^ 31 := by omega
  rw [bumpDropped_zero_lt _ hd]
  omega

/-- Witness for C3: two chunks into a ring of capacity 3. -/
theorem drain_length_eq_delivered_sub_dropped_witness :
    ((((captureSession ⟨⟨false⟩, 7, [9]⟩ ⟨3, [8]⟩ true [[1, 2], [3, 4, 5]]).1.drainBuffer
        (captureSession ⟨⟨false⟩, 7, [9]⟩ ⟨3, [8]⟩ true [[1, 2], [3, 4, 5]]).2).1.length
          : Nat) : Int) =
      (([[1, 2], [3, 4, 5]] : List (List Sample)).flatten.length : Int) -
        ((captureSession ⟨⟨false⟩, 7, [9]⟩ ⟨3, [8]⟩ true [[1, 2], [3, 4, 5]]).1.drainBuffer
          (captureSession ⟨⟨false⟩, 7, [9]⟩ ⟨3, [8]⟩ true
            [[1, 2], [3, 4, 5]]).2).2.1.getDroppedSamples :=
  drain_length_eq_delivered_sub_dropped ⟨⟨false⟩, 7, [9]⟩ ⟨3, [8]⟩ true [[1, 2], [3, 4, 5]]
    (by simp [drain_session_eq])

/-- C3 (as stated) fails: a session that delivers 2^32 samples to a 480 000-sample ring
returns 480 000 samples while the 32-bit drop counter has wrapped and reads -480 000. -/
theorem drain_length_counterexample :
    ¬ ((((captureSession ⟨⟨false⟩, 0, []⟩ ⟨480000, []⟩ true
          [List.replicate (2 ^ 31) 0, List.replicate (2 ^ 31) 0]).1.drainBuffer
        (captureSession ⟨⟨false⟩, 0, []⟩ ⟨480000, []⟩ true
          [List.replicate (2 ^ 31) 0, List.replicate (2 ^ 31) 0]).2).1.length : Int) =
      (([List.replicate (2 ^ 31) 0, List.replicate (2 ^ 31) 0]
          : List (List Sample)).flatten.length : Int) -
        ((captureSession ⟨⟨false⟩, 0, []⟩ ⟨480000, []⟩ true
          [List.replicate (2 ^ 31) 0, List.replicate (2 ^ 31) 0]).1.drainBuffer
        (captureSession ⟨⟨false⟩, 0, []⟩ ⟨480000, []⟩ true
          [List.replicate (2 ^ 31) 0, List.replicate (2 ^ 31) 0]).2).2.1.getDroppedSamples) :=
  drain_overflow ⟨⟨false⟩, 0, []⟩ ⟨480000, []⟩ true 0 (by decide) (by decide)

/-- C4: the vector returned by `drainBuffer` after a capture session is a subsequence of
the delivered samples in delivery order (in fact their first `cap` samples): nothing is
reordered or duplicated. -/
theorem drain_preserves_order (a : AudioManager) (ring : ReaderWriterQueue)
    (startOk : Bool) (chunks : List (List Sample)) :
    List.Sublist
        ((captureSession a ring startOk chunks).1.drainBuffer
          (captureSession a ring startOk chunks).2).1 chunks.flatten ∧
      ((captureSession a ring startOk chunks).1.drainBuffer
          (captureSession a ring startOk chunks).2).1 = chunks.flatten.take ring.cap := by
  rw [drain_session_eq]
  exact ⟨List.take_sublist _ _, rfl⟩

/-! ## Stop-once -/

/-- C1: from any state whose `g_recordingActive` is true, the first `StopRecordingOnce`
clears the flag, stops the capture device, stores `TRANSCRIBING` and posts exactly one
`WM_START_TRANSCRIPTION`; a second call right after it changes nothing. -/
theorem stop_twice_transitions_once (w : World) (h : w.g_recordingActive = true) :
    (StopRecordingOnce w).g_recordingActive = false ∧
      (StopRecordingOnce w).g_audio.m_device.started = false ∧
      (StopRecordingOnce w).g_state = AppState.TRANSCRIBING ∧
      (StopRecordingOnce w).msgQueue =
        w.msgQueue ++ [{ msg := WM_START_TRANSCRIPTION, wp := 0, lp := none }] ∧
      StopRecordingOnce (StopRecordingOnce w) = StopRecordingOnce w := by
  simp [StopRecordingOnce, compare_exchange_strong, h, PostMessageW, SetTrayIcon,
    AudioManager.stopCapture]

theorem recordingWorld_active : recordingWorld.g_recordingActive = true := by
  simp [recordingWorld, onHotkey, World.init, HOTKEY_ID_RECORD, SetTrayIcon]

/-- Witness for C1: two stop triggers after one hot-key press. -/
theorem stop_twice_transitions_once_witness :
    recordingWorld.g_recordingActive = true ∧
      (StopRecordingOnce recordingWorld).g_recordingActive = false ∧
      (StopRecordingOnce recordingWorld).g_audio.m_device.started = false ∧
      (StopRecordingOnce recordingWorld).g_state = AppState.TRANSCRIBING ∧
      (StopRecordingOnce recordingWorld).msgQueue =
        recordingWorld.msgQueue ++ [{ msg := WM_START_TRANSCRIPTION, wp := 0, lp := none }] ∧
      StopRecordingOnce (StopRecordingOnce recordingWorld) = StopRecordingOnce recordingWorld :=
  ⟨recordingWorld_active, stop_twice_transitions_once recordingWorld recordingWorld_active⟩

/-! ## Single-flight dispatch -/

/-- C5: `transcribeAsync` returns true exactly when `m_busy` was false. On acceptance the
flag is true afterwards and exactly one worker thread is added; on a busy call it returns
false, starts no worker, and the flag stays true. -/
theorem transcribeAsync_single_flight (t : Transcriber) (threads : List Worker)
    (pcm : List Sample) (doneMsg : Nat) :
    ((t.transcribeAsync threads pcm doneMsg).1 = true ↔ t.m_busy = false) ∧
      (t.m_busy = false →
        (t.transcribeAsync threads pcm doneMsg).2.1.m_busy = true ∧
        (t.transcribeAsync threads pcm doneMsg).2.2 =
          threads ++ [{ pcm := pcm, doneMsg := doneMsg, pc := WorkerPc.whisper }]) ∧
      (t.m_busy = true →
        (t.transcribeAsync threads pcm doneMsg).1 = false ∧
        (t.transcribeAsync threads pcm doneMsg).2.1.m_busy = true ∧
        (t.transcribeAsync threads pcm doneMsg).2.2 = threads) := by
  obtain ⟨b⟩ := t
  cases b <;> simp [Transcriber.transcribeAsync, compare_exchange_strong]

/-- C6: a worker that was just started (program counter `whisper`) takes three steps, with
the rest of the process free to act in between as long as it leaves this worker's own
record alone (`w1`, `w2` are the worlds it finds at its second and third step). The
engine step posts nothing; the second step stores false in `m_busy` and posts nothing;
only the third step posts, and it posts exactly one message carrying the result; after
that the worker never acts again. -/
theorem worker_resets_busy_before_posting (c : Collaborators) (w w1 w2 : World) (i : Nat)
    (k : Worker) (hk : w.threads[i]? = some k) (hpc : k.pc = WorkerPc.whisper)
    (h1 : w1.threads[i]? = (stepWorker c w i).threads[i]?)
    (h2 : w2.threads[i]? = (stepWorker c w1 i).threads[i]?) :
    (stepWorker c w i).msgQueue = w.msgQueue ∧
      (stepWorker c w1 i).g_transcriber.m_busy = false ∧
      (stepWorker c w1 i).msgQueue = w1.msgQueue ∧
      (stepWorker c w2 i).msgQueue =
        w2.msgQueue ++ [{ msg := k.doneMsg, wp := 0, lp := some (c.whisper k.pcm) }] ∧
      (stepWorker c w2 i).g_transcriber = w2.g_transcriber ∧
      ∀ w3 : World, w3.threads[i]? = (stepWorker c w2 i).threads[i]? →
        stepWorker c w3 i = w3 := by
  have hi : i < w.threads.length := by
    rcases Nat.lt_or_ge i w.threads.length with h | h
    · exact h
    · rw [List.getElem?_eq_none h] at hk; cases hk
  have e1 : w1.threads[i]? = some { k with pc := WorkerPc.resetBusy (c.whisper k.pcm) } := by
    rw [h1]
    simp [stepWorker, hk, Worker.step, hpc, List.getElem?_set, hi]
  have hi1 : i < w1.threads.length := by
    rcases Nat.lt_or_ge i w1.threads.length with h | h
    · exact h
    · rw [List.getElem?_eq_none h] at e1; cases e1
  have e2 : w2.threads[i]? = some { k with pc := WorkerPc.post (c.whisper k.pcm) } := by
    rw [h2]
    simp [stepWorker, e1, Worker.step, List.getElem?_set, hi1]
  have hi2 : i < w2.threads.length := by
    rcases Nat.lt_or_ge i w2.threads.length with h | h
    · exact h
    · rw [List.getElem?_eq_none h] at e2; cases e2
  refine ⟨?_, ?_, ?_, ?_, ?_, ?_⟩
  · simp [stepWorker, hk, Worker.step, hpc]
  · simp [stepWorker, e1, Worker.step]
  · simp [stepWorker, e1, Worker.step]
  · simp [stepWorker, e2, Worker.step]
  · simp [stepWorker, e2, Worker.step]
  · intro w3 h3
    have e3 : w3.threads[i]? = some { k with pc := WorkerPc.exited } := by
      rw [h3]
      simp [stepWorker, e2, Worker.step, List.getElem?_set, hi2]
    have hi3 : i < w3.threads.length := by
      rcases Nat.lt_or_ge i w3.threads.length with h | h
      · exact h
      · rw [List.getElem?_eq_none h] at e3; cases e3
    have hset : w3.threads.set i { k with pc := WorkerPc.exited } = w3.threads := by
      apply List.ext_getElem?
      intro j
      by_cases hj : i = j
      · subst hj; simp [List.getElem?_set, hi3, e3]
      · simp [List.getElem?_set, hj]
    simp [stepWorker, e3, Worker.step, hset]

/-- Witness for C6: the worker of `transcribingWorld`, run without interference. -/
theorem worker_resets_busy_before_posting_witness :
    (stepWorker demoCollaborators transcribingWorld 0).msgQueue = transcribingWorld.msgQueue ∧
      (stepWorker demoCollaborators
        (stepWorker demoCollaborators transcribingWorld 0) 0).g_transcriber.m_busy = false ∧
      (stepWorker demoCollaborators
        (stepWorker demoCollaborators transcribingWorld 0) 0).msgQueue =
          (stepWorker demoCollaborators transcribingWorld 0).msgQueue ∧
      (stepWorker demoCollaborators (stepWorker demoCollaborators
        (stepWorker demoCollaborators transcribingWorld 0) 0) 0).msgQueue =
          (stepWorker demoCollaborators
            (stepWorker demoCollaborators transcribingWorld 0) 0).msgQueue ++
            [{ msg := WM_TRANSCRIPTION_DONE, wp := 0,
               lp := some (demoCollaborators.whisper [1, 2, 3]) }] ∧
      (stepWorker demoCollaborators (stepWorker demoCollaborators
        (stepWorker demoCollaborators transcribingWorld 0) 0) 0).g_transcriber =
          (stepWorker demoCollaborators
            (stepWorker demoCollaborators transcribingWorld 0) 0).g_transcriber ∧
      ∀ w3 : World, w3.threads[0]? =
          (stepWorker demoCollaborators (stepWorker demoCollaborators
            (stepWorker demoCollaborators transcribingWorld 0) 0) 0).threads[0]? →
        stepWorker demoCollaborators w3 0 = w3 :=
  worker_resets_busy_before_posting demoCollaborators transcribingWorld
    (stepWorker demoCollaborators transcribingWorld 0)
    (stepWorker demoCollaborators (stepWorker demoCollaborators transcribingWorld 0) 0)
    0 { pcm := [1, 2, 3], doneMsg := WM_TRANSCRIPTION_DONE, pc := WorkerPc.whisper }
    rfl rfl rfl rfl

/-! ## Quality gate -/

theorem drainBuffer_fst (a : AudioManager) (ring : ReaderWriterQueue) :
    (a.drainBuffer ring).1 = a.m_recordBuffer ++ ring.items := by
  simp [AudioManager.drainBuffer, drainLoop_eq]

/-- The handler on a recording that fails the gate. -/
theorem onStartTranscription_reject (w : World)
    (h : (w.g_audio.drainBuffer w.g_ring).1.length < 16000 / 4 ∨
      160 < w.g_audio.getDroppedSamples) :
    onStartTranscription w =
      { w with
        g_audio := (w.g_audio.drainBuffer w.g_ring).2.1.resetDropCounter
        g_ring := (w.g_audio.drainBuffer w.g_ring).2.2
        g_overlay := w.g_overlay.setState OverlayState.Error
        g_state := AppState.IDLE
        g_nid :=
          { icon := IconId.IDI_IDLE_ICON
            szTip :=
              if (w.g_audio.drainBuffer w.g_ring).1.length < 16000 / 4 then
                "FLOW-ON! — Too short, try again"
              else "FLOW-ON! — Audio capture error (" ++
                toString w.g_audio.getDroppedSamples ++ " drops)" } } := by
  have hc : (decide ((w.g_audio.drainBuffer w.g_ring).1.length < 16000 / 4) ||
      decide (w.g_audio.getDroppedSamples > 160)) = true := by
    rcases h with h | h <;> simp [h]
  unfold onStartTranscription
  simp only [AudioManager.getDroppedSamples, AudioManager.drainBuffer,
    AudioManager.resetDropCounter] at hc ⊢
  rw [if_pos hc]
  simp [SetTrayIcon]

/-- The handler on a recording that passes the gate. -/
theorem onStartTranscription_pass (w : World)
    (h1 : ¬ (w.g_audio.drainBuffer w.g_ring).1.length < 16000 / 4)
    (h2 : ¬ 160 < w.g_audio.getDroppedSamples) :
    (onStartTranscription w).submitted =
        w.submitted ++ [(w.g_audio.drainBuffer w.g_ring).1] ∧
      (w.g_transcriber.m_busy = false →
        (onStartTranscription w).threads =
          w.threads ++ [{ pcm := (w.g_audio.drainBuffer w.g_ring).1,
                          doneMsg := WM_TRANSCRIPTION_DONE, pc := WorkerPc.whisper }] ∧
        (onStartTranscription w).g_transcriber.m_busy = true ∧
        (onStartTranscription w).g_state = w.g_state) := by
  have hc : ¬ (decide ((w.g_audio.drainBuffer w.g_ring).1.length < 16000 / 4) ||
      decide (w.g_audio.getDroppedSamples > 160)) = true := by
    simp [h1, h2]
  unfold onStartTranscription
  simp only [AudioManager.getDroppedSamples, AudioManager.drainBuffer,
    AudioManager.resetDropCounter] at hc ⊢
  rw [if_neg hc]
  constructor
  · cases hb : w.g_transcriber.m_busy <;>
      simp [Transcriber.transcribeAsync, compare_exchange_strong, hb, SetTrayIcon]
  · intro hb
    simp [Transcriber.transcribeAsync, compare_exchange_strong, hb]

/-- C7: a recording of exactly 4 000 samples with no drops passes the gate and is handed
to `transcribeAsync` (which starts a worker on it when the dispatcher is free); every
recording of fewer than 4 000 samples is rejected as too short, back to `IDLE`, without
reaching `transcribeAsync`. -/
theorem gate_boundary_at_4000 (w : World) :
    ((w.g_audio.drainBuffer w.g_ring).1.length = 4000 → w.g_audio.getDroppedSamples = 0 →
        (onStartTranscription w).submitted =
          w.submitted ++ [(w.g_audio.drainBuffer w.g_ring).1] ∧
        (w.g_transcriber.m_busy = false →
          (onStartTranscription w).threads =
            w.threads ++ [{ pcm := (w.g_audio.drainBuffer w.g_ring).1,
                            doneMsg := WM_TRANSCRIPTION_DONE, pc := WorkerPc.whisper }] ∧
          (onStartTranscription w).g_transcriber.m_busy = true ∧
          (onStartTranscription w).g_state = w.g_state)) ∧
      ((w.g_audio.drainBuffer w.g_ring).1.length < 4000 →
        (onStartTranscription w).g_state = AppState.IDLE ∧
        (onStartTranscription w).g_nid.szTip = "FLOW-ON! — Too short, try again" ∧
        (onStartTranscription w).submitted = w.submitted ∧
        (onStartTranscription w).threads = w.threads ∧
        (onStartTranscription w).g_transcriber = w.g_transcriber) := by
  constructor
  · intro hl hd
    exact onStartTranscription_pass w (by rw [hl]; decide) (by rw [hd]; decide)
  · intro hl
    have hl2 : (w.g_audio.drainBuffer w.g_ring).1.length < 16000 / 4 := by
      have : (16000 / 4 : Nat) = 4000 := by decide
      omega
    rw [onStartTranscription_reject w (Or.inl hl2)]
    simp [hl2]

/-- C9: a recording the gate rejects, as too short or with too many drops, never reaches
`transcribeAsync`: the handler leaves the state `IDLE`, and the busy flag, the worker
threads and the log of submitted buffers are as before. -/
theorem rejected_recording_never_submitted (w : World)
    (h : (w.g_audio.drainBuffer w.g_ring).1.length < 16000 / 4 ∨
      160 < w.g_audio.getDroppedSamples) :
    (onStartTranscription w).g_state = AppState.IDLE ∧
      (onStartTranscription w).g_transcriber.m_busy = w.g_transcriber.m_busy ∧
      (onStartTranscription w).threads = w.threads ∧
      (onStartTranscription w).submitted = w.submitted := by
  rw [onStartTranscription_reject w h]
  simp

/-- Witness for C9: the stop right after a hot-key press, with nothing captured. -/
theorem rejected_recording_never_submitted_witness :
    (onStartTranscription (StopRecordingOnce recordingWorld)).g_state = AppState.IDLE ∧
      (onStartTranscription (StopRecordingOnce recordingWorld)).g_transcriber.m_busy =
        (StopRecordingOnce recordingWorld).g_transcriber.m_busy ∧
      (onStartTranscription (StopRecordingOnce recordingWorld)).threads =
        (StopRecordingOnce recordingWorld).threads ∧
      (onStartTranscription (StopRecordingOnce recordingWorld)).submitted =
        (StopRecordingOnce recordingWorld).submitted :=
  rejected_recording_never_submitted (StopRecordingOnce recordingWorld)
    (Or.inl (by
      simp [drainBuffer_fst, StopRecordingOnce, recordingWorld, onHotkey, World.init,
        HOTKEY_ID_RECORD, SetTrayIcon, PostMessageW, compare_exchange_strong,
        AudioManager.startCapture, AudioManager.stopCapture, AudioManager.resetDropCounter,
        flushRing_eq]))

/-- A session whose counter reads above zero has filled the ring. -/
theorem session_dropped_pos_full (a : AudioManager) (ring : ReaderWriterQueue)
    (startOk : Bool) (chunks : List (List Sample))
    (h : 0 < (captureSession a ring startOk chunks).1.getDroppedSamples) :
    ((captureSession a ring startOk chunks).1.drainBuffer
      (captureSession a ring startOk chunks).2).1.length = ring.cap := by
  rw [drain_session_eq, List.length_take]
  rw [captureSession_eq] at h
  simp only [AudioManager.getDroppedSamples] at h
  rcases Nat.eq_zero_or_pos (chunks.flatten.length - ring.cap) with h0 | h0
  · rw [h0] at h
    simp [bumpDropped] at h
  · omega

/-- C8: take a recording made by a capture session on a ring built for at least
16000 * 30 samples, as audio_manager.cpp builds it. If its drop counter exceeds 160 the
handler rejects it as an audio capture error whose tip carries the drop count, back to
`IDLE` and without reaching `transcribeAsync`. A counter of 160 or less never leads
there: the recording is either rejected as too short or handed to `transcribeAsync`. -/
theorem droppy_recording_rejected (w : World) (a : AudioManager) (ring : ReaderWriterQueue)
    (startOk : Bool) (chunks : List (List Sample)) (hcap : 16000 * 30 ≤ ring.cap)
    (ha : w.g_audio = (captureSession a ring startOk chunks).1)
    (hr : w.g_ring = (captureSession a ring startOk chunks).2) :
    (160 < w.g_audio.getDroppedSamples →
        (onStartTranscription w).g_state = AppState.IDLE ∧
        (onStartTranscription w).g_nid.szTip =
          "FLOW-ON! — Audio capture error (" ++ toString w.g_audio.getDroppedSamples ++
            " drops)" ∧
        (onStartTranscription w).submitted = w.submitted ∧
        (onStartTranscription w).threads = w.threads) ∧
      (w.g_audio.getDroppedSamples ≤ 160 →
        ((w.g_audio.drainBuffer w.g_ring).1.length < 4000 ∧
          (onStartTranscription w).g_nid.szTip = "FLOW-ON! — Too short, try again") ∨
        (onStartTranscription w).submitted =
          w.submitted ++ [(w.g_audio.drainBuffer w.g_ring).1]) := by
  have e16 : (16000 / 4 : Nat) = 4000 := by decide
  constructor
  · intro hd
    have hfull := session_dropped_pos_full a ring startOk chunks (by rw [← ha]; omega)
    rw [← ha, ← hr] at hfull
    have hlen : ¬ (w.g_audio.drainBuffer w.g_ring).1.length < 16000 / 4 := by
      rw [hfull, e16]; omega
    rw [onStartTranscription_reject w (Or.inr hd)]
    simp [hlen]
  · intro hd
    by_cases hl : (w.g_audio.drainBuffer w.g_ring).1.length < 16000 / 4
    · left
      refine ⟨by omega, ?_⟩
      rw [onStartTranscription_reject w (Or.inl hl)]
      simp [hl]
    · right
      exact (onStartTranscription_pass w hl (by omega)).1

/-- The session that delivers one chunk of 161 samples more than the ring holds. -/
theorem overflow_session_eq (n : Nat) (x : Sample) (a : AudioManager) :
    ({ m_device := { started := false }, m_dropped := 161, m_recordBuffer := [] }
        : AudioManager) =
        (captureSession a { cap := n, items := [] } true [List.replicate (n + 161) x]).1 ∧
      ({ cap := n, items := List.replicate n x } : ReaderWriterQueue) =
        (captureSession a { cap := n, items := [] } true [List.replicate (n + 161) x]).2 := by
  rw [captureSession_eq]
  have e : n + 161 - n = 161 := by omega
  have hb : bumpDropped 161 0 = 161 := bumpDropped_zero_lt 161 (by norm_num)
  have hm : min n (n + 161) = n := by omega
  constructor
  · simp only [List.flatten_singleton, List.length_replicate, e, hb]
  · simp only [List.flatten_singleton, List.take_replicate, hm]

theorem droppyWorld_session :
    droppyWorld.g_audio = (captureSession recordingWorld.g_audio
        { cap := 16000 * 30, items := [] } true [List.replicate (16000 * 30 + 161) 0]).1 ∧
      droppyWorld.g_ring = (captureSession recordingWorld.g_audio
        { cap := 16000 * 30, items := [] } true [List.replicate (16000 * 30 + 161) 0]).2 :=
  overflow_session_eq (16000 * 30) 0 recordingWorld.g_audio

/-- Witness for C8: the recording of `droppyWorld`, whose counter reads 161. -/
theorem droppy_recording_rejected_witness :
    droppyWorld.g_audio.getDroppedSamples = 161 ∧
      ((160 < droppyWorld.g_audio.getDroppedSamples →
        (onStartTranscription droppyWorld).g_state = AppState.IDLE ∧
        (onStartTranscription droppyWorld).g_nid.szTip =
          "FLOW-ON! — Audio capture error (" ++
            toString droppyWorld.g_audio.getDroppedSamples ++ " drops)" ∧
        (onStartTranscription droppyWorld).submitted = droppyWorld.submitted ∧
        (onStartTranscription droppyWorld).threads = droppyWorld.threads) ∧
      (droppyWorld.g_audio.getDroppedSamples ≤ 160 →
        ((droppyWorld.g_audio.drainBuffer droppyWorld.g_ring).1.length < 4000 ∧
          (onStartTranscription droppyWorld).g_nid.szTip =
            "FLOW-ON! — Too short, try again") ∨
        (onStartTranscription droppyWorld).submitted =
          droppyWorld.submitted ++ [(droppyWorld.g_audio.drainBuffer droppyWorld.g_ring).1])) :=
  ⟨rfl,
    droppy_recording_rejected droppyWorld recordingWorld.g_audio
      { cap := 16000 * 30, items := [] } true [List.replicate (16000 * 30 + 161) 0]
      (Nat.le_refl _) droppyWorld_session.1 droppyWorld_session.2⟩

/-! ## The message-loop invariant -/

theorem coherent_init (modeStr : String) (fallback : Bool) (ringCap : Nat) :
    Coherent (World.init modeStr fallback ringCap) := by
  constructor <;> simp [World.init, pendingWork]

theorem coherent_onHotkey (env : Env) (w : World) (wp : Nat) (h : Coherent w) :
    Coherent (onHotkey env w wp) := by
  unfold onHotkey
  split
  · rename_i hc
    obtain ⟨_, _, hs⟩ := hc
    have hp := h.pending
    rw [hs] at hp
    constructor
    · simp [SetTrayIcon]
    · simp [SetTrayIcon]
    · simp [SetTrayIcon]
    · exact h.done_msg
    · exact h.queue_msgs
    · simpa [pendingWork, SetTrayIcon] using hp
  · exact h

theorem coherent_stop (w : World) (h : Coherent w) (hs : w.g_state = AppState.RECORDING) :
    Coherent (StopRecordingOnce { w with g_hotkeyDown := false }) := by
  have ha : w.g_recordingActive = true := h.active_iff.mpr hs
  have hp := h.pending
  rw [hs] at hp
  simp only [pendingWork] at hp
  rw [if_neg (show ¬ AppState.RECORDING = AppState.TRANSCRIBING by decide)] at hp
  constructor
  · simp [StopRecordingOnce, compare_exchange_strong, ha, SetTrayIcon, PostMessageW]
  · simp [StopRecordingOnce, compare_exchange_strong, ha, SetTrayIcon, PostMessageW]
  · simp [StopRecordingOnce, compare_exchange_strong, ha, SetTrayIcon, PostMessageW]
  · simpa [StopRecordingOnce, compare_exchange_strong, ha, SetTrayIcon, PostMessageW]
      using h.done_msg
  · intro m hm
    simp only [StopRecordingOnce, compare_exchange_strong, ha, SetTrayIcon, PostMessageW,
      if_true, List.mem_append, List.mem_singleton] at hm
    rcases hm with hm | hm
    · exact h.queue_msgs m hm
    · left; rw [hm]
  · simp [StopRecordingOnce, compare_exchange_strong, ha, SetTrayIcon, PostMessageW,
      pendingWork]
    omega

theorem coherent_onTimer (env : Env) (w : World) (wp : Nat) (h : Coherent w) :
    Coherent (onTimer env w wp) := by
  unfold onTimer
  by_cases hc : wp = TIMER_ID_KEYCHECK ∧ w.g_hotkeyDown = true
  · rw [if_pos hc]
    dsimp only
    by_cases hrel : (!env.altHeld || !env.vHeld ||
        !(if w.g_altHotkeyFallback = true then env.shiftKey else true)) = true
    · rw [if_pos hrel]
      exact coherent_stop w h (h.hotkey_iff.mp hc.2)
    · rw [if_neg hrel]
      exact h
  · rw [if_neg hc]
    exact h

/-- The handler on a recording that passes the gate while the dispatcher is free. -/
theorem onStartTranscription_accept (w : World)
    (h1 : ¬ (w.g_audio.drainBuffer w.g_ring).1.length < 16000 / 4)
    (h2 : ¬ 160 < w.g_audio.getDroppedSamples) (hb : w.g_transcriber.m_busy = false) :
    onStartTranscription w =
      { w with
        g_audio := (w.g_audio.drainBuffer w.g_ring).2.1.resetDropCounter
        g_ring := (w.g_audio.drainBuffer w.g_ring).2.2
        g_transcriber := { m_busy := true }
        threads := w.threads ++ [{ pcm := (w.g_audio.drainBuffer w.g_ring).1,
                                   doneMsg := WM_TRANSCRIPTION_DONE, pc := WorkerPc.whisper }]
        submitted := w.submitted ++ [(w.g_audio.drainBuffer w.g_ring).1] } := by
  have hc : ¬ (decide ((w.g_audio.drainBuffer w.g_ring).1.length < 16000 / 4) ||
      decide (w.g_audio.getDroppedSamples > 160)) = true := by
    simp [h1, h2]
  unfold onStartTranscription
  simp only [AudioManager.getDroppedSamples, AudioManager.drainBuffer,
    AudioManager.resetDropCounter] at hc ⊢
  rw [if_neg hc]
  simp [Transcriber.transcribeAsync, compare_exchange_strong, hb]

/-- The handler on a recording that passes the gate while the dispatcher is busy. -/
theorem onStartTranscription_busy (w : World)
    (h1 : ¬ (w.g_audio.drainBuffer w.g_ring).1.length < 16000 / 4)
    (h2 : ¬ 160 < w.g_audio.getDroppedSamples) (hb : w.g_transcriber.m_busy = true) :
    onStartTranscription w =
      { w with
        g_audio := (w.g_audio.drainBuffer w.g_ring).2.1.resetDropCounter
        g_ring := (w.g_audio.drainBuffer w.g_ring).2.2
        submitted := w.submitted ++ [(w.g_audio.drainBuffer w.g_ring).1]
        g_overlay := w.g_overlay.setState OverlayState.Error
        g_state := AppState.IDLE
        g_nid := { icon := IconId.IDI_IDLE_ICON, szTip := "FLOW-ON! — Busy, try again" } } := by
  have hc : ¬ (decide ((w.g_audio.drainBuffer w.g_ring).1.length < 16000 / 4) ||
      decide (w.g_audio.getDroppedSamples > 160)) = true := by
    simp [h1, h2]
  unfold onStartTranscription
  simp only [AudioManager.getDroppedSamples, AudioManager.drainBuffer,
    AudioManager.resetDropCounter] at hc ⊢
  rw [if_neg hc]
  obtain ⟨st, ra, hd, fb, rs, au, rg, ⟨b⟩, ov, nid, hist, ms, q, kt, th, sub, inj⟩ := w
  simp only at hb
  subst hb
  simp [Transcriber.transcribeAsync, compare_exchange_strong, SetTrayIcon]

theorem coherent_onStartTranscription (v : World) (hs : v.g_state = AppState.TRANSCRIBING)
    (hh : v.g_hotkeyDown = false) (ha : v.g_recordingActive = false)
    (hd : ∀ k ∈ v.threads, k.doneMsg = WM_TRANSCRIPTION_DONE)
    (hq : ∀ m ∈ v.msgQueue, m.msg = WM_START_TRANSCRIPTION ∨ m.msg = WM_TRANSCRIPTION_DONE)
    (hp : pendingWork v = 0) : Coherent (onStartTranscription v) := by
  simp only [pendingWork] at hp
  by_cases hrej : (v.g_audio.drainBuffer v.g_ring).1.length < 16000 / 4 ∨
      160 < v.g_audio.getDroppedSamples
  · rw [onStartTranscription_reject v hrej]
    constructor
    · simp [hh]
    · simp [ha]
    · simp
    · exact hd
    · exact hq
    · simpa [pendingWork] using hp
  · have h1 : ¬ (v.g_audio.drainBuffer v.g_ring).1.length < 16000 / 4 := fun h => hrej (Or.inl h)
    have h2 : ¬ 160 < v.g_audio.getDroppedSamples := fun h => hrej (Or.inr h)
    cases hb : v.g_transcriber.m_busy
    · rw [onStartTranscription_accept v h1 h2 hb]
      constructor
      · simp [hh, hs]
      · simp [ha, hs]
      · simp [hs]
      · intro k hk
        simp only [List.mem_append, List.mem_singleton] at hk
        rcases hk with hk | hk
        · exact hd k hk
        · rw [hk]
      · exact hq
      · simp only [pendingWork, hs, if_true, List.countP_append, List.countP_cons,
          List.countP_nil, Worker.live]
        simp
        omega
    · rw [onStartTranscription_busy v h1 h2 hb]
      constructor
      · simp [hh]
      · simp [ha]
      · simp
      · exact hd
      · exact hq
      · simpa [pendingWork] using hp

theorem completionText_eq (c : Collaborators) (env : Env) (v : World) (lp : Option String) :
    completionText c env v lp =
      c.snippets (c.FormatTranscription (match lp with
        | some s => s
        | none => "")
        (if v.modeStr = "code" then AppMode.CODING
          else if v.modeStr = "prose" then AppMode.PROSE else env.activeWindowMode)) := by
  cases lp <;> rfl

/-- Where the snippet engine never returns, the completion handler has changed nothing and
stays inside the call. -/
theorem onTranscriptionDone_hang (c : Collaborators) (env : Env) (v : World)
    (lp : Option String) (h : completionText c env v lp = none) :
    onTranscriptionDone c env v lp = { v with hung := true } := by
  rw [completionText_eq] at h
  unfold onTranscriptionDone
  dsimp only
  rw [h]

/-- What the completion handler leaves of the state-machine variables: the latch, the flag,
the threads, the queue and the dispatcher are untouched; the state is `IDLE` if the snippet
engine returns, and the handler stays inside the call if it does not. -/
theorem onTranscriptionDone_frame (c : Collaborators) (env : Env) (v : World)
    (lp : Option String) :
    (onTranscriptionDone c env v lp).g_hotkeyDown = v.g_hotkeyDown ∧
      (onTranscriptionDone c env v lp).g_recordingActive = v.g_recordingActive ∧
      (onTranscriptionDone c env v lp).threads = v.threads ∧
      (onTranscriptionDone c env v lp).msgQueue = v.msgQueue ∧
      (onTranscriptionDone c env v lp).g_transcriber = v.g_transcriber ∧
      (completionText c env v lp = none →
        (onTranscriptionDone c env v lp).g_state = v.g_state ∧
        (onTranscriptionDone c env v lp).hung = true) ∧
      (∀ f, completionText c env v lp = some f →
        (onTranscriptionDone c env v lp).g_state = AppState.IDLE ∧
        (onTranscriptionDone c env v lp).hung = v.hung) := by
  cases hct : completionText c env v lp with
  | none =>
    rw [onTranscriptionDone_hang c env v lp hct]
    simp
  | some f =>
    rw [completionText_eq] at hct
    unfold onTranscriptionDone
    dsimp only
    rw [hct]
    dsimp only
    split_ifs <;> simp [SetTrayIcon]

theorem coherent_onTranscriptionDone (c : Collaborators) (env : Env) (v : World)
    (lp : Option String) (hs : v.g_state = AppState.TRANSCRIBING)
    (hh : v.g_hotkeyDown = false) (ha : v.g_recordingActive = false)
    (hd : ∀ k ∈ v.threads, k.doneMsg = WM_TRANSCRIPTION_DONE)
    (hq : ∀ m ∈ v.msgQueue, m.msg = WM_START_TRANSCRIPTION ∨ m.msg = WM_TRANSCRIPTION_DONE)
    (hp : pendingWork v = 0) : Coherent (onTranscriptionDone c env v lp) := by
  obtain ⟨f2, f3, f4, f5, _, fn, fs⟩ := onTranscriptionDone_frame c env v lp
  simp only [pendingWork] at hp
  cases hct : completionText c env v lp with
  | none =>
    obtain ⟨f1, f6⟩ := fn hct
    constructor
    · rw [f1, f2, hh, hs]; simp
    · rw [f1, f3, ha, hs]; simp
    · rw [f1, hs]; decide
    · rw [f4]; exact hd
    · rw [f5]; exact hq
    · rw [f1, hs]
      simp only [pendingWork, f4, f5, f6, if_true]
      omega
  | some f =>
    obtain ⟨f1, f6⟩ := fs f hct
    constructor
    · rw [f1, f2, hh]; simp
    · rw [f1, f3, ha]; simp
    · rw [f1]; decide
    · rw [f4]; exact hd
    · rw [f5]; exact hq
    · rw [f1]
      simp only [pendingWork, f4, f5, f6]
      rw [if_neg (show ¬ AppState.IDLE = AppState.TRANSCRIBING by decide)]
      exact hp

theorem WindowProc_start (c : Collaborators) (env : Env) (v : World) (m : Msg)
    (hm : m.msg = WM_START_TRANSCRIPTION) : WindowProc c env v m = onStartTranscription v := by
  unfold WindowProc
  rw [hm, if_neg (by decide), if_neg (by decide), if_pos rfl]

theorem WindowProc_done (c : Collaborators) (env : Env) (v : World) (m : Msg)
    (hm : m.msg = WM_TRANSCRIPTION_DONE) :
    WindowProc c env v m = onTranscriptionDone c env v m.lp := by
  unfold WindowProc
  rw [hm, if_neg (by decide), if_neg (by decide), if_neg (by decide), if_pos rfl]

theorem WindowProc_hotkey (c : Collaborators) (env : Env) (v : World) (wp : Nat) :
    WindowProc c env v { msg := WM_HOTKEY, wp := wp, lp := none } = onHotkey env v wp := by
  unfold WindowProc
  rw [if_pos rfl]

theorem WindowProc_timer (c : Collaborators) (env : Env) (v : World) (wp : Nat) :
    WindowProc c env v { msg := WM_TIMER, wp := wp, lp := none } = onTimer env v wp := by
  unfold WindowProc
  rw [if_neg (by simp [WM_TIMER, WM_HOTKEY]), if_pos rfl]

theorem coherent_dispatch (c : Collaborators) (env : Env) (w : World) (m : Msg)
    (rest : List Msg) (h : Coherent w) (hq : w.msgQueue = m :: rest) :
    Coherent (WindowProc c env { w with msgQueue := rest } m) := by
  have hp := h.pending
  simp only [pendingWork, hq, List.length_cons] at hp
  have hs : w.g_state = AppState.TRANSCRIBING := by
    by_contra hne
    rw [if_neg hne] at hp
    omega
  rw [if_pos hs] at hp
  have hh : w.g_hotkeyDown = false := by
    cases hb : w.g_hotkeyDown
    · rfl
    · have := h.hotkey_iff.mp hb
      rw [hs] at this
      cases this
  have ha : w.g_recordingActive = false := by
    cases hb : w.g_recordingActive
    · rfl
    · have := h.active_iff.mp hb
      rw [hs] at this
      cases this
  have hq2 : ∀ x ∈ rest, x.msg = WM_START_TRANSCRIPTION ∨ x.msg = WM_TRANSCRIPTION_DONE := by
    intro x hx
    exact h.queue_msgs x (by rw [hq]; exact List.mem_cons_of_mem _ hx)
  have hp0 : pendingWork { w with msgQueue := rest } = 0 := by
    simp only [pendingWork]
    omega
  rcases h.queue_msgs m (by rw [hq]; exact List.mem_cons_self _ _) with hm | hm
  · rw [WindowProc_start c env _ m hm]
    exact coherent_onStartTranscription _ hs hh ha h.done_msg hq2 hp0
  · rw [WindowProc_done c env _ m hm]
    exact coherent_onTranscriptionDone c env _ m.lp hs hh ha h.done_msg hq2 hp0

theorem coherent_stepWorker (c : Collaborators) (w : World) (i : Nat) (h : Coherent w) :
    Coherent (stepWorker c w i) := by
  unfold stepWorker
  cases hk : w.threads[i]? with
  | none => exact h
  | some k =>
    have hi : i < w.threads.length := by
      rcases Nat.lt_or_ge i w.threads.length with h' | h'
      · exact h'
      · rw [List.getElem?_eq_none h'] at hk; cases hk
    have hget : w.threads[i] = k := by
      rw [List.getElem?_eq_getElem hi] at hk
      exact Option.some.inj hk
    have hmem : k ∈ w.threads := by rw [← hget]; exact List.getElem_mem hi
    have hdone := h.done_msg k hmem
    have hle := List.boole_getElem_le_countP Worker.live w.threads i hi
    rw [hget] at hle
    have hp := h.pending
    simp only [pendingWork] at hp
    have hset : ∀ k2 : Worker, k2.doneMsg = WM_TRANSCRIPTION_DONE →
        ∀ x ∈ w.threads.set i k2, x.doneMsg = WM_TRANSCRIPTION_DONE := by
      intro k2 hk2 x hx
      rcases List.mem_or_eq_of_mem_set hx with hx | hx
      · exact h.done_msg x hx
      · rw [hx]; exact hk2
    obtain ⟨pcm, dm, pc⟩ := k
    simp only at hdone
    cases pc with
    | whisper =>
      constructor
      · exact h.hotkey_iff
      · exact h.active_iff
      · exact h.not_injecting
      · exact hset _ hdone
      · exact h.queue_msgs
      · simp only [Worker.step, pendingWork, List.countP_set _ _ _ _ hi, hget]
        simp only [Worker.live, if_true, if_false, Bool.false_eq_true] at hle ⊢
        omega
    | resetBusy r =>
      constructor
      · exact h.hotkey_iff
      · exact h.active_iff
      · exact h.not_injecting
      · exact hset _ hdone
      · exact h.queue_msgs
      · simp only [Worker.step, pendingWork, List.countP_set _ _ _ _ hi, hget]
        simp only [Worker.live, if_true, if_false, Bool.false_eq_true] at hle ⊢
        omega
    | post r =>
      constructor
      · exact h.hotkey_iff
      · exact h.active_iff
      · exact h.not_injecting
      · exact hset _ hdone
      · intro m hm
        simp only [Worker.step, List.mem_append, List.mem_singleton] at hm
        rcases hm with hm | hm
        · exact h.queue_msgs m hm
        · right; rw [hm]; exact hdone
      · simp only [Worker.step, pendingWork, List.countP_set _ _ _ _ hi, hget,
          List.length_append, List.length_singleton]
        simp only [Worker.live, if_true, if_false, Bool.false_eq_true] at hle ⊢
        omega
    | exited =>
      constructor
      · exact h.hotkey_iff
      · exact h.active_iff
      · exact h.not_injecting
      · exact hset _ hdone
      · exact h.queue_msgs
      · simp only [Worker.step, pendingWork, List.countP_set _ _ _ _ hi, hget]
        simp only [Worker.live, if_true, if_false, Bool.false_eq_true] at hle ⊢
        omega

theorem coherent_step (c : Collaborators) (w : World) (e : Event × Env) (h : Coherent w) :
    Coherent (step c w e) := by
  obtain ⟨ev, env⟩ := e
  cases ev with
  | hotkey wp =>
    simp only [step]
    split
    · exact h
    · rw [WindowProc_hotkey]
      exact coherent_onHotkey env w wp h
  | timer wp =>
    simp only [step]
    split
    · exact h
    · rw [WindowProc_timer]
      exact coherent_onTimer env w wp h
  | dispatch =>
    simp only [step]
    split
    · exact h
    · cases hq : w.msgQueue with
      | nil => exact h
      | cons m rest => exact coherent_dispatch c env w m rest h hq
  | audio data =>
    simp only [step]
    split
    · exact ⟨h.hotkey_iff, h.active_iff, h.not_injecting, h.done_msg, h.queue_msgs, h.pending⟩
    · exact h
  | worker i => exact coherent_stepWorker c w i h

theorem coherent_run (c : Collaborators) (es : List (Event × Env)) (w : World)
    (h : Coherent w) : Coherent (run c w es) := by
  induction es generalizing w with
  | nil => exact h
  | cons e rest ih => exact ih (step c w e) (coherent_step c w e h)

theorem coherent_of_reachable (c : Collaborators) (w : World) (h : Reachable c w) :
    Coherent w := by
  obtain ⟨m, f, n, es, rfl⟩ := h
  exact coherent_run c es _ (coherent_init m f n)

/-! ## Starting a recording -/

/-- C10: in every reachable state, the hot-key message starts a recording exactly when the
state is `IDLE`. From `IDLE` the handler stores `RECORDING`, sets the recording flag, runs
`startCapture` (so the device is started when the audio stack reports success) and sets
the key-check timer; in any other state it changes nothing. -/
theorem hotkey_starts_recording_iff_idle (c : Collaborators) (env : Env) (w : World)
    (hr : Reachable c w) :
    (w.g_state = AppState.IDLE →
        (WindowProc c env w hotkeyDownMsg).g_state
          = AppState.RECORDING ∧
        (WindowProc c env w
          hotkeyDownMsg).g_recordingActive = true ∧
        (WindowProc c env w hotkeyDownMsg).g_audio
          = (w.g_audio.startCapture w.g_ring env.startOk).2.1 ∧
        (WindowProc c env w hotkeyDownMsg).g_ring
          = (w.g_audio.startCapture w.g_ring env.startOk).2.2 ∧
        (env.startOk = true →
          (WindowProc c env w hotkeyDownMsg).g_audio.m_device.started = true) ∧
        (WindowProc c env w hotkeyDownMsg).keyTimer
          = true) ∧
      (w.g_state ≠ AppState.IDLE →
        WindowProc c env w hotkeyDownMsg = w) ∧
      (WindowProc c env w hotkeyDownMsg ≠ w ↔
        w.g_state = AppState.IDLE) := by
  have hco := coherent_of_reachable c w hr
  rw [show hotkeyDownMsg = { msg := WM_HOTKEY, wp := HOTKEY_ID_RECORD, lp := none } from rfl,
    WindowProc_hotkey]
  have hidle : w.g_state = AppState.IDLE → w.g_hotkeyDown = false := by
    intro hs
    cases hb : w.g_hotkeyDown
    · rfl
    · have := hco.hotkey_iff.mp hb
      rw [hs] at this
      cases this
  have hstart : w.g_state = AppState.IDLE →
      (onHotkey env w HOTKEY_ID_RECORD).g_state = AppState.RECORDING := by
    intro hs
    simp [onHotkey, hs, hidle hs, SetTrayIcon]
  refine ⟨?_, ?_, ?_⟩
  · intro hs
    refine ⟨hstart hs, ?_, ?_, ?_, ?_, ?_⟩
    · simp [onHotkey, hs, hidle hs, SetTrayIcon]
    · simp [onHotkey, hs, hidle hs, SetTrayIcon]
    · simp [onHotkey, hs, hidle hs, SetTrayIcon]
    · intro hok
      simp [onHotkey, hs, hidle hs, SetTrayIcon, AudioManager.startCapture, hok]
    · simp [onHotkey, hs, hidle hs, SetTrayIcon]
  · intro hs
    simp [onHotkey, hs]
  · constructor
    · intro hne
      by_contra hs
      exact hne (by simp [onHotkey, hs])
    · intro hs heq
      have h1 := hstart hs
      rw [heq, hs] at h1
      cases h1

/-- Witness for C10: the hot key pressed in the initial state. -/
theorem hotkey_starts_recording_iff_idle_witness :
    ((World.init "auto" false (16000 * 30)).g_state = AppState.IDLE →
        (WindowProc demoCollaborators demoEnv
          (World.init "auto" false (16000 * 30))
          hotkeyDownMsg).g_state
          = AppState.RECORDING ∧
        (WindowProc demoCollaborators demoEnv
          (World.init "auto" false (16000 * 30))
          hotkeyDownMsg).g_recordingActive = true ∧
        (WindowProc demoCollaborators demoEnv
          (World.init "auto" false (16000 * 30))
          hotkeyDownMsg).g_audio
          = ((World.init "auto" false (16000 * 30)).g_audio.startCapture
              (World.init "auto" false (16000 * 30)).g_ring demoEnv.startOk).2.1 ∧
        (WindowProc demoCollaborators demoEnv
          (World.init "auto" false (16000 * 30))
          hotkeyDownMsg).g_ring
          = ((World.init "auto" false (16000 * 30)).g_audio.startCapture
              (World.init "auto" false (16000 * 30)).g_ring demoEnv.startOk).2.2 ∧
        (demoEnv.startOk = true →
          (WindowProc demoCollaborators demoEnv
            (World.init "auto" false (16000 * 30))
            hotkeyDownMsg).g_audio.m_device.started = true) ∧
        (WindowProc demoCollaborators demoEnv
          (World.init "auto" false (16000 * 30))
          hotkeyDownMsg).keyTimer = true) ∧
      ((World.init "auto" false (16000 * 30)).g_state ≠ AppState.IDLE →
        WindowProc demoCollaborators demoEnv
          (World.init "auto" false (16000 * 30))
          hotkeyDownMsg
          = World.init "auto" false (16000 * 30)) ∧
      (WindowProc demoCollaborators demoEnv
          (World.init "auto" false (16000 * 30))
          hotkeyDownMsg
          ≠ World.init "auto" false (16000 * 30) ↔
        (World.init "auto" false (16000 * 30)).g_state = AppState.IDLE) :=
  hotkey_starts_recording_iff_idle demoCollaborators
    demoEnv (World.init "auto" false (16000 * 30))
    ⟨"auto", false, 16000 * 30, [], rfl⟩

/-! ## Concurrent stop triggers -/

theorem stopProgress_done (w : World) (h : w.g_recordingActive = true) :
    stopProgress w StopPc.done = StopRecordingOnce w := by
  simp [stopProgress, StopRecordingOnce, compare_exchange_strong, h]

theorem stopProgress_inactive (w : World) (pc : StopPc) (hpc : pc ≠ StopPc.cas) :
    (stopProgress w pc).g_recordingActive = false := by
  cases pc <;> simp [stopProgress, SetTrayIcon, PostMessageW] at hpc ⊢

/-- The winner's next statement moves the world one stage along `stopProgress`. -/
theorem exec_winner (w : World) (pc : StopPc) (hpc : pc ≠ StopPc.cas) :
    ∃ pc2, pc2 ≠ StopPc.cas ∧
      StopThread.exec (stopProgress w pc) { pc := pc, won := true } =
        (stopProgress w pc2, { pc := pc2, won := true }) := by
  cases pc with
  | cas => exact absurd rfl hpc
  | stopCapture => exact ⟨StopPc.storeState, by decide, rfl⟩
  | storeState => exact ⟨StopPc.setOverlay, by decide, rfl⟩
  | setOverlay => exact ⟨StopPc.setTray, by decide, rfl⟩
  | setTray => exact ⟨StopPc.post, by decide, rfl⟩
  | post => exact ⟨StopPc.killTimer, by decide, rfl⟩
  | killTimer => exact ⟨StopPc.done, by decide, rfl⟩
  | done => exact ⟨StopPc.done, by decide, rfl⟩

/-- A context that has not won and finds the flag cleared changes nothing. -/
theorem exec_loser (v : World) (t : StopThread) (hv : v.g_recordingActive = false)
    (hw : t.won = false) (hpc : t.pc = StopPc.cas ∨ t.pc = StopPc.done) :
    (StopThread.exec v t).1 = v ∧ (StopThread.exec v t).2.won = false ∧
      (StopThread.exec v t).2.pc = StopPc.done := by
  obtain ⟨pc, won⟩ := t
  simp only at hw hpc
  subst hw
  rcases hpc with h | h
  · subst h
    cases v
    simp_all [StopThread.exec, compare_exchange_strong]
  · subst h
    simp [StopThread.exec]

theorem raceInv_step (w0 : World) (h0 : w0.g_recordingActive = true) (s : StopRace) (i : Nat)
    (h : RaceInv w0 s) : RaceInv w0 (s.step i) := by
  rcases h with ⟨hw, hall⟩ | ⟨k, hwon, hpc, hworld, hrest⟩
  · right
    refine ⟨i, ?_, ?_, ?_, ?_⟩
    · simp [StopRace.step, hall i, StopThread.exec, compare_exchange_strong, hw, h0]
    · simp [StopRace.step, hall i, StopThread.exec, compare_exchange_strong, hw, h0]
    · simp [StopRace.step, hall i, StopThread.exec, compare_exchange_strong, hw, h0,
        stopProgress]
    · intro j hj
      simp [StopRace.step, Function.update_noteq hj, hall j]
  · right
    by_cases hik : i = k
    · subst hik
      obtain ⟨pc2, hpc2, hex⟩ := exec_winner w0 (s.th i).pc hpc
      have hth : s.th i = { pc := (s.th i).pc, won := true } := by
        rw [← hwon]
      refine ⟨i, ?_, ?_, ?_, ?_⟩
      · simp only [StopRace.step, Function.update_same]
        rw [hworld, hth, hex]
      · simp only [StopRace.step, Function.update_same]
        rw [hworld, hth, hex]
        exact hpc2
      · simp only [StopRace.step, Function.update_same]
        rw [hworld, hth, hex]
      · intro j hj
        simp only [StopRace.step, Function.update_noteq hj]
        exact hrest j hj
    · obtain ⟨hjw, hjpc⟩ := hrest i hik
      have hv : s.world.g_recordingActive = false := by
        rw [hworld]; exact stopProgress_inactive w0 _ hpc
      obtain ⟨e1, e2, e3⟩ := exec_loser s.world (s.th i) hv hjw hjpc
      have hki : k ≠ i := fun e => hik e.symm
      refine ⟨k, ?_, ?_, ?_, ?_⟩
      · simp only [StopRace.step, Function.update_noteq hki]
        exact hwon
      · simp only [StopRace.step, Function.update_noteq hki]
        exact hpc
      · simp only [StopRace.step, Function.update_noteq hki]
        rw [e1]; exact hworld
      · intro j hj
        by_cases hji : j = i
        · subst hji
          simp only [StopRace.step, Function.update_same]
          exact ⟨e2, Or.inr e3⟩
        · simp only [StopRace.step, Function.update_noteq hji]
          exact hrest j hj

theorem raceInv_run (w0 : World) (h0 : w0.g_recordingActive = true) (sched : List Nat)
    (s : StopRace) (h : RaceInv w0 s) : RaceInv w0 (s.run sched) := by
  induction sched generalizing s with
  | nil => exact h
  | cons i rest ih => exact ih (s.step i) (raceInv_step w0 h0 s i h)

theorem raceInv_start (w0 : World) : RaceInv w0 (StopRace.start w0) :=
  Or.inl ⟨rfl, fun _ => rfl⟩

/-- A context the scheduler never picked is where it started. -/
theorem run_unscheduled (sched : List Nat) (s : StopRace) (j : Nat) (hj : j ∉ sched) :
    (s.run sched).th j = s.th j := by
  induction sched generalizing s with
  | nil => rfl
  | cons i rest ih =>
    have hji : j ≠ i := fun e => hj (by rw [e]; exact List.mem_cons_self _ _)
    have hjr : j ∉ rest := fun e => hj (List.mem_cons_of_mem _ e)
    show ((s.step i).run rest).th j = s.th j
    rw [ih (s.step i) hjr]
    simp [StopRace.step, Function.update_noteq hji]

/-- The statement-by-statement model agrees with the function: one context running
alone for seven steps does what `StopRecordingOnce` does, whatever the flag reads. -/
theorem stop_race_solo (w : World) :
    ((StopRace.start w).run [0, 0, 0, 0, 0, 0, 0]).world = StopRecordingOnce w := by
  cases h : w.g_recordingActive
  · have e : StopRecordingOnce w = w := by
      cases w
      simp_all [StopRecordingOnce, compare_exchange_strong]
    rw [e]
    cases w
    simp_all [StopRace.run, StopRace.step, StopRace.start, StopThread.exec,
      compare_exchange_strong]
  · simp [StopRace.run, StopRace.step, StopRace.start, StopThread.exec,
      compare_exchange_strong, StopRecordingOnce, h]

/-- Every statement takes its context one step further, until it has returned. -/
theorem exec_rank (w : World) (t : StopThread) :
    min 7 (t.pc.rank + 1) ≤ (StopThread.exec w t).2.pc.rank := by
  obtain ⟨pc, won⟩ := t
  cases pc <;> simp only [StopThread.exec, StopPc.rank] <;> try omega
  cases compare_exchange_strong w.g_recordingActive true false with
  | mk ok v => cases ok <;> simp [StopPc.rank]

/-- A context that was scheduled `n` times has executed `n` statements or has returned. -/
theorem run_rank (sched : List Nat) (s : StopRace) (i : Nat) :
    min 7 ((s.th i).pc.rank + sched.count i) ≤ ((s.run sched).th i).pc.rank := by
  induction sched generalizing s with
  | nil => simp [StopRace.run]
  | cons j rest ih =>
    have h := ih (s.step j)
    show min 7 ((s.th i).pc.rank + (j :: rest).count i) ≤ (((s.step j).run rest).th i).pc.rank
    by_cases hji : j = i
    · subst hji
      have hr := exec_rank s.world (s.th j)
      have hs : ((s.step j).th j) = (StopThread.exec s.world (s.th j)).2 := by
        simp [StopRace.step]
      rw [hs] at h
      rw [List.count_cons_self]
      omega
    · have hs : (s.step j).th i = s.th i := by
        simp only [StopRace.step]
        exact Function.update_noteq (fun e => hji e.symm) _ _
      rw [hs] at h
      rw [List.count_cons_of_ne (fun e => hji e.symm)]
      exact h

theorem rank_done (pc : StopPc) (h : 7 ≤ pc.rank) : pc = StopPc.done := by
  cases pc <;> simp [StopPc.rank] at h ⊢

theorem rank_cas (pc : StopPc) (h : 1 ≤ pc.rank) : pc ≠ StopPc.cas := by
  cases pc <;> simp [StopPc.rank] at h ⊢

/-- C2: several contexts call `StopRecordingOnce` at the same time on a world whose
recording flag is set, their statements interleaved in any order `sched` (each
compare-and-swap is one indivisible step). At every point of every interleaving at most
one context has won the compare-and-swap, and a step of a context that has not won leaves
the world untouched. Every call returns: a context that was given seven steps, or one step
without winning, has returned. Once every scheduled context has returned, exactly one of
them has won and the world is that of a single `StopRecordingOnce`: the transition was
made once, by the winner. -/
theorem stop_race_exactly_one_winner (w : World) (sched : List Nat)
    (h : w.g_recordingActive = true) :
    (∀ i j, (((StopRace.start w).run sched).th i).won = true →
        (((StopRace.start w).run sched).th j).won = true → i = j) ∧
      (∀ i, ((((StopRace.start w).run sched).step i).th i).won = false →
        (((StopRace.start w).run sched).step i).world = ((StopRace.start w).run sched).world) ∧
      (∀ i, (7 ≤ sched.count i ∨
          (1 ≤ sched.count i ∧ (((StopRace.start w).run sched).th i).won = false)) →
        (((StopRace.start w).run sched).th i).pc = StopPc.done) ∧
      (sched ≠ [] → (∀ i ∈ sched, (((StopRace.start w).run sched).th i).pc = StopPc.done) →
        (∃ k ∈ sched, (((StopRace.start w).run sched).th k).won = true ∧
          ∀ j, j ≠ k → (((StopRace.start w).run sched).th j).won = false) ∧
        ((StopRace.start w).run sched).world = StopRecordingOnce w) := by
  have hinv := raceInv_run w h sched (StopRace.start w) (raceInv_start w)
  have hun := run_unscheduled sched (StopRace.start w)
  have hrank := run_rank sched (StopRace.start w)
  have hstart : ∀ i, ((StopRace.start w).th i).pc.rank = 0 := fun _ => rfl
  generalize (StopRace.start w).run sched = s at hinv hun hrank
  refine ⟨?_, ?_, ?_, ?_⟩
  · intro i j hi hj
    rcases hinv with ⟨_, hall⟩ | ⟨k, _, _, _, hrest⟩
    · rw [hall i] at hi; cases hi
    · have e1 : i = k := by
        by_contra hne
        rw [(hrest i hne).1] at hi; cases hi
      have e2 : j = k := by
        by_contra hne
        rw [(hrest j hne).1] at hj; cases hj
      rw [e1, e2]
  · intro i hi
    rcases hinv with ⟨hw, hall⟩ | ⟨k, hwon, hpc, hworld, hrest⟩
    · simp [StopRace.step, hall i, StopThread.exec, compare_exchange_strong, hw, h] at hi
    · by_cases hik : i = k
      · subst hik
        obtain ⟨pc2, _, hex⟩ := exec_winner w (s.th i).pc hpc
        have hth : s.th i = { pc := (s.th i).pc, won := true } := by rw [← hwon]
        simp only [StopRace.step, Function.update_same] at hi
        rw [hworld, hth, hex] at hi
        cases hi
      · obtain ⟨hjw, hjpc⟩ := hrest i hik
        have hv : s.world.g_recordingActive = false := by
          rw [hworld]; exact stopProgress_inactive w _ hpc
        exact (exec_loser s.world (s.th i) hv hjw hjpc).1
  · intro i hi
    have hr := hrank i
    rw [hstart i] at hr
    rcases hi with h7 | ⟨h1, hlost⟩
    · exact rank_done _ (by omega)
    · have hncas : (s.th i).pc ≠ StopPc.cas := rank_cas _ (by omega)
      rcases hinv with ⟨_, hall⟩ | ⟨k, hwon, _, _, hrest⟩
      · rw [hall i] at hncas
        exact absurd rfl hncas
      · have hik : i ≠ k := by
          intro e
          rw [e, hwon] at hlost
          cases hlost
        rcases (hrest i hik).2 with h2 | h2
        · exact absurd h2 hncas
        · exact h2
  · intro hne hdone
    obtain ⟨i0, hi0⟩ := List.exists_mem_of_ne_nil sched hne
    rcases hinv with ⟨_, hall⟩ | ⟨k, hwon, hpc, hworld, hrest⟩
    · have := hdone i0 hi0
      rw [hall i0] at this
      cases this
    · have hk : k ∈ sched := by
        by_contra hk
        have e := hun k hk
        rw [e] at hpc
        exact hpc rfl
      refine ⟨⟨k, hk, hwon, fun j hj => (hrest j hj).1⟩, ?_⟩
      rw [hworld, hdone k hk]
      exact stopProgress_done w h

/-- Witness for C2: three contexts race on `recordingWorld` in the order `raceSchedule`.
All three have returned at the end, context 1 is the one that won, contexts 0 and 2 did
not, and the world is that of one `StopRecordingOnce`: state `TRANSCRIBING` and one
message posted. -/
theorem stop_race_exactly_one_winner_witness :
    recordingWorld.g_recordingActive = true ∧
      (∀ i ∈ raceSchedule,
        (((StopRace.start recordingWorld).run raceSchedule).th i).pc = StopPc.done) ∧
      ((∃ k ∈ raceSchedule,
          (((StopRace.start recordingWorld).run raceSchedule).th k).won = true ∧
          ∀ j, j ≠ k → (((StopRace.start recordingWorld).run raceSchedule).th j).won = false) ∧
        ((StopRace.start recordingWorld).run raceSchedule).world =
          StopRecordingOnce recordingWorld) ∧
      (((StopRace.start recordingWorld).run raceSchedule).th 1).won = true ∧
      ((StopRace.start recordingWorld).run raceSchedule).world.g_state =
        AppState.TRANSCRIBING ∧
      ((StopRace.start recordingWorld).run raceSchedule).world.msgQueue =
        [{ msg := WM_START_TRANSCRIPTION, wp := 0, lp := none }] :=
  ⟨recordingWorld_active, by decide,
    (stop_race_exactly_one_winner recordingWorld raceSchedule recordingWorld_active).2.2.2
      (by decide) (by decide),
    by decide, by decide, by decide⟩

/-! ## Starting a session on a clean buffer -/

/-- C11: whatever the record buffer, the drop counter and the ring held, after
`startCapture` the record buffer is empty, the counter is 0 and the ring holds nothing; a
`drainBuffer` right after it returns nothing, and after any chunks every sample it returns
is one of the samples delivered in this session. -/
theorem startCapture_leaves_nothing_stale (a : AudioManager) (ring : ReaderWriterQueue)
    (startOk : Bool) :
    (a.startCapture ring startOk).2.1.m_recordBuffer = [] ∧
      (a.startCapture ring startOk).2.1.getDroppedSamples = 0 ∧
      (a.startCapture ring startOk).2.2.items = [] ∧
      ((a.startCapture ring startOk).2.1.drainBuffer (a.startCapture ring startOk).2.2).1 = [] ∧
      ∀ chunks : List (List Sample), ∀ s ∈
        ((captureSession a ring startOk chunks).1.drainBuffer
          (captureSession a ring startOk chunks).2).1, s ∈ chunks.flatten := by
  refine ⟨?_, ?_, ?_, ?_, ?_⟩
  · simp [AudioManager.startCapture, AudioManager.resetDropCounter]
  · simp [AudioManager.startCapture, AudioManager.resetDropCounter,
      AudioManager.getDroppedSamples]
  · simp [AudioManager.startCapture, flushRing_eq]
  · simp [drainBuffer_fst, AudioManager.startCapture, AudioManager.resetDropCounter,
      flushRing_eq]
  · intro chunks s hs
    rw [drain_session_eq] at hs
    exact List.mem_of_mem_take hs

/-! ## The busy path -/

/-- The flag can only go from true to false in the step of a worker thread that executes
`m_busy.store(false)`. -/
theorem busy_cleared_only_by_worker (c : Collaborators) (w : World) (e : Event × Env)
    (hb : w.g_transcriber.m_busy = true)
    (hc : (step c w e).g_transcriber.m_busy = false) :
    ∃ i k r, e.1 = Event.worker i ∧ w.threads[i]? = some k ∧ k.pc = WorkerPc.resetBusy r := by
  obtain ⟨ev, env⟩ := e
  have hstart : ∀ v : World, v.g_transcriber.m_busy = true →
      (onStartTranscription v).g_transcriber.m_busy = true := by
    intro v hv
    by_cases hrej : (v.g_audio.drainBuffer v.g_ring).1.length < 16000 / 4 ∨
        160 < v.g_audio.getDroppedSamples
    · rw [onStartTranscription_reject v hrej]; exact hv
    · rw [onStartTranscription_busy v (fun h => hrej (Or.inl h)) (fun h => hrej (Or.inr h)) hv]
      exact hv
  have hhot : ∀ (v : World) (wp : Nat), (onHotkey env v wp).g_transcriber = v.g_transcriber := by
    intro v wp
    unfold onHotkey
    split <;> simp [SetTrayIcon]
  have hstop : ∀ v : World, (StopRecordingOnce v).g_transcriber = v.g_transcriber := by
    intro v
    unfold StopRecordingOnce
    dsimp only
    split <;> simp [SetTrayIcon, PostMessageW]
  have htim : ∀ (v : World) (wp : Nat), (onTimer env v wp).g_transcriber = v.g_transcriber := by
    intro v wp
    unfold onTimer
    dsimp only
    split_ifs <;> simp [hstop]
  have hproc : ∀ (v : World) (m : Msg), v.g_transcriber.m_busy = true →
      (WindowProc c env v m).g_transcriber.m_busy = true := by
    intro v m hv
    unfold WindowProc
    split_ifs
    · rw [hhot]; exact hv
    · rw [htim]; exact hv
    · exact hstart v hv
    · rw [(onTranscriptionDone_frame c env v m.lp).2.2.2.2.1]; exact hv
    · exact hv
  cases ev with
  | hotkey wp =>
    have := hproc w { msg := WM_HOTKEY, wp := wp, lp := none } hb
    simp only [step] at hc
    split at hc
    · rw [hb] at hc; cases hc
    · rw [this] at hc; cases hc
  | timer wp =>
    have := hproc w { msg := WM_TIMER, wp := wp, lp := none } hb
    simp only [step] at hc
    split at hc
    · rw [hb] at hc; cases hc
    · rw [this] at hc; cases hc
  | dispatch =>
    simp only [step] at hc
    split at hc
    · rw [hb] at hc; cases hc
    · cases hq : w.msgQueue with
      | nil => rw [hq] at hc; simp only at hc; rw [hb] at hc; cases hc
      | cons m rest =>
        rw [hq] at hc
        simp only at hc
        have := hproc { w with msgQueue := rest } m hb
        rw [this] at hc; cases hc
  | audio data =>
    simp only [step] at hc
    split at hc
    · simp only at hc; rw [hb] at hc; cases hc
    · rw [hb] at hc; cases hc
  | worker i =>
    simp only [step, stepWorker] at hc
    cases hk : w.threads[i]? with
    | none => rw [hk] at hc; simp only at hc; rw [hb] at hc; cases hc
    | some k =>
      rw [hk] at hc
      simp only at hc
      obtain ⟨pcm, dm, pc⟩ := k
      cases pc with
      | whisper => simp [Worker.step, hb] at hc
      | resetBusy r => exact ⟨i, _, r, rfl, hk, rfl⟩
      | post r => simp [Worker.step, hb] at hc
      | exited => simp [Worker.step, hb] at hc

/-- C12: when the recording passes the gate but `transcribeAsync` returns false because
the dispatcher is busy, the handler stores `IDLE`, reports "Busy, try again" (overlay in
`Error`), starts no worker, posts nothing and sets no timer, and `m_busy` stays true;
afterwards the only event that can clear the flag is the step of a worker thread that
executes `m_busy.store(false)`. -/
theorem busy_submit_returns_to_idle (c : Collaborators) (w : World)
    (h1 : ¬ (w.g_audio.drainBuffer w.g_ring).1.length < 16000 / 4)
    (h2 : ¬ 160 < w.g_audio.getDroppedSamples) (hb : w.g_transcriber.m_busy = true) :
    (w.g_transcriber.transcribeAsync w.threads (w.g_audio.drainBuffer w.g_ring).1
        WM_TRANSCRIPTION_DONE).1 = false ∧
      (onStartTranscription w).g_state = AppState.IDLE ∧
      (onStartTranscription w).g_nid.szTip = "FLOW-ON! — Busy, try again" ∧
      (onStartTranscription w).g_overlay.m_state = OverlayState.Error ∧
      (onStartTranscription w).threads = w.threads ∧
      (onStartTranscription w).msgQueue = w.msgQueue ∧
      (onStartTranscription w).keyTimer = w.keyTimer ∧
      (onStartTranscription w).g_transcriber.m_busy = true ∧
      ∀ e : Event × Env, (step c (onStartTranscription w) e).g_transcriber.m_busy = false →
        ∃ i k r, e.1 = Event.worker i ∧ (onStartTranscription w).threads[i]? = some k ∧
          k.pc = WorkerPc.resetBusy r := by
  have hbusy : (onStartTranscription w).g_transcriber.m_busy = true := by
    rw [onStartTranscription_busy w h1 h2 hb]; exact hb
  refine ⟨?_, ?_, ?_, ?_, ?_, ?_, ?_, hbusy, ?_⟩
  · simp [Transcriber.transcribeAsync, compare_exchange_strong, hb]
  · rw [onStartTranscription_busy w h1 h2 hb]
  · rw [onStartTranscription_busy w h1 h2 hb]
  · rw [onStartTranscription_busy w h1 h2 hb]
    simp [Overlay.setState]
  · rw [onStartTranscription_busy w h1 h2 hb]
  · rw [onStartTranscription_busy w h1 h2 hb]
  · rw [onStartTranscription_busy w h1 h2 hb]
  · intro e he
    exact busy_cleared_only_by_worker c (onStartTranscription w) e hbusy he

theorem busyWorld_gate :
    ¬ (busyWorld.g_audio.drainBuffer busyWorld.g_ring).1.length < 16000 / 4 ∧
      ¬ 160 < busyWorld.g_audio.getDroppedSamples ∧ busyWorld.g_transcriber.m_busy = true := by
  refine ⟨?_, ?_, rfl⟩
  · rw [drainBuffer_fst]
    show ¬ (([] : List Sample) ++ List.replicate 4000 5).length < 16000 / 4
    rw [List.nil_append, List.length_replicate]
    decide
  · show ¬ (160 : Int) < 0
    decide

/-- Witness for C12: the hand-over in `busyWorld`. -/
theorem busy_submit_returns_to_idle_witness :
    (busyWorld.g_transcriber.transcribeAsync busyWorld.threads
        (busyWorld.g_audio.drainBuffer busyWorld.g_ring).1 WM_TRANSCRIPTION_DONE).1 = false ∧
      (onStartTranscription busyWorld).g_state = AppState.IDLE ∧
      (onStartTranscription busyWorld).g_nid.szTip = "FLOW-ON! — Busy, try again" ∧
      (onStartTranscription busyWorld).g_overlay.m_state = OverlayState.Error ∧
      (onStartTranscription busyWorld).threads = busyWorld.threads ∧
      (onStartTranscription busyWorld).msgQueue = busyWorld.msgQueue ∧
      (onStartTranscription busyWorld).keyTimer = busyWorld.keyTimer ∧
      (onStartTranscription busyWorld).g_transcriber.m_busy = true ∧
      ∀ e : Event × Env,
        (step demoCollaborators (onStartTranscription busyWorld) e).g_transcriber.m_busy
          = false →
        ∃ i k r, e.1 = Event.worker i ∧ (onStartTranscription busyWorld).threads[i]? = some k ∧
          k.pc = WorkerPc.resetBusy r :=
  busy_submit_returns_to_idle demoCollaborators busyWorld busyWorld_gate.1 busyWorld_gate.2.1
    busyWorld_gate.2.2

/-! ## Shutdown -/

/-- The drain-and-erase step moves every pending sample into the record buffer and leaves
it there; only the returned copy is zeroed. -/
theorem shutdownDrainErase_eq (w : World) :
    (shutdownDrainErase w).1.g_audio.m_recordBuffer =
        w.g_audio.m_recordBuffer ++ w.g_ring.items ∧
      (shutdownDrainErase w).2 =
        (w.g_audio.m_recordBuffer ++ w.g_ring.items).map (fun _ => 0) := by
  simp [shutdownDrainErase, AudioManager.drainBuffer, drainLoop_eq, SecureZeroMemory,
    AudioManager.stopCapture]

/-- C14 fails on the code: at exit with samples 7, 8, 9 in the record buffer and 10, 11
in the ring, the drain-and-erase step zeroes only the vector `drainBuffer` returned; the
record buffer of the audio manager still holds all five captured samples. -/
theorem shutdown_leaves_samples_in_record_buffer :
    (shutdownDrainErase exitWorld).1.g_audio.m_recordBuffer = [7, 8, 9, 10, 11] ∧
      (shutdownDrainErase exitWorld).2 = [0, 0, 0, 0, 0] ∧
      ¬ ∀ s ∈ (shutdownDrainErase exitWorld).1.g_audio.m_recordBuffer, s = 0 := by
  have h := shutdownDrainErase_eq exitWorld
  have e : (shutdownDrainErase exitWorld).1.g_audio.m_recordBuffer = [7, 8, 9, 10, 11] := by
    rw [h.1]; rfl
  refine ⟨e, ?_, ?_⟩
  · rw [h.2]; rfl
  · rw [e]; decide

/-! ## Text injection -/

theorem unicodeInputs_ne_nil (ch : Nat) (rest : List Nat) :
    unicodeInputs (ch :: rest) ≠ [] := by
  simp [unicodeInputs]

/-- Two texts on their two paths: "hi" as four Unicode key events in one `SendInput`, and
an emoji (a surrogate pair) put on the clipboard and pasted with Ctrl+V. -/
theorem injectText_examples :
    InjectText ⟨true, true, true⟩ [0x68, 0x69] =
        [InjectCall.SendInput [⟨0x68, 4⟩, ⟨0x68, 6⟩, ⟨0x69, 4⟩, ⟨0x69, 6⟩]] ∧
      InjectText ⟨true, true, true⟩ [0xD83D, 0xDE00] =
        [InjectCall.EmptyClipboard, InjectCall.SetClipboardData (some [0xD83D, 0xDE00]),
          InjectCall.Sleep 30, InjectCall.keybd_event 0x11 0, InjectCall.keybd_event 0x56 0,
          InjectCall.keybd_event 0x56 2, InjectCall.keybd_event 0x11 2] := by
  decide

/-- What `findFrom` returns: `none` when the needle occurs at no offset, otherwise the first
offset at which it occurs. -/
theorem findFrom_spec (needle : List Char) (l : List Char) (i : Nat) :
    (findFrom needle l i = none ∧ ∀ k, k ≤ l.length → needle.isPrefixOf (l.drop k) = false) ∨
      (∃ k, findFrom needle l i = some (i + k) ∧ k ≤ l.length ∧
        needle.isPrefixOf (l.drop k) = true ∧
        ∀ j, j < k → needle.isPrefixOf (l.drop j) = false) := by
  induction l generalizing i with
  | nil =>
    cases hn : needle.isEmpty with
    | true =>
      right
      refine ⟨0, by simp [findFrom, hn], Nat.le_refl _, ?_, by intro j hj; omega⟩
      cases needle with
      | nil => rfl
      | cons a r => cases hn
    | false =>
      left
      refine ⟨by simp [findFrom, hn], ?_⟩
      intro k _
      cases needle with
      | nil => cases hn
      | cons a r => simp [List.isPrefixOf]
  | cons c cs ih =>
    cases hp : needle.isPrefixOf (c :: cs) with
    | true =>
      right
      exact ⟨0, by simp [findFrom, hp], Nat.zero_le _, hp, by intro j hj; omega⟩
    | false =>
      rcases ih (i + 1) with ⟨h1, h2⟩ | ⟨k, h1, h2, h3, h4⟩
      · left
        refine ⟨by simp [findFrom, hp, h1], ?_⟩
        intro k hk
        cases k with
        | zero => exact hp
        | succ k => exact h2 k (by simpa using hk)
      · right
        refine ⟨k + 1, ?_, by simpa using h2, h3, ?_⟩
        · simp only [findFrom, hp, Bool.false_eq_true, if_false, h1]
          congr 1
          omega
        · intro j hj
          cases j with
          | zero => exact hp
          | succ j => exact h4 j (by omega)

theorem lookup_none_of_keys (c : Char) (l : List (Char × Char))
    (h : ∀ p ∈ l, (c == p.1) = false) : l.lookup c = none := by
  induction l with
  | nil => rfl
  | cons a l ih =>
    obtain ⟨a1, a2⟩ := a
    have h1 := h (a1, a2) (List.mem_cons_self _ _)
    simp only at h1
    rw [List.lookup_cons, h1]
    exact ih (fun p hp => h p (List.mem_cons_of_mem _ hp))

/-- The case folding of the specification is what `std::tolower` computes. -/
theorem tolower_eq_foldCase (c : Char) : tolower c = foldCase c := by
  by_cases h : 'A'.toNat ≤ c.toNat ∧ c.toNat ≤ 'Z'.toNat
  · have hc : c = Char.ofNat c.toNat := (Char.ofNat_toNat c).symm
    obtain ⟨h1, h2⟩ := h
    have h1' : 65 ≤ c.toNat := h1
    have h2' : c.toNat ≤ 90 := h2
    generalize c.toNat = n at hc h1' h2'
    subst hc
    interval_cases n <;> rfl
  · have ht : tolower c = c := by simp only [tolower, if_neg h]
    rw [ht]
    have hne : ∀ p ∈ asciiLetterPairs, (c == p.1) = false := by
      intro p hp
      have hr : 'A'.toNat ≤ p.1.toNat ∧ p.1.toNat ≤ 'Z'.toNat := by
        revert p
        decide
      cases hb : c == p.1 with
      | false => rfl
      | true =>
        rw [eq_of_beq hb] at h
        exact absurd hr h
    simp only [foldCase, lookup_none_of_keys c _ hne, Option.getD_none]

theorem occursAt_eq (trigger text : List Char) :
    occursAt trigger text = (trigger.map tolower).isPrefixOf (text.map tolower) := by
  have e : tolower = foldCase := funext tolower_eq_foldCase
  rw [occursAt, e]

theorem replaceOccurrences_skip (trigger value : List Char) (k : Nat) (t : List Char) :
    replaceOccurrences trigger value k t = replaceOccurrences trigger value 0 (t.drop k) := by
  induction k generalizing t with
  | zero => rfl
  | succ k ih =>
    cases t with
    | nil => simp [replaceOccurrences]
    | cons c cs => simp only [replaceOccurrences, List.drop_succ_cons, ih]

/-- Where the trigger does not occur at any of the first `k` offsets, the scan copies the
first `k` characters. -/
theorem replaceOccurrences_copy (trigger value : List Char) (k : Nat) (t : List Char)
    (hk : k ≤ t.length)
    (h : ∀ j, j < k → (trigger.map tolower).isPrefixOf ((t.drop j).map tolower) = false) :
    replaceOccurrences trigger value 0 t =
      t.take k ++ replaceOccurrences trigger value 0 (t.drop k) := by
  induction k generalizing t with
  | zero => simp
  | succ k ih =>
    cases t with
    | nil => simp at hk
    | cons c cs =>
      have h0 := h 0 (by omega)
      simp only [List.drop_zero] at h0
      have hrest : ∀ j, j < k →
          (trigger.map tolower).isPrefixOf ((cs.drop j).map tolower) = false := by
        intro j hj
        have := h (j + 1) (by omega)
        simpa using this
      simp only [replaceOccurrences, occursAt_eq, h0, Bool.false_eq_true, if_false,
        List.take_succ_cons, List.drop_succ_cons, List.cons_append]
      rw [ih cs (by simpa using hk) hrest]

/-- Where the trigger occurs at offset 0, the scan puts the value and goes on behind it. -/
theorem replaceOccurrences_hit (trigger value : List Char) (t : List Char)
    (hne : trigger ≠ [])
    (h : (trigger.map tolower).isPrefixOf (t.map tolower) = true) :
    replaceOccurrences trigger value 0 t =
      value ++ replaceOccurrences trigger value 0 (t.drop trigger.length) := by
  cases t with
  | nil =>
    cases trigger with
    | nil => exact absurd rfl hne
    | cons a r => simp [List.isPrefixOf] at h
  | cons c cs =>
    have hl : trigger.length = (trigger.length - 1) + 1 := by
      cases trigger with
      | nil => exact absurd rfl hne
      | cons a r => simp
    simp only [replaceOccurrences, occursAt_eq, h, if_true]
    rw [replaceOccurrences_skip, hl, List.drop_succ_cons]
    simp

theorem isPrefixOf_length_le (p l : List Char) (h : p.isPrefixOf l = true) :
    p.length ≤ l.length := by
  induction p generalizing l with
  | nil => simp
  | cons a r ih =>
    cases l with
    | nil => simp [List.isPrefixOf] at h
    | cons b s =>
      simp only [List.isPrefixOf, Bool.and_eq_true] at h
      simpa using ih s h.2

/-- The loop invariant of `SnippetEngine::apply` for one non-empty trigger: with `done`
already behind the cursor and `rest` still unscanned, the loop ends with `done` followed
by the scan of `rest`. -/
theorem snippetLoop_eq (trigger value : List Char) (hne : trigger ≠ []) (fuel : Nat)
    (done dl rest : List Char) (hdl : dl.length = done.length) (hf : rest.length < fuel) :
    ∃ lw, snippetLoop (trigger.map tolower) trigger.length value fuel (done ++ rest)
        (dl ++ rest.map tolower) done.length =
      some (done ++ replaceOccurrences trigger value 0 rest, lw) := by
  induction fuel generalizing done dl rest with
  | zero => omega
  | succ fuel ih =>
    have hfind : stdFind (dl ++ rest.map tolower) (trigger.map tolower) done.length =
        findFrom (trigger.map tolower) (rest.map tolower) done.length := by
      unfold stdFind
      rw [if_neg (by simp [hdl]), ← hdl, List.drop_left]
    rcases findFrom_spec (trigger.map tolower) (rest.map tolower) done.length with
      ⟨h1, h2⟩ | ⟨k, h1, h2, h3, h4⟩
    · refine ⟨dl ++ rest.map tolower, ?_⟩
      simp only [snippetLoop, hfind, h1]
      have hcopy := replaceOccurrences_copy trigger value rest.length rest (Nat.le_refl _)
        (by
          intro j hj
          have := h2 j (by simp; omega)
          rwa [← List.map_drop] at this)
      rw [hcopy]
      simp [replaceOccurrences]
    · have hk : k ≤ rest.length := by simpa using h2
      have h3' : (trigger.map tolower).isPrefixOf ((rest.drop k).map tolower) = true := by
        rwa [← List.map_drop] at h3
      have hlen := isPrefixOf_length_le _ _ h3'
      simp only [List.length_map, List.length_drop] at hlen
      have hn : 1 ≤ trigger.length := by
        cases trigger with
        | nil => exact absurd rfl hne
        | cons a r => simp
      have hcopy := replaceOccurrences_copy trigger value k rest hk
        (by
          intro j hj
          have := h4 j hj
          rwa [← List.map_drop] at this)
      have hhit := replaceOccurrences_hit trigger value (rest.drop k) hne h3'
      have hres : stdReplace (done ++ rest) (done.length + k) trigger.length value =
          (done ++ rest.take k ++ value) ++ rest.drop (k + trigger.length) := by
        unfold stdReplace
        rw [List.take_append, Nat.add_assoc, List.drop_append]
      have hlow : stdReplace (dl ++ rest.map tolower) (done.length + k) trigger.length
            (List.replicate value.length ' ') =
          (dl ++ (rest.take k).map tolower ++ List.replicate value.length ' ') ++
            (rest.drop (k + trigger.length)).map tolower := by
        unfold stdReplace
        rw [← hdl, List.take_append, Nat.add_assoc, List.drop_append]
        simp [List.append_assoc, List.map_take, List.map_drop]
      have hpos : done.length + k + value.length = (done ++ rest.take k ++ value).length := by
        simp [List.length_take, Nat.min_eq_left hk]
        omega
      obtain ⟨lw, hlw⟩ := ih (done ++ rest.take k ++ value)
        (dl ++ (rest.take k).map tolower ++ List.replicate value.length ' ')
        (rest.drop (k + trigger.length))
        (by simp [hdl])
        (by simp only [List.length_drop]; omega)
      refine ⟨lw, ?_⟩
      simp only [snippetLoop, hfind, h1]
      rw [hres, hlow, hpos, hlw, hcopy, hhit, List.drop_drop]
      simp [List.append_assoc, Nat.add_comm]

/-- An empty trigger is found at every position, so its loop never comes to an end: the
model uses up any number of iterations. -/
theorem snippetLoop_empty_trigger (n : Nat) (value : List Char) (fuel : Nat)
    (result lower : List Char) (pos : Nat) (h : pos ≤ lower.length) :
    snippetLoop [] n value fuel result lower pos = none := by
  induction fuel generalizing result lower pos with
  | zero => rfl
  | succ fuel ih =>
    have hf : stdFind lower [] pos = some pos := by
      unfold stdFind
      rw [if_neg (by omega)]
      cases hd : lower.drop pos with
      | nil => simp [findFrom]
      | cons c cs => simp [findFrom, List.isPrefixOf]
    simp only [snippetLoop, hf]
    apply ih
    simp only [stdReplace, List.length_append, List.length_take, List.length_replicate,
      List.length_drop]
    omega

/-- C16: with a single entry whose trigger is not empty, `apply` returns the text with
every occurrence of the trigger (left to right, not overlapping, ASCII letters compared
without regard to case) replaced by the value and every other character copied; with an
empty snippet map it returns the text unchanged. -/
theorem apply_single_trigger (trigger value text : List Char) (hne : trigger ≠ []) :
    SnippetEngine.apply [(trigger, value)] text =
        some (replaceOccurrences trigger value 0 text) ∧
      SnippetEngine.apply [] text = some text := by
  constructor
  · obtain ⟨lw, h⟩ := snippetLoop_eq trigger value hne (text.length + 1) [] [] text rfl
      (Nat.lt_succ_self _)
    simp only [List.nil_append, List.length_nil] at h
    simp [SnippetEngine.apply, applyEntries, h]
  · rfl

/-- Witness for C16: the default snippet "insert todo", dictated with other capitals, in
a sentence; the occurrence is replaced although its letters differ in case, and the rest
of the sentence is kept. -/
theorem apply_single_trigger_witness :
    "insert todo".toList ≠ [] ∧
      SnippetEngine.apply [("insert todo".toList, "// TODO: ".toList)]
        "Insert TODO fix the parser".toList = some "// TODO:  fix the parser".toList ∧
      SnippetEngine.apply [] "Insert TODO fix the parser".toList =
        some "Insert TODO fix the parser".toList :=
  ⟨by decide,
    (apply_single_trigger "insert todo".toList "// TODO: ".toList
      "Insert TODO fix the parser".toList (by decide)).1.trans (by decide),
    (apply_single_trigger "insert todo".toList "// TODO: ".toList
      "Insert TODO fix the parser".toList (by decide)).2⟩

theorem replaceOccurrences_example :
    replaceOccurrences "insert todo".toList "// TODO: ".toList 0
      "Insert TODO fix the parser".toList = "// TODO:  fix the parser".toList := by
  decide

/-- C17 fails on the code: with the entries visited in the order "insert todo",
"insert todo list", both triggers match at the start of "insert todo list now" and the
shorter one is expanded; the longer one is never applied. -/
theorem apply_not_longest_first :
    SnippetEngine.apply
        [("insert todo".toList, "// TODO: ".toList), ("insert todo list".toList, "- [ ] ".toList)]
        "insert todo list now".toList = some "// TODO:  list now".toList := by
  decide

/-- C18 fails on the code: the trigger "cat" is replaced inside the word "concatenate". -/
theorem apply_replaces_inside_words :
    SnippetEngine.apply [("cat".toList, "feline".toList)] "concatenate".toList =
      some "confelineenate".toList := by
  decide

/-! ## The completion handler -/

theorem applyEntries_nil_text (snips : SnippetMap) (h : ∀ e ∈ snips, e.1 ≠ []) :
    applyEntries snips ([], []) = some ([], []) := by
  induction snips with
  | nil => rfl
  | cons e rest ih =>
    obtain ⟨trigger, value⟩ := e
    have hne : trigger ≠ [] := h (trigger, value) (List.mem_cons_self _ _)
    have hf : stdFind [] (trigger.map tolower) 0 = none := by
      cases trigger with
      | nil => exact absurd rfl hne
      | cons a r => simp [stdFind, findFrom]
    simp only [applyEntries, List.length_nil, snippetLoop, hf]
    exact ih (fun e he => h e (List.mem_cons_of_mem _ he))

theorem formatTranscription_empty (mode : AppMode) : FormatTranscription "" mode = "" := by
  cases mode <;> decide

/-- Where the snippet engine returns, the completion handler leaves the state `IDLE`;
nothing is passed to `InjectText` when the formatted text is empty, and the formatted text
is passed to it, once, when it is not empty. -/
theorem completion_of_return (c : Collaborators) (env : Env) (w : World)
    (lp : Option String) (f : String) (h : completionText c env w lp = some f) :
    (onTranscriptionDone c env w lp).g_state = AppState.IDLE ∧
      (onTranscriptionDone c env w lp).injected =
        (if f = "" then w.injected else w.injected ++ [f]) := by
  refine ⟨((onTranscriptionDone_frame c env w lp).2.2.2.2.2.2 f h).1, ?_⟩
  rw [completionText_eq] at h
  unfold onTranscriptionDone
  dsimp only
  rw [h]
  dsimp only
  split_ifs <;> simp_all [SetTrayIcon]

/-- The empty text formats to the empty text, and a snippet engine whose triggers are not
empty returns it as it is. -/
theorem empty_result_stays_empty :
    (∀ mode, FormatTranscription "" mode = "") ∧
      (∀ snips : SnippetMap, (∀ e ∈ snips, e.1 ≠ []) →
        SnippetEngine.apply snips [] = some []) := by
  refine ⟨formatTranscription_empty, ?_⟩
  intro snips h
  unfold SnippetEngine.apply
  split
  · rfl
  · simp [applyEntries_nil_text snips h]

theorem stdFind_bounds (hay needle : List Char) (pos p : Nat)
    (h : stdFind hay needle pos = some p) : pos ≤ p ∧ p + needle.length ≤ hay.length := by
  unfold stdFind at h
  split at h
  · cases h
  · rename_i hpos
    rcases findFrom_spec needle (hay.drop pos) pos with ⟨h1, _⟩ | ⟨k, h1, h2, h3, _⟩
    · rw [h1] at h
      cases h
    · rw [h1] at h
      simp only [Option.some.injEq] at h
      have hl := isPrefixOf_length_le _ _ h3
      simp only [List.length_drop] at hl h2
      omega

/-- The loop of one non-empty trigger comes to an end within the iterations the model
allows it: every iteration moves the cursor behind an occurrence. -/
theorem snippetLoop_isSome (lt value : List Char) (n : Nat) (hn : n = lt.length)
    (hlt : lt ≠ []) (fuel : Nat) :
    ∀ (result lower : List Char) (pos : Nat), lower.length - pos + 1 ≤ fuel →
      (snippetLoop lt n value fuel result lower pos).isSome = true := by
  have hpos : 1 ≤ lt.length := by
    cases lt with
    | nil => exact absurd rfl hlt
    | cons _ _ => simp
  induction fuel with
  | zero => intro _ _ _ h; omega
  | succ fuel ih =>
    intro result lower pos h
    unfold snippetLoop
    cases hf : stdFind lower lt pos with
    | none => rfl
    | some p =>
      obtain ⟨b1, b2⟩ := stdFind_bounds lower lt pos p hf
      apply ih
      simp only [stdReplace, List.length_append, List.length_take, List.length_replicate,
        List.length_drop]
      omega

/-- The range-`for` over a map without an empty trigger comes to an end. -/
theorem applyEntries_isSome (m : SnippetMap) (h : ∀ e ∈ m, e.1 ≠ []) :
    ∀ st : List Char × List Char, (applyEntries m st).isSome = true := by
  induction m with
  | nil => intro st; rfl
  | cons a rest ih =>
    intro st
    obtain ⟨trigger, value⟩ := a
    have hne : trigger ≠ [] := h (trigger, value) (List.mem_cons_self _ _)
    have hl := snippetLoop_isSome (trigger.map tolower) value trigger.length (by simp)
      (by simpa using hne) (st.2.length + 1) st.1 st.2 0 (by omega)
    simp only [applyEntries]
    cases hs : snippetLoop (trigger.map tolower) trigger.length value (st.2.length + 1)
        st.1 st.2 0 with
    | none =>
      rw [hs] at hl
      cases hl
    | some st2 => exact ih (fun e he => h e (List.mem_cons_of_mem _ he)) st2

/-- The range-`for` over a map that holds an empty trigger never comes to an end. -/
theorem applyEntries_empty_trigger (m : SnippetMap) (h : ∃ e ∈ m, e.1 = []) :
    ∀ st : List Char × List Char, applyEntries m st = none := by
  induction m with
  | nil =>
    obtain ⟨e, he, _⟩ := h
    cases he
  | cons a rest ih =>
    intro st
    obtain ⟨trigger, value⟩ := a
    by_cases ht : trigger = []
    · subst ht
      simp only [applyEntries, List.map_nil, List.length_nil]
      rw [snippetLoop_empty_trigger 0 value (st.2.length + 1) st.1 st.2 0 (Nat.zero_le _)]
    · have hrest : ∃ e ∈ rest, e.1 = [] := by
        obtain ⟨e, he, hnil⟩ := h
        rcases List.mem_cons.mp he with e1 | e1
        · rw [e1] at hnil
          exact absurd hnil ht
        · exact ⟨e, e1, hnil⟩
      simp only [applyEntries]
      cases snippetLoop (trigger.map tolower) trigger.length value (st.2.length + 1) st.1 st.2 0 with
      | none => rfl
      | some st2 => exact ih hrest st2

/-- `SnippetEngine::apply` on a map that holds an empty trigger returns on no text. -/
theorem apply_empty_trigger (m : SnippetMap) (h : ∃ e ∈ m, e.1 = []) (text : List Char) :
    SnippetEngine.apply m text = none := by
  unfold SnippetEngine.apply
  have hne : m.isEmpty = false := by
    cases m with
    | nil =>
      obtain ⟨e, he, _⟩ := h
      cases he
    | cons _ _ => rfl
  rw [hne]
  simp only [Bool.false_eq_true, if_false, applyEntries_empty_trigger m h, Option.map_none']

/-- `SnippetEngine::apply` returns exactly when no trigger of the map is empty: the `none`
of the model is the loop that never ends, and nothing else. -/
theorem apply_returns_iff (m : SnippetMap) (text : List Char) :
    (SnippetEngine.apply m text).isSome = true ↔ ∀ e ∈ m, e.1 ≠ [] := by
  constructor
  · intro h e he hnil
    rw [apply_empty_trigger m ⟨e, he, hnil⟩ text] at h
    cases h
  · intro h
    unfold SnippetEngine.apply
    split
    · rfl
    · have := applyEntries_isSome m h (text, text.map tolower)
      cases hs : applyEntries m (text, text.map tolower) with
      | none =>
        rw [hs] at this
        cases this
      | some st => rfl

/-- With an empty trigger in the snippet map the completion handler of the program never
gets behind `g_snippets.apply`, whatever the event carries. -/
theorem completion_hang_of_empty_trigger (whisper : List Sample → String) (m : SnippetMap)
    (h : ∃ e ∈ m, e.1 = []) (env : Env) (w : World) (lp : Option String) :
    onTranscriptionDone (flowOnCollaborators whisper m) env w lp = { w with hung := true } := by
  apply onTranscriptionDone_hang
  simp only [completionText, flowOnCollaborators, apply_empty_trigger m h, Option.map_none']

/-- With no empty trigger in the snippet map the completion handler of the program returns
and leaves the state `IDLE`, whatever the event carries. -/
theorem completion_returns_of_triggers (whisper : List Sample → String) (m : SnippetMap)
    (h : ∀ e ∈ m, e.1 ≠ []) (env : Env) (w : World) (lp : Option String) :
    (onTranscriptionDone (flowOnCollaborators whisper m) env w lp).g_state = AppState.IDLE ∧
      (onTranscriptionDone (flowOnCollaborators whisper m) env w lp).hung = w.hung := by
  have hsome : ∃ f, completionText (flowOnCollaborators whisper m) env w lp = some f := by
    simp only [completionText, flowOnCollaborators]
    have := (apply_returns_iff m
      (FormatTranscription (lp.getD "") (completionMode env w)).toList).mpr h
    cases hs : SnippetEngine.apply m
        (FormatTranscription (lp.getD "") (completionMode env w)).toList with
    | none =>
      rw [hs] at this
      cases this
    | some r => exact ⟨String.mk r, rfl⟩
  obtain ⟨f, hf⟩ := hsome
  exact (onTranscriptionDone_frame (flowOnCollaborators whisper m) env w lp).2.2.2.2.2.2 f hf

/-- Once the window procedure is inside a call that never returns, no event changes the
state or injects anything. -/
theorem hung_step (c : Collaborators) (w : World) (e : Event × Env) (h : w.hung = true) :
    (step c w e).hung = true ∧ (step c w e).g_state = w.g_state ∧
      (step c w e).injected = w.injected := by
  obtain ⟨ev, env⟩ := e
  cases ev with
  | hotkey wp => simp only [step, h, if_true]; exact ⟨trivial, trivial, trivial⟩
  | timer wp => simp only [step, h, if_true]; exact ⟨trivial, trivial, trivial⟩
  | dispatch => simp only [step, h, if_true]; exact ⟨trivial, trivial, trivial⟩
  | audio data =>
    simp only [step]
    split
    · exact ⟨h, rfl, rfl⟩
    · exact ⟨h, rfl, rfl⟩
  | worker i =>
    simp only [step, stepWorker]
    split
    · exact ⟨h, rfl, rfl⟩
    · exact ⟨h, rfl, rfl⟩

theorem hung_run (c : Collaborators) (es : List (Event × Env)) :
    ∀ w : World, w.hung = true →
      (run c w es).hung = true ∧ (run c w es).g_state = w.g_state ∧
        (run c w es).injected = w.injected := by
  induction es with
  | nil => intro w h; exact ⟨h, rfl, rfl⟩
  | cons e rest ih =>
    intro w h
    obtain ⟨h1, h2, h3⟩ := hung_step c w e h
    obtain ⟨r1, r2, r3⟩ := ih (step c w e) h1
    exact ⟨r1, r2.trans h2, r3.trans h3⟩

/-- The run of `hangRun` from `transcribingWorld` with the empty trigger in the snippet
map: the worker has cleared the busy flag and posted its result, the message was taken
from the queue, and the handler is inside `g_snippets.apply`. -/
theorem hangRun_result :
    (run emptyTriggerCollaborators transcribingWorld hangRun).hung = true ∧
      (run emptyTriggerCollaborators transcribingWorld hangRun).g_state =
        AppState.TRANSCRIBING ∧
      (run emptyTriggerCollaborators transcribingWorld hangRun).injected = [] ∧
      (run emptyTriggerCollaborators transcribingWorld hangRun).msgQueue = [] ∧
      (run emptyTriggerCollaborators transcribingWorld hangRun).g_transcriber.m_busy = false := by
  decide

/-- C13 fails on the code: a settings file may hold a snippet with the empty trigger
(`load` reads it like any other), and with it `SnippetEngine::apply` finds the trigger at
every position and never returns. On every completion event the handler then stays inside
that call, having changed nothing. In the run `hangRun` the worker delivers "hello world",
the handler is entered in state `TRANSCRIBING`, and whatever happens afterwards the state
is still `TRANSCRIBING` and nothing has been injected. -/
theorem completion_hangs_on_empty_trigger (whisper : List Sample → String) (env : Env)
    (w : World) (lp : Option String) (es : List (Event × Env)) :
    onTranscriptionDone (flowOnCollaborators whisper emptyTriggerMap) env w lp =
        { w with hung := true } ∧
      (run emptyTriggerCollaborators transcribingWorld hangRun).g_state =
        AppState.TRANSCRIBING ∧
      (run emptyTriggerCollaborators transcribingWorld hangRun).msgQueue = [] ∧
      (run emptyTriggerCollaborators transcribingWorld (hangRun ++ es)).g_state =
        AppState.TRANSCRIBING ∧
      (run emptyTriggerCollaborators transcribingWorld (hangRun ++ es)).injected = [] ∧
      SnippetEngine.apply emptyTriggerMap "Hello world.".toList = none ∧
      wellTyped emptyTriggerMembers = true ∧
      loadedSnippets {} emptyTriggerMembers ⟨true, true⟩ = [([], str "x")] := by
  have hall := completion_hang_of_empty_trigger whisper emptyTriggerMap
    ⟨([], "x".toList), List.mem_cons_self _ _, rfl⟩
  obtain ⟨h1, h2, h3, h4, _⟩ := hangRun_result
  have hr := hung_run emptyTriggerCollaborators es _ h1
  have happ : run emptyTriggerCollaborators transcribingWorld (hangRun ++ es) =
      run emptyTriggerCollaborators (run emptyTriggerCollaborators transcribingWorld hangRun)
        es := by
    simp only [run, List.foldl_append]
  refine ⟨hall env w lp, h2, h4, ?_, ?_, by decide, by decide, by decide⟩
  · rw [happ, hr.2.1, h2]
  · rw [happ, hr.2.2, h3]

/-! ## Lemmas on `regexReplace` and the filler patterns -/

theorem regexReplace_prev_congr (m : Option Char → List Char → Option Nat) (fmt : List Char)
    (p q : Option Char) (x : List Char) (h : ∀ t, m p t = m q t) :
    regexReplace m fmt 0 p x = regexReplace m fmt 0 q x := by
  cases x with
  | nil => rfl
  | cons c cs => simp only [regexReplace, h]

/-- Behind the start of the text an anchored pattern matches nowhere: the scan copies. -/
theorem regexReplace_anchored_tail (m : Option Char → List Char → Option Nat)
    (fmt : List Char) (ha : ∀ p t, m (some p) t = none) (k : Nat) (p : Char) (t : List Char) :
    regexReplace m fmt k (some p) t = t.drop k := by
  induction t generalizing k p with
  | nil => simp [regexReplace]
  | cons c cs ih =>
    cases k with
    | zero =>
      simp only [regexReplace, ha, List.drop_zero]
      rw [ih 0 c]
      rfl
    | succ k => simp only [regexReplace, List.drop_succ_cons, ih k c]

/-- `std::regex_replace` with an anchored pattern: the match at the start of the text, if
there is one, is replaced and everything behind it is copied. -/
theorem regexReplace_anchored (m : Option Char → List Char → Option Nat) (fmt : List Char)
    (ha : ∀ p t, m (some p) t = none) (t : List Char) (ht : t ≠ []) :
    regexReplace m fmt 0 none t =
      match m none t with
      | some (n + 1) => fmt ++ t.drop (n + 1)
      | _ => t := by
  cases t with
  | nil => exact absurd rfl ht
  | cons c cs =>
    simp only [regexReplace]
    split
    · rename_i n hn
      simp only [List.drop_succ_cons]
      rw [regexReplace_anchored_tail m fmt ha n c cs]
    · rw [regexReplace_anchored_tail m fmt ha 0 c cs]
      rfl

theorem noMatchIn_append (m : Option Char → List Char → Option Nat) (prev : Option Char)
    (a b : List Char) (ha : NoMatchIn m prev a) (hb : NoMatchIn m (lastPrev prev a) b) :
    NoMatchIn m prev (a ++ b) := by
  induction a generalizing prev with
  | nil => exact hb
  | cons c cs ih =>
    refine ⟨?_, ih (some c) ha.2 hb⟩
    intro y
    have := ha.1 (b ++ y)
    simpa [List.append_assoc] using this

/-- Where a pattern finds no match inside `pre`, the scan copies `pre`. -/
theorem regexReplace_noMatch (m : Option Char → List Char → Option Nat) (fmt : List Char)
    (prev : Option Char) (pre x : List Char) (h : NoMatchIn m prev pre) :
    regexReplace m fmt 0 prev (pre ++ x) =
      pre ++ regexReplace m fmt 0 (lastPrev prev pre) x := by
  induction pre generalizing prev with
  | nil => rfl
  | cons c cs ih =>
    have h1 := h.1 x
    rw [List.cons_append] at h1 ⊢
    simp only [regexReplace, h1, lastPrev]
    rw [ih (some c) h.2]
    rfl

theorem spaceRun_append (ws y : List Char) (h : ∀ c ∈ ws, isSpaceW c = true) :
    spaceRun (ws ++ y) = ws.length + spaceRun y := by
  induction ws with
  | nil => simp [spaceRun]
  | cons c cs ih =>
    have hc := h c (List.mem_cons_self _ _)
    have := ih (fun d hd => h d (List.mem_cons_of_mem _ hd))
    simp only [spaceRun] at this ⊢
    simp only [List.cons_append, List.takeWhile_cons, hc, if_true, List.length_cons, this]
    omega

theorem drop_spaceRun (y : List Char) : y.drop (spaceRun y) = y.dropWhile isSpaceW := by
  induction y with
  | nil => rfl
  | cons c cs ih =>
    unfold spaceRun at ih ⊢
    by_cases hc : isSpaceW c = true
    · simp [List.takeWhile_cons, List.dropWhile_cons, hc, ih]
    · simp [List.takeWhile_cons, List.dropWhile_cons, hc]

theorem isSpaceW_cases (c : Char) (h : isSpaceW c = true) :
    c = ' ' ∨ c = '\t' ∨ c = '\n' ∨ c = Char.ofNat 0x0B ∨ c = Char.ofNat 0x0C ∨ c = '\r' := by
  simpa [isSpaceW, or_assoc] using h

theorem space_facts (c : Char) (h : isSpaceW c = true) :
    towlower c = c ∧ isWordW c = false ∧ c ≠ ',' ∧ c ≠ 'u' ∧ c ≠ 'a' ∧ c ≠ 'e' ∧ c ≠ 'h' ∧
      c ≠ 'y' := by
  rcases isSpaceW_cases c h with h | h | h | h | h | h <;> subst h <;> decide

theorem isWordW_of_towlower (c d : Char) (h : towlower c = d)
    (hd : 'a'.toNat ≤ d.toNat ∧ d.toNat ≤ 'z'.toNat) : isWordW c = true := by
  have e1 : 'A'.toNat = 65 := rfl
  have e2 : 'Z'.toNat = 90 := rfl
  have e3 : 'a'.toNat = 97 := rfl
  have e4 : 'z'.toNat = 122 := rfl
  unfold towlower at h
  simp only [isWordW, Bool.or_eq_true, Bool.and_eq_true, decide_eq_true_eq]
  split at h
  · rename_i hu
    exact Or.inl (Or.inl (Or.inr hu))
  · subst h
    exact Or.inl (Or.inl (Or.inl hd))

theorem matchAlts_head_ne (tail : List Char → Option Nat) (alts : List (List Char))
    (c d : Char) (t : List Char) (hd : towlower c = d)
    (h : ∀ a ∈ alts, a.head? ≠ some d ∧ a ≠ []) : matchAlts tail alts (c :: t) = none := by
  induction alts with
  | nil => rfl
  | cons a rest ih =>
    have ha := h a (List.mem_cons_self _ _)
    have hp : icasePrefix a (c :: t) = false := by
      cases a with
      | nil => exact absurd rfl ha.2
      | cons x xs =>
        have hx : x ≠ d := fun e => ha.1 (by rw [e]; rfl)
        simp [icasePrefix, List.isPrefixOf, hd, hx]
    simp only [matchAlts, hp, Bool.false_eq_true, if_false]
    exact ih (fun b hb => h b (List.mem_cons_of_mem _ hb))

theorem global0_head_ne (prev : Option Char) (c d : Char) (t : List Char)
    (hd : towlower c = d)
    (h : ∀ a ∈ ["um".toList, "uh".toList, "ah".toList, "er".toList, "hmm".toList],
      a.head? ≠ some d ∧ a ≠ []) : FILLERS_GLOBAL_0 prev (c :: t) = none := by
  unfold FILLERS_GLOBAL_0
  split
  · exact matchAlts_head_ne _ _ c d t hd h
  · rfl

theorem global1_head_ne (prev : Option Char) (c d : Char) (t : List Char)
    (hd : towlower c = d)
    (h : ∀ a ∈ ["you know".toList], a.head? ≠ some d ∧ a ≠ []) :
    FILLERS_GLOBAL_1 prev (c :: t) = none := by
  unfold FILLERS_GLOBAL_1
  split
  · exact matchAlts_head_ne _ _ c d t hd h
  · rfl

theorem global0_inword (p c : Char) (t : List Char) (hp : isWordW p = true)
    (hc : isWordW c = true) : FILLERS_GLOBAL_0 (some p) (c :: t) = none := by
  simp [FILLERS_GLOBAL_0, wordBoundary, isWordOpt, hp, hc]

theorem global1_inword (p c : Char) (t : List Char) (hp : isWordW p = true)
    (hc : isWordW c = true) : FILLERS_GLOBAL_1 (some p) (c :: t) = none := by
  simp [FILLERS_GLOBAL_1, wordBoundary, isWordOpt, hp, hc]

theorem global0_prev_congr (p q : Option Char) (h : isWordOpt p = isWordOpt q) (t : List Char) :
    FILLERS_GLOBAL_0 p t = FILLERS_GLOBAL_0 q t := by
  simp [FILLERS_GLOBAL_0, wordBoundary, h]

theorem global1_prev_congr (p q : Option Char) (h : isWordOpt p = isWordOpt q) (t : List Char) :
    FILLERS_GLOBAL_1 p t = FILLERS_GLOBAL_1 q t := by
  simp [FILLERS_GLOBAL_1, wordBoundary, h]

theorem global0_space (prev : Option Char) (c : Char) (t : List Char)
    (h : isSpaceW c = true) : FILLERS_GLOBAL_0 prev (c :: t) = none := by
  have hl := (space_facts c h).1
  rcases isSpaceW_cases c h with e | e | e | e | e | e <;> subst e <;>
    exact global0_head_ne prev _ _ t hl (by decide)

theorem global1_space (prev : Option Char) (c : Char) (t : List Char)
    (h : isSpaceW c = true) : FILLERS_GLOBAL_1 prev (c :: t) = none := by
  have hl := (space_facts c h).1
  rcases isSpaceW_cases c h with e | e | e | e | e | e <;> subst e <;>
    exact global1_head_ne prev _ _ t hl (by decide)

theorem noMatchIn_spaces (m : Option Char → List Char → Option Nat)
    (hm : ∀ prev c t, isSpaceW c = true → m prev (c :: t) = none)
    (prev : Option Char) (ws : List Char) (h : ∀ c ∈ ws, isSpaceW c = true) :
    NoMatchIn m prev ws := by
  induction ws generalizing prev with
  | nil => trivial
  | cons c cs ih =>
    exact ⟨fun y => hm prev c (cs ++ y) (h c (List.mem_cons_self _ _)),
      ih (some c) (fun d hd => h d (List.mem_cons_of_mem _ hd))⟩

theorem lastPrev_append (p : Option Char) (a b : List Char) :
    lastPrev p (a ++ b) = lastPrev (lastPrev p a) b := by
  induction a generalizing p with
  | nil => rfl
  | cons c cs ih => exact ih (some c)

theorem lastPrev_spaces (p : Option Char) (ws : List Char) (hne : ws ≠ [])
    (h : ∀ c ∈ ws, isSpaceW c = true) : isWordOpt (lastPrev p ws) = false := by
  induction ws generalizing p with
  | nil => exact absurd rfl hne
  | cons c cs ih =>
    cases cs with
    | nil => exact (space_facts c (h c (List.mem_cons_self _ _))).2.1
    | cons d ds =>
      exact ih (some c) (by simp) (fun x hx => h x (List.mem_cons_of_mem _ hx))

theorem sentenceStart_anchored (p : Char) (t : List Char) :
    FILLERS_SENTENCE_START_0 (some p) t = none ∧ FILLERS_SENTENCE_START_1 (some p) t = none ∧
      FILLERS_SENTENCE_START_2 (some p) t = none := by
  simp [FILLERS_SENTENCE_START_0, FILLERS_SENTENCE_START_1, FILLERS_SENTENCE_START_2]

/-- `,?\s+` on an optional comma, a non-empty run of spaces and whatever follows: it takes
the comma, the run, and the spaces that follow the run. -/
theorem commaSpaces_sep (C WS y : List Char) (hC : C = [] ∨ C = [','])
    (hne : WS ≠ []) (hsp : ∀ c ∈ WS, isSpaceW c = true) :
    commaSpaces (C ++ WS ++ y) = some (C.length + WS.length + spaceRun y) := by
  have hrun := spaceRun_append WS y hsp
  have hpos : 1 ≤ WS.length := by
    cases WS with
    | nil => exact absurd rfl hne
    | cons a r => simp
  rcases hC with h | h
  · subst h
    cases WS with
    | nil => exact absurd rfl hne
    | cons a r =>
      have ha : a ≠ ',' := (space_facts a (hsp a (List.mem_cons_self _ _))).2.2.1
      simp only [List.nil_append, List.cons_append] at hrun ⊢
      unfold commaSpaces
      split
      · rename_i r1 heq
        exact absurd (List.cons.inj heq).1 ha
      · rw [hrun]
        simp
  · subst h
    simp only [List.cons_append, List.nil_append, List.append_assoc, commaSpaces, hrun]
    simp
    omega

theorem filler_shape (F : List Char)
    (hF : F.map towlower ∈
      ["so".toList, "well".toList, "okay".toList, "ok".toList, "like".toList]) :
    (∃ a b, F = [a, b] ∧ towlower a = 's' ∧ towlower b = 'o') ∨
    (∃ a b c d, F = [a, b, c, d] ∧ towlower a = 'w' ∧ towlower b = 'e' ∧ towlower c = 'l' ∧
      towlower d = 'l') ∨
    (∃ a b c d, F = [a, b, c, d] ∧ towlower a = 'o' ∧ towlower b = 'k' ∧ towlower c = 'a' ∧
      towlower d = 'y') ∨
    (∃ a b, F = [a, b] ∧ towlower a = 'o' ∧ towlower b = 'k') ∨
    (∃ a b c d, F = [a, b, c, d] ∧ towlower a = 'l' ∧ towlower b = 'i' ∧ towlower c = 'k' ∧
      towlower d = 'e') := by
  have e1 : "so".toList = ['s', 'o'] := rfl
  have e2 : "well".toList = ['w', 'e', 'l', 'l'] := rfl
  have e3 : "okay".toList = ['o', 'k', 'a', 'y'] := rfl
  have e4 : "ok".toList = ['o', 'k'] := rfl
  have e5 : "like".toList = ['l', 'i', 'k', 'e'] := rfl
  rw [e1, e2, e3, e4, e5] at hF
  simp only [List.mem_cons, List.mem_singleton, List.not_mem_nil, or_false] at hF
  rcases F with _ | ⟨a, _ | ⟨b, _ | ⟨c, _ | ⟨d, _ | ⟨e, r⟩⟩⟩⟩⟩
  · simp at hF
  · simp at hF
  · simp only [List.map_cons, List.map_nil] at hF
    rcases hF with h | h | h | h | h
    · simp at h
      exact Or.inl ⟨a, b, rfl, h.1, h.2⟩
    · simp at h
    · simp at h
    · simp at h
      exact Or.inr (Or.inr (Or.inr (Or.inl ⟨a, b, rfl, h.1, h.2⟩)))
    · simp at h
  · simp at hF
  · simp only [List.map_cons, List.map_nil] at hF
    rcases hF with h | h | h | h | h
    · simp at h
    · simp at h
      exact Or.inr (Or.inl ⟨a, b, c, d, rfl, h.1, h.2.1, h.2.2.1, h.2.2.2⟩)
    · simp at h
      exact Or.inr (Or.inr (Or.inl ⟨a, b, c, d, rfl, h.1, h.2.1, h.2.2.1, h.2.2.2⟩))
    · simp at h
    · simp at h
      exact Or.inr (Or.inr (Or.inr (Or.inr ⟨a, b, c, d, rfl, h.1, h.2.1, h.2.2.1, h.2.2.2⟩)))
  · simp at hF

/-- The global-filler patterns find no match that starts inside a leading filler. -/
theorem filler_noMatch (F : List Char)
    (hF : F.map towlower ∈
      ["so".toList, "well".toList, "okay".toList, "ok".toList, "like".toList]) :
    NoMatchIn FILLERS_GLOBAL_0 none F ∧ NoMatchIn FILLERS_GLOBAL_1 none F := by
  rcases filler_shape F hF with ⟨a, b, rfl, h1, h2⟩ | ⟨a, b, c, d, rfl, h1, h2, h3, h4⟩ |
    ⟨a, b, c, d, rfl, h1, h2, h3, h4⟩ | ⟨a, b, rfl, h1, h2⟩ | ⟨a, b, c, d, rfl, h1, h2, h3, h4⟩
  · exact ⟨⟨fun y => global0_head_ne _ a _ _ h1 (by decide),
        fun y => global0_head_ne _ b _ _ h2 (by decide), trivial⟩,
      ⟨fun y => global1_head_ne _ a _ _ h1 (by decide),
        fun y => global1_head_ne _ b _ _ h2 (by decide), trivial⟩⟩
  · have wa := isWordW_of_towlower a _ h1 (by decide)
    have wb := isWordW_of_towlower b _ h2 (by decide)
    exact ⟨⟨fun y => global0_head_ne _ a _ _ h1 (by decide),
        fun y => global0_inword a b _ wa wb,
        fun y => global0_head_ne _ c _ _ h3 (by decide),
        fun y => global0_head_ne _ d _ _ h4 (by decide), trivial⟩,
      ⟨fun y => global1_head_ne _ a _ _ h1 (by decide),
        fun y => global1_head_ne _ b _ _ h2 (by decide),
        fun y => global1_head_ne _ c _ _ h3 (by decide),
        fun y => global1_head_ne _ d _ _ h4 (by decide), trivial⟩⟩
  · have wb := isWordW_of_towlower b _ h2 (by decide)
    have wc := isWordW_of_towlower c _ h3 (by decide)
    have wd := isWordW_of_towlower d _ h4 (by decide)
    exact ⟨⟨fun y => global0_head_ne _ a _ _ h1 (by decide),
        fun y => global0_head_ne _ b _ _ h2 (by decide),
        fun y => global0_inword b c _ wb wc,
        fun y => global0_head_ne _ d _ _ h4 (by decide), trivial⟩,
      ⟨fun y => global1_head_ne _ a _ _ h1 (by decide),
        fun y => global1_head_ne _ b _ _ h2 (by decide),
        fun y => global1_head_ne _ c _ _ h3 (by decide),
        fun y => global1_inword c d _ wc wd, trivial⟩⟩
  · exact ⟨⟨fun y => global0_head_ne _ a _ _ h1 (by decide),
        fun y => global0_head_ne _ b _ _ h2 (by decide), trivial⟩,
      ⟨fun y => global1_head_ne _ a _ _ h1 (by decide),
        fun y => global1_head_ne _ b _ _ h2 (by decide), trivial⟩⟩
  · have wc := isWordW_of_towlower c _ h3 (by decide)
    have wd := isWordW_of_towlower d _ h4 (by decide)
    exact ⟨⟨fun y => global0_head_ne _ a _ _ h1 (by decide),
        fun y => global0_head_ne _ b _ _ h2 (by decide),
        fun y => global0_head_ne _ c _ _ h3 (by decide),
        fun y => global0_inword c d _ wc wd, trivial⟩,
      ⟨fun y => global1_head_ne _ a _ _ h1 (by decide),
        fun y => global1_head_ne _ b _ _ h2 (by decide),
        fun y => global1_head_ne _ c _ _ h3 (by decide),
        fun y => global1_head_ne _ d _ _ h4 (by decide), trivial⟩⟩

/-- The first sentence-start pattern on a leading filler, an optional comma, a run of
spaces and whatever follows: it matches the filler, the comma, the run and the spaces that
follow the run. -/
theorem sentenceStart0_match (F C WS y : List Char)
    (hF : F.map towlower ∈
      ["so".toList, "well".toList, "okay".toList, "ok".toList, "like".toList])
    (hC : C = [] ∨ C = [',']) (hne : WS ≠ []) (hsp : ∀ c ∈ WS, isSpaceW c = true) :
    FILLERS_SENTENCE_START_0 none (F ++ (C ++ WS ++ y)) =
      some (F.length + (C.length + WS.length + spaceRun y)) := by
  have htail := commaSpaces_sep C WS y hC hne hsp
  have e1 : "so".toList = ['s', 'o'] := rfl
  have e2 : "well".toList = ['w', 'e', 'l', 'l'] := rfl
  have e3 : "okay".toList = ['o', 'k', 'a', 'y'] := rfl
  have e4 : "ok".toList = ['o', 'k'] := rfl
  have e5 : "like".toList = ['l', 'i', 'k', 'e'] := rfl
  -- the character behind the filler is a comma or a space, never the letter a
  have hhead : ∃ x r, C ++ WS ++ y = x :: r ∧ towlower x ≠ 'a' := by
    rcases hC with h | h
    · subst h
      cases WS with
      | nil => exact absurd rfl hne
      | cons w ws =>
        have hw := space_facts w (hsp w (List.mem_cons_self _ _))
        refine ⟨w, ws ++ y, rfl, ?_⟩
        rw [hw.1]
        exact hw.2.2.2.2.1
    · subst h
      exact ⟨',', WS ++ y, by simp, by decide⟩
  obtain ⟨x, r, hxr, hx⟩ := hhead
  rw [List.append_assoc] at htail hxr ⊢
  unfold FILLERS_SENTENCE_START_0
  rw [e1, e2, e3, e4, e5]
  rcases filler_shape F hF with ⟨a, b, rfl, h1, h2⟩ | ⟨a, b, c, d, rfl, h1, h2, h3, h4⟩ |
    ⟨a, b, c, d, rfl, h1, h2, h3, h4⟩ | ⟨a, b, rfl, h1, h2⟩ | ⟨a, b, c, d, rfl, h1, h2, h3, h4⟩
  · simp [matchAlts, icasePrefix, List.isPrefixOf, h1, h2, htail]
  · simp [matchAlts, icasePrefix, List.isPrefixOf, h1, h2, h3, h4, htail]
  · simp [matchAlts, icasePrefix, List.isPrefixOf, h1, h2, h3, h4, htail]
  · rw [hxr] at htail ⊢
    simp [matchAlts, icasePrefix, List.isPrefixOf, h1, h2, htail, Ne.symm hx]
  · simp [matchAlts, icasePrefix, List.isPrefixOf, h1, h2, h3, h4, htail]

/-- The global-filler replacements leave a leading filler, its comma and the spaces behind
it alone, and treat the text that follows as if it stood at the start. -/
theorem regexReplace_global_prefix (m : Option Char → List Char → Option Nat)
    (hcongr : ∀ p q, isWordOpt p = isWordOpt q → ∀ t, m p t = m q t)
    (hspace : ∀ prev c t, isSpaceW c = true → m prev (c :: t) = none)
    (hcomma : ∀ prev t, m prev (',' :: t) = none)
    (F C WS x : List Char) (hF : NoMatchIn m none F) (hC : C = [] ∨ C = [','])
    (hne : WS ≠ []) (hsp : ∀ c ∈ WS, isSpaceW c = true) :
    regexReplace m [' '] 0 none (F ++ (C ++ WS) ++ x) =
      F ++ (C ++ WS) ++ regexReplace m [' '] 0 none x := by
  have hCn : NoMatchIn m (lastPrev none F) C := by
    rcases hC with h | h
    · subst h; trivial
    · subst h; exact ⟨fun y => hcomma _ _, trivial⟩
  have hWn : NoMatchIn m (lastPrev (lastPrev none F) C) WS := noMatchIn_spaces m hspace _ WS hsp
  have hpre : NoMatchIn m none (F ++ (C ++ WS)) :=
    noMatchIn_append m none F (C ++ WS) hF (noMatchIn_append m _ C WS hCn hWn)
  rw [regexReplace_noMatch m [' '] none (F ++ (C ++ WS)) x hpre]
  congr 1
  apply regexReplace_prev_congr
  apply hcongr
  rw [← List.append_assoc, lastPrev_append]
  exact lastPrev_spaces _ WS hne hsp

/-- `removeFillers` on a text that begins with a sentence-start filler of the first pattern,
an optional comma and spaces: these are removed, together with the spaces the global
fillers leave at the start of the rest. -/
theorem removeFillers_leading (F C WS rest : List Char)
    (hF : F.map towlower ∈
      ["so".toList, "well".toList, "okay".toList, "ok".toList, "like".toList])
    (hC : C = [] ∨ C = [',']) (hne : WS ≠ []) (hsp : ∀ c ∈ WS, isSpaceW c = true) :
    removeFillers (F ++ C ++ WS ++ rest) =
      regexReplace FILLERS_SENTENCE_START_2 [] 0 none
        (regexReplace FILLERS_SENTENCE_START_1 [] 0 none
          ((globalFillers rest).dropWhile isSpaceW)) := by
  have hnm := filler_noMatch F hF
  have h0 := regexReplace_global_prefix FILLERS_GLOBAL_0
    (fun p q h t => global0_prev_congr p q h t) global0_space
    (fun prev t => global0_head_ne prev ',' ',' t rfl (by decide))
    F C WS rest hnm.1 hC hne hsp
  have h1 := regexReplace_global_prefix FILLERS_GLOBAL_1
    (fun p q h t => global1_prev_congr p q h t) global1_space
    (fun prev t => global1_head_ne prev ',' ',' t rfl (by decide))
    F C WS (regexReplace FILLERS_GLOBAL_0 [' '] 0 none rest) hnm.2 hC hne hsp
  have hm := sentenceStart0_match F C WS (globalFillers rest) hF hC hne hsp
  have hFl : 1 ≤ F.length := by
    rcases filler_shape F hF with ⟨a, b, rfl, _⟩ | ⟨a, b, c, d, rfl, _⟩ |
      ⟨a, b, c, d, rfl, _⟩ | ⟨a, b, rfl, _⟩ | ⟨a, b, c, d, rfl, _⟩ <;> simp
  have hnil : F ++ (C ++ WS ++ globalFillers rest) ≠ [] := by
    intro h
    have := congrArg List.length h
    simp only [List.length_append, List.length_nil] at this
    omega
  have hk : F.length + (C.length + WS.length + spaceRun (globalFillers rest)) =
      (F.length + (C.length + WS.length + spaceRun (globalFillers rest)) - 1) + 1 := by omega
  have h3 : regexReplace FILLERS_SENTENCE_START_0 [] 0 none
      (F ++ (C ++ WS ++ globalFillers rest)) = (globalFillers rest).dropWhile isSpaceW := by
    rw [regexReplace_anchored _ _ (fun p t => (sentenceStart_anchored p t).1) _ hnil, hm, hk]
    simp only [List.nil_append]
    rw [← hk, ← drop_spaceRun, List.drop_append]
    have e : C.length + WS.length + spaceRun (globalFillers rest) =
        (C ++ WS).length + spaceRun (globalFillers rest) := by simp
    rw [e, List.drop_append]
  unfold removeFillers
  have e : F ++ C ++ WS ++ rest = F ++ (C ++ WS) ++ rest := by simp [List.append_assoc]
  simp only [e, h0]
  rw [h1]
  have e2 : F ++ (C ++ WS) ++ regexReplace FILLERS_GLOBAL_1 [' '] 0 none
      (regexReplace FILLERS_GLOBAL_0 [' '] 0 none rest) =
      F ++ (C ++ WS ++ globalFillers rest) := by
    simp [globalFillers, List.append_assoc]
  rw [e2, h3]

/-! ## Sentence-start fillers -/

/-- C19 (as amended): for every text that begins, at its very first character, with so,
well, okay, ok or like in any letter case, then an optional comma, then at least one space
character, `FormatTranscription` removes that filler with its comma and the spaces behind
it: the output is what the remaining passes make of the text that followed. -/
theorem leading_filler_removed (F C WS rest : List Char) (mode : AppMode)
    (hF : F.map towlower ∈
      ["so".toList, "well".toList, "okay".toList, "ok".toList, "like".toList])
    (hC : C = [] ∨ C = [',']) (hne : WS ≠ []) (hsp : ∀ c ∈ WS, isSpaceW c = true) :
    FormatTranscription (String.mk (F ++ C ++ WS ++ rest)) mode =
      formatAfterLeadingFiller rest mode := by
  have ht : (String.mk (F ++ C ++ WS ++ rest)).toList = F ++ C ++ WS ++ rest := rfl
  unfold FormatTranscription formatAfterLeadingFiller toWide
  simp only [ht, removeFillers_leading F C WS rest hF hC hne hsp]

/-- Witness for C19: "Okay, " in front of a sentence. -/
theorem leading_filler_removed_witness :
    FormatTranscription (String.mk ("Okay".toList ++ [','] ++ [' '] ++ "open the file".toList))
        AppMode.PROSE = formatAfterLeadingFiller "open the file".toList AppMode.PROSE :=
  leading_filler_removed "Okay".toList [','] [' '] "open the file".toList AppMode.PROSE
    (by decide) (Or.inr rfl) (by decide) (by decide)

theorem leading_filler_example :
    FormatTranscription "Okay, open the file" AppMode.PROSE = "Open the file." ∧
      formatAfterLeadingFiller "open the file".toList AppMode.PROSE = "Open the file." := by
  decide

/-- C19 (as stated) fails: the first word of "so so what" is the filler "so" followed by a
space, and the output begins with that word; in " so what" the filler is the first word
but not the first character, and it is not removed at all. -/
theorem leading_filler_counterexample :
    FormatTranscription "so so what" AppMode.PROSE = "So what." ∧
      FormatTranscription " so what" AppMode.PROSE = "So what." := by
  decide

theorem towlower_eq_foldCase (c : Char) : towlower c = foldCase c :=
  tolower_eq_foldCase c

theorem isSpaceW_iff (c : Char) : isSpaceW c = true ↔ c ∈ spaceChars := by
  simp [isSpaceW, spaceChars, or_assoc]

theorem icasePrefix_split (a t : List Char) (h : icasePrefix a t = true) :
    ∃ F r, t = F ++ r ∧ F.length = a.length ∧ F.map foldCase = a ∧ r = t.drop a.length := by
  have e : towlower = foldCase := funext towlower_eq_foldCase
  unfold icasePrefix at h
  rw [e] at h
  have hp : a <+: t.map foldCase := List.isPrefixOf_iff_prefix.mp h
  have hlen : a.length ≤ t.length := by
    have := hp.length_le
    simpa using this
  refine ⟨t.take a.length, t.drop a.length, (List.take_append_drop _ _).symm, ?_, ?_, rfl⟩
  · rw [List.length_take]
    omega
  · have h1 := List.prefix_iff_eq_take.mp hp
    rw [← List.map_take] at h1
    exact h1.symm

theorem icasePrefix_append (F r : List Char) : icasePrefix (F.map foldCase) (F ++ r) = true := by
  have e : towlower = foldCase := funext towlower_eq_foldCase
  unfold icasePrefix
  rw [e, List.map_append]
  exact List.isPrefixOf_iff_prefix.mpr (List.prefix_append _ _)

theorem matchAlts_some (tail : List Char → Option Nat) (alts : List (List Char))
    (t : List Char) (n : Nat) (h : matchAlts tail alts t = some n) :
    ∃ a ∈ alts, icasePrefix a t = true ∧ ∃ k, tail (t.drop a.length) = some k ∧
      n = a.length + k := by
  induction alts with
  | nil => simp [matchAlts] at h
  | cons a rest ih =>
    unfold matchAlts at h
    by_cases hp : icasePrefix a t = true
    · rw [if_pos hp] at h
      cases hk : tail (t.drop a.length) with
      | some k =>
        rw [hk] at h
        simp only [Option.some.injEq] at h
        exact ⟨a, List.mem_cons_self _ _, hp, k, hk, h.symm⟩
      | none =>
        rw [hk] at h
        obtain ⟨b, hb, r⟩ := ih h
        exact ⟨b, List.mem_cons_of_mem _ hb, r⟩
    · rw [if_neg hp] at h
      obtain ⟨b, hb, r⟩ := ih h
      exact ⟨b, List.mem_cons_of_mem _ hb, r⟩

theorem matchAlts_isSome (tail : List Char → Option Nat) (alts : List (List Char))
    (t : List Char) (a : List Char) (ha : a ∈ alts) (hp : icasePrefix a t = true)
    (hk : (tail (t.drop a.length)).isSome = true) : (matchAlts tail alts t).isSome = true := by
  induction alts with
  | nil => cases ha
  | cons b rest ih =>
    unfold matchAlts
    by_cases hb : icasePrefix b t = true
    · rw [if_pos hb]
      cases hkb : tail (t.drop b.length) with
      | some k => rfl
      | none =>
        simp only
        rcases List.mem_cons.mp ha with e | e
        · subst e
          rw [hkb] at hk
          cases hk
        · exact ih e
    · rw [if_neg hb]
      rcases List.mem_cons.mp ha with e | e
      · subst e
        exact absurd hp hb
      · exact ih e

theorem takeWhile_space_mem (r : List Char) : ∀ c ∈ r.takeWhile isSpaceW, c ∈ spaceChars := by
  intro c hc
  exact (isSpaceW_iff c).mp (List.mem_takeWhile_imp hc)

theorem head_dropWhile_space (r : List Char) (c : Char)
    (h : (r.dropWhile isSpaceW).head? = some c) : c ∉ spaceChars := by
  intro hc
  have h1 := List.head?_dropWhile_not isSpaceW r
  rw [h] at h1
  simp only [Option.all_some] at h1
  rw [(isSpaceW_iff c).mpr hc] at h1
  cases h1

/-- What `\s+` takes: the whole run of spaces, which is not empty. -/
theorem spaces1_some (r : List Char) (k : Nat) (h : spaces1 r = some k) :
    ∃ WS, WS ≠ [] ∧ (∀ c ∈ WS, c ∈ spaceChars) ∧ k = WS.length ∧ r = WS ++ r.drop k ∧
      ∀ c, (r.drop k).head? = some c → c ∉ spaceChars := by
  unfold spaces1 at h
  split at h
  · rename_i hpos
    simp only [Option.some.injEq] at h
    subst h
    refine ⟨r.takeWhile isSpaceW, ?_, takeWhile_space_mem r, rfl, ?_, ?_⟩
    · intro e
      rw [spaceRun, e] at hpos
      simp at hpos
    · rw [drop_spaceRun]
      exact (List.takeWhile_append_dropWhile _ _).symm
    · intro c hc
      rw [drop_spaceRun] at hc
      exact head_dropWhile_space r c hc
  · cases h

/-- What `,?\s+` takes: the comma if there is one, and the whole run of spaces. -/
theorem commaSpaces_some (r : List Char) (k : Nat) (h : commaSpaces r = some k) :
    ∃ C WS, (C = [] ∨ C = [',']) ∧ WS ≠ [] ∧ (∀ c ∈ WS, c ∈ spaceChars) ∧
      k = C.length + WS.length ∧ r = C ++ WS ++ r.drop k ∧
      ∀ c, (r.drop k).head? = some c → c ∉ spaceChars := by
  have key : ∀ r1 : List Char, spaceRun r1 ≥ 1 →
      r1.takeWhile isSpaceW ≠ [] ∧ r1 = r1.takeWhile isSpaceW ++ r1.drop (spaceRun r1) ∧
      ∀ c, (r1.drop (spaceRun r1)).head? = some c → c ∉ spaceChars := by
    intro r1 hpos
    refine ⟨?_, ?_, ?_⟩
    · intro e
      rw [spaceRun, e] at hpos
      simp at hpos
    · rw [drop_spaceRun]
      exact (List.takeWhile_append_dropWhile _ _).symm
    · intro c hc
      rw [drop_spaceRun] at hc
      exact head_dropWhile_space r1 c hc
  by_cases hcomma : ∃ r1, r = ',' :: r1
  · obtain ⟨r1, rfl⟩ := hcomma
    simp only [commaSpaces] at h
    split at h
    · rename_i hpos
      simp only [Option.some.injEq] at h
      subst h
      obtain ⟨k1, k2, k3⟩ := key r1 hpos
      refine ⟨[','], r1.takeWhile isSpaceW, Or.inr rfl, k1, takeWhile_space_mem r1, ?_, ?_, ?_⟩
      · simp [spaceRun]
      · have : (',' :: r1).drop (1 + spaceRun r1) = r1.drop (spaceRun r1) := by
          rw [Nat.add_comm, List.drop_succ_cons]
        rw [this]
        simp only [List.singleton_append, List.cons_append, List.cons.injEq, true_and]
        exact k2
      · have : (',' :: r1).drop (1 + spaceRun r1) = r1.drop (spaceRun r1) := by
          rw [Nat.add_comm, List.drop_succ_cons]
        rw [this]
        exact k3
    · cases h
  · have hdef : commaSpaces r = if spaceRun r ≥ 1 then some (spaceRun r) else none := by
      unfold commaSpaces
      split
      · exact absurd ⟨_, rfl⟩ hcomma
      · rfl
    rw [hdef] at h
    split at h
    · rename_i hpos
      simp only [Option.some.injEq] at h
      subst h
      obtain ⟨k1, k2, k3⟩ := key r hpos
      refine ⟨[], r.takeWhile isSpaceW, Or.inl rfl, k1, takeWhile_space_mem r, ?_, ?_, k3⟩
      · simp [spaceRun]
      · simpa using k2
    · cases h

theorem not_fillerPrefix_nil (words : List (List Char)) (comma : Bool) :
    ¬ IsFillerPrefix words comma [] := by
  rintro ⟨F, C, WS, h, _, _, hne, _⟩
  have := congrArg List.length h
  simp only [List.length_nil, List.length_append] at this
  exact hne (List.length_eq_zero.mp (by omega))

/-- One anchored filler pattern, `^(w1|w2|…)tail`, under `std::regex_replace` with the empty
replacement: it removes one filler from the start of the text if the text begins with
one, and nothing otherwise. -/
theorem strips_anchored (m : Option Char → List Char → Option Nat) (words : List (List Char))
    (comma : Bool) (tail : List Char → Option Nat)
    (hm : ∀ t, m none t = matchAlts tail words t) (ha : ∀ p t, m (some p) t = none)
    (hsound : ∀ r k, tail r = some k →
      ∃ C WS, (C = [] ∨ (comma = true ∧ C = [','])) ∧ WS ≠ [] ∧ (∀ c ∈ WS, c ∈ spaceChars) ∧
        k = C.length + WS.length ∧ r = C ++ WS ++ r.drop k ∧
        ∀ c, (r.drop k).head? = some c → c ∉ spaceChars)
    (hcomplete : ∀ C WS y, (C = [] ∨ (comma = true ∧ C = [','])) → WS ≠ [] →
      (∀ c ∈ WS, c ∈ spaceChars) → (tail (C ++ WS ++ y)).isSome = true)
    (x : List Char) : StripsOneFiller words comma x (regexReplace m [] 0 none x) := by
  have hnone : m none x = none → ¬ ∃ p r, x = p ++ r ∧ IsFillerPrefix words comma p := by
    rintro hmx ⟨p, r, hx, F, C, WS, hp, hF, hC, hne, hsp⟩
    have hx2 : x = F ++ (C ++ WS ++ r) := by
      rw [hx, hp]
      simp only [List.append_assoc]
    have h1 : icasePrefix (F.map foldCase) x = true := by
      rw [hx2]
      exact icasePrefix_append F _
    have h2 : x.drop (F.map foldCase).length = C ++ WS ++ r := by
      rw [hx2, List.length_map, List.drop_left]
    have h3 := matchAlts_isSome tail words x (F.map foldCase) hF h1
      (by rw [h2]; exact hcomplete C WS r hC hne hsp)
    rw [← hm, hmx] at h3
    cases h3
  cases x with
  | nil =>
    right
    refine ⟨by simp [regexReplace], ?_⟩
    rintro ⟨p, r, hx, hp⟩
    have hpnil : p = [] := by
      cases p with
      | nil => rfl
      | cons a b => simp at hx
    rw [hpnil] at hp
    exact not_fillerPrefix_nil words comma hp
  | cons c cs =>
    rw [regexReplace_anchored m [] ha (c :: cs) (by simp)]
    cases hmx : m none (c :: cs) with
    | none => exact Or.inr ⟨rfl, hnone hmx⟩
    | some n =>
      have hma := hmx
      rw [hm] at hma
      obtain ⟨a, haw, hpre, k, hk, hn⟩ := matchAlts_some tail words (c :: cs) n hma
      obtain ⟨F, r, hx, hFl, hFm, hr⟩ := icasePrefix_split a (c :: cs) hpre
      rw [← hr] at hk
      obtain ⟨C, WS, hC, hne, hsp, hkk, hrr, hhead⟩ := hsound r k hk
      have hWS : 1 ≤ WS.length := by
        cases WS with
        | nil => exact absurd rfl hne
        | cons _ _ => simp
      cases n with
      | zero => omega
      | succ n1 =>
        left
        simp only [List.nil_append]
        have hdrop : (c :: cs).drop (n1 + 1) = r.drop k := by
          rw [hn, hr, List.drop_drop, Nat.add_comm]
        rw [hdrop]
        refine ⟨F ++ C ++ WS, ?_, ⟨F, C, WS, rfl, ?_, hC, hne, hsp⟩, hhead⟩
        · rw [hx]
          conv_lhs => rw [hrr]
          simp only [List.append_assoc]
        · rw [hFm]
          exact haw

theorem strips_pattern0 (x : List Char) :
    StripsOneFiller ["so".toList, "well".toList, "okay".toList, "ok".toList, "like".toList]
      true x (regexReplace FILLERS_SENTENCE_START_0 [] 0 none x) := by
  apply strips_anchored FILLERS_SENTENCE_START_0 _ true commaSpaces
  · intro t
    simp [FILLERS_SENTENCE_START_0]
  · intro p t
    exact (sentenceStart_anchored p t).1
  · intro r k h
    obtain ⟨C, WS, hC, r1⟩ := commaSpaces_some r k h
    refine ⟨C, WS, ?_, r1⟩
    rcases hC with e | e
    · exact Or.inl e
    · exact Or.inr ⟨rfl, e⟩
  · intro C WS y hC hne hsp
    have hC2 : C = [] ∨ C = [','] := by
      rcases hC with e | e
      · exact Or.inl e
      · exact Or.inr e.2
    rw [commaSpaces_sep C WS y hC2 hne (fun c hc => (isSpaceW_iff c).mpr (hsp c hc))]
    rfl

theorem strips_pattern1 (x : List Char) :
    StripsOneFiller ["basically".toList, "kind of".toList, "sort of".toList]
      false x (regexReplace FILLERS_SENTENCE_START_1 [] 0 none x) := by
  apply strips_anchored FILLERS_SENTENCE_START_1 _ false spaces1
  · intro t
    simp [FILLERS_SENTENCE_START_1]
  · intro p t
    exact (sentenceStart_anchored p t).2.1
  · intro r k h
    obtain ⟨WS, hne, hsp, hk, hr, hh⟩ := spaces1_some r k h
    exact ⟨[], WS, Or.inl rfl, hne, hsp, by simpa using hk, by simpa using hr, hh⟩
  · intro C WS y hC hne hsp
    have hC2 : C = [] := by
      rcases hC with e | e
      · exact e
      · cases e.1
    subst hC2
    have hrun := spaceRun_append WS y (fun c hc => (isSpaceW_iff c).mpr (hsp c hc))
    have hpos : 1 ≤ WS.length := by
      cases WS with
      | nil => exact absurd rfl hne
      | cons _ _ => simp
    simp only [List.nil_append, spaces1]
    rw [if_pos (by omega)]
    rfl

theorem strips_pattern2 (x : List Char) :
    StripsOneFiller ["right".toList, "alright".toList, "now then".toList]
      true x (regexReplace FILLERS_SENTENCE_START_2 [] 0 none x) := by
  apply strips_anchored FILLERS_SENTENCE_START_2 _ true commaSpaces
  · intro t
    simp [FILLERS_SENTENCE_START_2]
  · intro p t
    exact (sentenceStart_anchored p t).2.2
  · intro r k h
    obtain ⟨C, WS, hC, r1⟩ := commaSpaces_some r k h
    refine ⟨C, WS, ?_, r1⟩
    rcases hC with e | e
    · exact Or.inl e
    · exact Or.inr ⟨rfl, e⟩
  · intro C WS y hC hne hsp
    have hC2 : C = [] ∨ C = [','] := by
      rcases hC with e | e
      · exact Or.inl e
      · exact Or.inr e.2
    rw [commaSpaces_sep C WS y hC2 hne (fun c hc => (isSpaceW_iff c).mpr (hsp c hc))]
    rfl

/-- C20 (as amended): the three sentence-start patterns of `removeFillers` run once each, in
this order, on what the global fillers leave of the text. Each looks at the very start of
the text it is given: if that text begins with one of its own words (letters in any case),
an optional comma where the pattern has one, and one or more spaces, it removes that one
filler with the spaces behind it, and otherwise it changes nothing; whatever stands behind
is passed on as it is. "Sort the array, so values are ordered" keeps its "so" and its
"Sort". -/
theorem sentence_start_removes_only_prefix (t : List Char) :
    (∃ x1 x2,
        StripsOneFiller
          ["so".toList, "well".toList, "okay".toList, "ok".toList, "like".toList] true
          (globalFillers t) x1 ∧
        StripsOneFiller ["basically".toList, "kind of".toList, "sort of".toList] false x1 x2 ∧
        StripsOneFiller ["right".toList, "alright".toList, "now then".toList] true x2
          (removeFillers t)) ∧
      FormatTranscription "Sort the array, so values are ordered" AppMode.PROSE =
        "Sort the array, so values are ordered." := by
  constructor
  · exact ⟨_, _, strips_pattern0 (globalFillers t),
      strips_pattern1 (regexReplace FILLERS_SENTENCE_START_0 [] 0 none (globalFillers t)),
      strips_pattern2 (regexReplace FILLERS_SENTENCE_START_1 [] 0 none
        (regexReplace FILLERS_SENTENCE_START_0 [] 0 none (globalFillers t)))⟩
  · decide

/-- C20 (as stated) fails: in "so right then" the filler "right" is the second word; once
"so" is gone it stands at the start of what is left, the third pattern removes it, and it
does not reach the output. -/
theorem later_filler_counterexample :
    FormatTranscription "so right then" AppMode.PROSE = "Then." := by
  decide

/-! ## Trailing punctuation -/

theorem fixPunctuation_nil : fixPunctuation [] = [] := rfl

theorem fixPunctuation_of_ends (t : List Char) (h : endsSentence t = true) :
    fixPunctuation t = t := by
  unfold endsSentence at h
  unfold fixPunctuation
  cases hl : t.getLast? with
  | none => rfl
  | some c =>
    rw [hl] at h
    simp only [sentenceEnds, List.contains_cons, List.contains_nil, Bool.or_false,
      Bool.or_eq_true, beq_iff_eq] at h
    have : ¬(c ≠ '.' ∧ c ≠ '?' ∧ c ≠ '!' ∧ c ≠ ':') := by
      rcases h with h | h | h | h <;> simp [h]
    simp only [if_neg this]

theorem fixPunctuation_of_open (t : List Char) (hne : t ≠ []) (h : endsSentence t = false) :
    fixPunctuation t = t ++ ['.'] := by
  unfold endsSentence at h
  unfold fixPunctuation
  cases hl : t.getLast? with
  | none => exact absurd (List.getLast?_eq_none_iff.mp hl) hne
  | some c =>
    rw [hl] at h
    simp only [sentenceEnds, List.contains_cons, List.contains_nil, Bool.or_false,
      Bool.or_eq_false_iff, beq_eq_false_iff_ne, ne_eq] at h
    have : c ≠ '.' ∧ c ≠ '?' ∧ c ≠ '!' ∧ c ≠ ':' := ⟨h.1, h.2.1, h.2.2.1, h.2.2.2⟩
    simp only [if_pos this]

theorem endsSentence_append_period (t : List Char) : endsSentence (t ++ ['.']) = true := by
  simp [endsSentence, sentenceEnds]

theorem fixPunctuation_ends (t : List Char) (hne : t ≠ []) :
    endsSentence (fixPunctuation t) = true := by
  cases h : endsSentence t with
  | true => rw [fixPunctuation_of_ends t h]; exact h
  | false => rw [fixPunctuation_of_open t hne h]; exact endsSentence_append_period t

theorem fixPunctuation_eq_nil (t : List Char) (h : fixPunctuation t = []) : t = [] := by
  cases t with
  | nil => rfl
  | cons c cs =>
    exfalso
    have h1 := fixPunctuation_ends (c :: cs) (List.cons_ne_nil c cs)
    rw [h] at h1
    exact absurd h1 (by decide)

theorem formatTranscription_prose (raw : String) :
    FormatTranscription raw AppMode.PROSE = toNarrow (fixPunctuation (cleanedUp raw)) := by
  simp [FormatTranscription, cleanedUp]

/-- Examples of the three cases of the trailing punctuation in PROSE mode: a period is put
behind "open the file", the question mark of "is it open?" is kept as the end, and a text
of spaces only is cleaned up to nothing and formats to nothing. -/
theorem prose_punctuation_examples :
    FormatTranscription "open the file" AppMode.PROSE = "Open the file." ∧
      FormatTranscription "is it open?" AppMode.PROSE = "Is it open?" ∧
      cleanedUp "   " = [] ∧ FormatTranscription "   " AppMode.PROSE = "" := by
  decide

/-- C21: in PROSE mode every output of `FormatTranscription` that is not empty ends with
'.', '?', '!' or ':'. The output is the cleaned-up text with a period appended exactly when
the cleaned-up text is not empty and does not end with one of these four characters;
otherwise it is the cleaned-up text itself, and the empty cleaned-up text gives the empty
output. -/
theorem prose_output_ends_sentence (raw : String) :
    ((FormatTranscription raw AppMode.PROSE).toList ≠ [] →
        endsSentence (FormatTranscription raw AppMode.PROSE).toList = true) ∧
      (FormatTranscription raw AppMode.PROSE = toNarrow (cleanedUp raw ++ ['.']) ↔
        cleanedUp raw ≠ [] ∧ endsSentence (cleanedUp raw) = false) ∧
      (¬(cleanedUp raw ≠ [] ∧ endsSentence (cleanedUp raw) = false) →
        FormatTranscription raw AppMode.PROSE = toNarrow (cleanedUp raw)) ∧
      (cleanedUp raw = [] → FormatTranscription raw AppMode.PROSE = "") := by
  rw [formatTranscription_prose]
  have hto : ∀ l : List Char, (toNarrow l).toList = l := fun _ => rfl
  have hinj : ∀ a b : List Char, toNarrow a = toNarrow b → a = b := by
    intro a b h
    have := congrArg String.toList h
    rwa [hto, hto] at this
  refine ⟨?_, ?_, ?_, ?_⟩
  · intro hne
    rw [hto] at hne ⊢
    exact fixPunctuation_ends _ (fun h => hne (by rw [h]; rfl))
  · constructor
    · intro h
      have h1 := hinj _ _ h
      by_cases hnil : cleanedUp raw = []
      · rw [hnil] at h1
        exact absurd h1 (by decide)
      · refine ⟨hnil, ?_⟩
        cases he : endsSentence (cleanedUp raw) with
        | false => rfl
        | true =>
          rw [fixPunctuation_of_ends _ he] at h1
          have := congrArg List.length h1
          simp at this
    · rintro ⟨hne, he⟩
      rw [fixPunctuation_of_open _ hne he]
  · intro h
    by_cases hnil : cleanedUp raw = []
    · rw [hnil]; rfl
    · cases he : endsSentence (cleanedUp raw) with
      | false => exact absurd ⟨hnil, he⟩ h
      | true => rw [fixPunctuation_of_ends _ he]
  · intro h
    rw [h]; rfl

/-! ## Coding mode and the trailing period -/

/-- C22 fails on the code for the voice commands: the period that `fixPunctuation` puts
behind the text is part of what the command patterns capture, and the three command
branches return without taking it off, so "camel case my variable name" gives the
identifier "myVariableName." with its period. The branch for plain text does take one
period off ("open the file"), but one only: "wait..." keeps two. -/
theorem coding_output_keeps_period :
    FormatTranscription "camel case my variable name" AppMode.CODING = "myVariableName." ∧
      FormatTranscription "snake case my variable name" AppMode.CODING = "my_variable_name." ∧
      FormatTranscription "all caps max size" AppMode.CODING = "MAX_SIZE." ∧
      FormatTranscription "open the file" AppMode.CODING = "Open the file" ∧
      FormatTranscription "wait..." AppMode.CODING = "Wait.." := by
  decide

/-! ## Snippet values read by `ConfigManager::load` -/

theorem resize_of_le (s : Bytes) (n : Nat) (h : n ≤ s.length) : resize s n = s.take n := by
  unfold resize
  rw [Nat.sub_eq_zero_of_le h]
  simp

theorem truncate_eq_take (val : Bytes) :
    (if val.length > 500 then resize val 500 else val) = val.take 500 := by
  by_cases h : val.length > 500
  · rw [if_pos h, resize_of_le val 500 (by omega)]
  · rw [if_neg h, List.take_of_length_le (by omega)]

theorem mem_mapAssign (m : StringMap) (k v : Bytes) (e : Bytes × Bytes)
    (he : e ∈ mapAssign m k v) : e ∈ m ∨ e = (k, v) := by
  unfold mapAssign at he
  split at he
  · rw [List.mem_map] at he
    obtain ⟨a, ha, rfl⟩ := he
    by_cases hk : a.1 == k
    · right
      simp only [hk, if_true]
      rw [eq_of_beq hk]
    · left
      simp only [hk]
      exact ha
  · rw [List.mem_append, List.mem_singleton] at he
    exact he

theorem lookup_cons_if (k2 a1 a2 : Bytes) (m : StringMap) :
    List.lookup k2 ((a1, a2) :: m) = if k2 = a1 then some a2 else List.lookup k2 m := by
  by_cases h : k2 = a1
  · subst h
    simp [List.lookup_cons]
  · have hb : (k2 == a1) = false := by simpa using h
    rw [List.lookup_cons, hb, if_neg h]

theorem lookup_replace (m : StringMap) (k v k2 : Bytes) :
    (m.map (fun e => if e.1 == k then (e.1, v) else e)).lookup k2 =
      if k2 = k then (m.lookup k).map (fun _ => v) else m.lookup k2 := by
  induction m with
  | nil => simp
  | cons a m ih =>
    obtain ⟨a1, a2⟩ := a
    by_cases h1 : a1 = k
    · subst h1
      simp only [List.map_cons, beq_self_eq_true, if_true, lookup_cons_if, ih]
      by_cases h3 : k2 = a1
      · subst h3
        simp
      · simp [h3]
    · have hb : (a1 == k) = false := by simpa using h1
      simp only [List.map_cons, hb, Bool.false_eq_true, if_false, lookup_cons_if, ih]
      by_cases h3 : k2 = k
      · subst h3
        have h4 : ¬k2 = a1 := fun h => h1 h.symm
        simp [h4]
      · simp only [if_neg h3]

theorem lookup_append_singleton (m : StringMap) (k v k2 : Bytes) :
    (m ++ [(k, v)]).lookup k2 =
      match m.lookup k2 with
      | some x => some x
      | none => if k2 = k then some v else none := by
  induction m with
  | nil => simp only [List.nil_append, lookup_cons_if, List.lookup_nil]
  | cons a m ih =>
    obtain ⟨a1, a2⟩ := a
    simp only [List.cons_append, lookup_cons_if, ih]
    by_cases h2 : k2 = a1
    · simp only [if_pos h2]
    · simp only [if_neg h2]

theorem lookup_mapAssign_self (m : StringMap) (k v : Bytes) :
    (mapAssign m k v).lookup k = some v := by
  unfold mapAssign
  cases h : m.lookup k with
  | some x =>
    simp only [Option.isSome_some, if_true]
    rw [lookup_replace, if_pos rfl, h]
    rfl
  | none =>
    simp only [Option.isSome_none, Bool.false_eq_true, if_false]
    rw [lookup_append_singleton, h]
    simp

theorem lookup_mapAssign_other (m : StringMap) (k v k2 : Bytes) (hne : k2 ≠ k) :
    (mapAssign m k v).lookup k2 = m.lookup k2 := by
  unfold mapAssign
  cases h : m.lookup k with
  | some x =>
    simp only [Option.isSome_some, if_true]
    rw [lookup_replace, if_neg hne]
  | none =>
    simp only [Option.isSome_none, Bool.false_eq_true, if_false]
    rw [lookup_append_singleton, if_neg hne]
    cases m.lookup k2 <;> rfl

theorem loadSnippets_values (es : List (Bytes × Json)) :
    ∀ (m m2 : StringMap), loadSnippets es m = some m2 →
      ∀ e ∈ m2, e ∈ m ∨ ∃ s, (e.1, Json.string s) ∈ es ∧ e.2 = s.take 500 := by
  induction es with
  | nil =>
    intro m m2 h e he
    simp only [loadSnippets, Option.some.injEq] at h
    subst h
    exact Or.inl he
  | cons a es ih =>
    intro m m2 h e he
    obtain ⟨k, v⟩ := a
    cases v with
    | string s =>
      simp only [loadSnippets, Json.get_string, truncate_eq_take] at h
      rcases ih _ _ h e he with h1 | ⟨s2, h2, h3⟩
      · rcases mem_mapAssign _ _ _ _ h1 with h4 | h4
        · exact Or.inl h4
        · right
          refine ⟨s, ?_, ?_⟩
          · rw [h4]
            exact List.mem_cons_self _ _
          · rw [h4]
      · exact Or.inr ⟨s2, List.mem_cons_of_mem _ h2, h3⟩
    | _ => simp [loadSnippets, Json.get_string] at h

theorem loadSnippets_lookup_other (es : List (Bytes × Json)) :
    ∀ (m m2 : StringMap), loadSnippets es m = some m2 →
      ∀ k, k ∉ es.map Prod.fst → m2.lookup k = m.lookup k := by
  induction es with
  | nil =>
    intro m m2 h k _
    simp only [loadSnippets, Option.some.injEq] at h
    rw [h]
  | cons a es ih =>
    intro m m2 h k hk
    obtain ⟨k1, v⟩ := a
    simp only [List.map_cons, List.mem_cons, not_or] at hk
    cases v with
    | string s =>
      simp only [loadSnippets, Json.get_string, truncate_eq_take] at h
      rw [ih _ _ h k hk.2, lookup_mapAssign_other _ _ _ _ hk.1]
    | _ => simp [loadSnippets, Json.get_string] at h

theorem loadSnippets_lookup (es : List (Bytes × Json)) :
    ∀ (m m2 : StringMap), (es.map Prod.fst).Nodup → loadSnippets es m = some m2 →
      ∀ k s, (k, Json.string s) ∈ es → m2.lookup k = some (s.take 500) := by
  induction es with
  | nil =>
    intro m m2 _ _ k s hm
    exact absurd hm (List.not_mem_nil _)
  | cons a es ih =>
    intro m m2 hnd h k s hm
    obtain ⟨k1, v⟩ := a
    rw [List.map_cons, List.nodup_cons] at hnd
    cases v with
    | string s1 =>
      simp only [loadSnippets, Json.get_string, truncate_eq_take] at h
      rcases List.mem_cons.mp hm with h1 | h1
      · simp only [Prod.mk.injEq, Json.string.injEq] at h1
        obtain ⟨rfl, rfl⟩ := h1
        rw [loadSnippets_lookup_other es _ _ h k hnd.1, lookup_mapAssign_self]
      · exact ih _ _ hnd.2 h k s h1
    | _ => simp [loadSnippets, Json.get_string] at h

theorem loadSnippets_isSome (es : List (Bytes × Json)) :
    ∀ (m : StringMap),
      (loadSnippets es m).isSome = es.all (fun e => e.2.get_string.isSome) := by
  induction es with
  | nil => intro m; rfl
  | cons a es ih =>
    intro m
    obtain ⟨k1, v⟩ := a
    cases v with
    | string s1 =>
      simp only [loadSnippets, Json.get_string, List.all_cons, Option.isSome_some,
        Bool.true_and]
      exact ih _
    | _ => simp [loadSnippets, Json.get_string]

theorem readString_isSome (members : List (Bytes × Json)) (key field : Bytes) :
    (readString (Json.object members) key field).isSome = stringOrAbsent members key := by
  cases h : members.lookup key with
  | none => simp [readString, stringOrAbsent, Json.contains, h]
  | some v => simp [readString, stringOrAbsent, Json.contains, Json.index, h]

theorem readBool_isSome (members : List (Bytes × Json)) (key : Bytes) (field : Bool) :
    (readBool (Json.object members) key field).isSome = boolOrAbsent members key := by
  cases h : members.lookup key with
  | none => simp [readBool, boolOrAbsent, Json.contains, h]
  | some v => simp [readBool, boolOrAbsent, Json.contains, Json.index, h]

/-- The snippets part of the `try` block of `load`. -/
theorem loadDocument_snippets (members entries : List (Bytes × Json)) (s s2 : AppSettings)
    (hs : members.lookup (str "snippets") = some (Json.object entries))
    (h : loadDocument (Json.object members) s = some s2) :
    loadSnippets entries [] = some s2.snippets := by
  unfold loadDocument at h
  simp only [Json.contains, Json.index, hs, Option.isSome_some, if_true, Option.getD_some,
    Json.is_object, Json.items, bind, Option.bind_eq_some, pure, Option.some.injEq] at h
  obtain ⟨_, _, _, _, _, _, _, _, _, _, sn, hsn, rfl⟩ := h
  exact hsn

theorem loadDocument_isSome (members : List (Bytes × Json)) (s : AppSettings) :
    (loadDocument (Json.object members) s).isSome = wellTyped members := by
  unfold loadDocument wellTyped
  rw [← readString_isSome members _ s.hotkey, ← readString_isSome members _ s.modeStr,
    ← readString_isSome members _ s.model, ← readBool_isSome members _ s.useGPU,
    ← readBool_isSome members _ s.startWithWindows]
  generalize (str "snippets") = ks
  cases readString (Json.object members) (str "hotkey") s.hotkey <;>
  cases readString (Json.object members) (str "mode") s.modeStr <;>
  cases readString (Json.object members) (str "model") s.model <;>
  cases readBool (Json.object members) (str "use_gpu") s.useGPU <;>
  cases readBool (Json.object members) (str "start_with_windows") s.startWithWindows <;>
  simp only [bind, Option.bind, Option.isSome_none, Option.isSome_some, Bool.false_and,
    Bool.and_false, Bool.true_and, pure]
  unfold Json.contains Json.index
  cases hl : members.lookup ks with
  | none => simp [hl]
  | some v =>
    cases v with
    | object entries =>
      simp only [hl, Option.isSome_some, if_true, Option.getD_some, Json.is_object, Json.items,
        ← loadSnippets_isSome entries []]
      cases loadSnippets entries [] <;> rfl
    | _ => simp [hl, Json.is_object]


/-- The snippets of the settings after `load`, by the two ways the `try` block can end. -/
theorem loadedSnippets_eq (cm : ConfigManager) (members : List (Bytes × Json))
    (f : OutStream) :
    loadedSnippets cm members f =
      match loadDocument (Json.object members) cm.m_settings with
      | some s => s.snippets
      | none => ({} : AppSettings).snippets := by
  unfold loadedSnippets ConfigManager.load
  cases h : loadDocument (Json.object members) cm.m_settings <;> simp only [h]

theorem default_snippets_short : ∀ e ∈ ({} : AppSettings).snippets, e.2.length ≤ 500 := by
  decide

theorem utf8_ascii (text : List Char) (h : ∀ c ∈ text, c.toNat < 128) :
    utf8 text = text.map Char.toNat := by
  induction text with
  | nil => rfl
  | cons c cs ih =>
    have hc : c.toNat ≤ 0x7F := by
      have := h c (List.mem_cons_self _ _)
      omega
    have e : utf8EncodeChar c = [c.toNat] := by
      simp only [utf8EncodeChar, if_pos hc]
    have ih2 := ih (fun d hd => h d (List.mem_cons_of_mem _ hd))
    simp only [utf8] at ih2 ⊢
    simp only [List.map_cons, List.flatten_cons, e, ih2, List.singleton_append]

/-- An ASCII text cut to its first `n` bytes is the text cut to its first `n`
characters. -/
theorem utf8_ascii_take (text : List Char) (n : Nat) (h : ∀ c ∈ text, c.toNat < 128) :
    (utf8 text).take n = utf8 (text.take n) := by
  rw [utf8_ascii text h, utf8_ascii (text.take n) (fun c hc => h c (List.mem_of_mem_take hc)),
    List.map_take]

theorem utf8_replicate_ascii (n : Nat) (c : Char) (h : c.toNat < 128) :
    utf8 (List.replicate n c) = List.replicate n c.toNat := by
  rw [utf8_ascii _ (fun d hd => by rw [List.eq_of_mem_replicate hd]; exact h),
    List.map_replicate]

set_option maxRecDepth 100000 in
/-- A document read by `load`: the value of 501 bytes is cut to its first 500, the value of
500 bytes and the short one are kept, and the mode is read as well. -/
theorem load_example :
    wellTyped longSnippetMembers = true ∧
      (loadedSnippets {} longSnippetMembers ⟨true, true⟩).lookup (str "insert long") =
        some (utf8 (List.replicate 500 'x')) ∧
      (loadedSnippets {} longSnippetMembers ⟨true, true⟩).lookup (str "insert full") =
        some (utf8 (List.replicate 500 'y')) ∧
      (loadedSnippets {} longSnippetMembers ⟨true, true⟩).lookup (str "insert todo") =
        some (str "// TODO: ") ∧
      (({} : ConfigManager).load (SettingsFile.document (Json.object longSnippetMembers))
        ⟨true, true⟩).1.m_settings.modeStr = (str "code") := by
  decide

set_option maxRecDepth 100000 in
/-- The text of 251 characters takes 501 bytes; `load` keeps its first 500 bytes, which
end with the first byte of the last é. -/
theorem accented_cut :
    accentedText.length = 251 ∧ (utf8 accentedText).length = 501 ∧
      (loadedSnippets {} accentedMembers ⟨true, true⟩).lookup (str "insert cafe") =
        some ((utf8 accentedText).take 500) ∧
      (utf8 accentedText).take 500 ≠ utf8 accentedText ∧
      ((utf8 accentedText).take 500).getLast? = some 0xC3 ∧
      utf8EncodeChar 'é' = [0xC3, 0xA9] := by
  decide

/-- C23 (as stated) fails: the value `accentedText` has 251 characters, fewer than 500,
but it is not kept unchanged. In UTF-8 it takes 501 bytes, `load` keeps the first 500 of
them, and the value the settings hold ends in the middle of the last é, with the first of
its two bytes. -/
theorem load_counterexample :
    wellTyped accentedMembers = true ∧ accentedText.length = 251 ∧
      (loadedSnippets {} accentedMembers ⟨true, true⟩).lookup (str "insert cafe") =
        some ((utf8 accentedText).take 500) ∧
      (utf8 accentedText).take 500 ≠ utf8 accentedText ∧
      ((utf8 accentedText).take 500).getLast? = some 0xC3 :=
  ⟨by decide, accented_cut.1, accented_cut.2.2.1, accented_cut.2.2.2.1, accented_cut.2.2.2.2.1⟩

/-- C23 (as amended): after `load` has read a settings document whose "snippets" member is
an object, every snippet value of the settings has at most 500 bytes (the `char`s of the
`std::string`). When every member of the document has the kind of its setting, the value
the settings hold for a key of that object is the first 500 bytes of the string the object
holds for it, which is the string itself when it has at most 500 bytes, and the settings
hold no other snippet; for a value of ASCII text, where a character is a byte, that is the
first 500 characters of the text. When a member has another kind, the conversion throws
and the settings are the default ones. -/
theorem load_truncates_snippet_values (cm : ConfigManager)
    (members entries : List (Bytes × Json)) (f : OutStream)
    (hs : members.lookup (str "snippets") = some (Json.object entries))
    (hk : (entries.map Prod.fst).Nodup) :
    (∀ e ∈ loadedSnippets cm members f, e.2.length ≤ 500) ∧
      (wellTyped members = true →
        (∀ k s, (k, Json.string s) ∈ entries →
          (loadedSnippets cm members f).lookup k = some (s.take 500) ∧
            (s.length ≤ 500 → (loadedSnippets cm members f).lookup k = some s)) ∧
        (∀ k text, (∀ c ∈ text, c.toNat < 128) → (k, Json.string (utf8 text)) ∈ entries →
          (loadedSnippets cm members f).lookup k = some (utf8 (text.take 500))) ∧
        ∀ e ∈ loadedSnippets cm members f,
          ∃ s, (e.1, Json.string s) ∈ entries ∧ e.2 = s.take 500) ∧
      (wellTyped members = false →
        loadedSnippets cm members f = ({} : AppSettings).snippets) := by
  have hsome := loadDocument_isSome members cm.m_settings
  rw [loadedSnippets_eq]
  cases hd : loadDocument (Json.object members) cm.m_settings with
  | none =>
    rw [hd] at hsome
    refine ⟨default_snippets_short, ?_, fun _ => rfl⟩
    intro hw
    rw [hw] at hsome
    exact absurd hsome (by decide)
  | some s2 =>
    rw [hd] at hsome
    have hl := loadDocument_snippets members entries cm.m_settings s2 hs hd
    have hmem := loadSnippets_values entries [] s2.snippets hl
    have hmem2 : ∀ e ∈ s2.snippets, ∃ s, (e.1, Json.string s) ∈ entries ∧ e.2 = s.take 500 := by
      intro e he
      rcases hmem e he with h1 | h1
      · exact absurd h1 (List.not_mem_nil _)
      · exact h1
    refine ⟨?_, fun _ => ⟨?_, ?_, hmem2⟩, ?_⟩
    · intro e he
      obtain ⟨s, _, h2⟩ := hmem2 e he
      rw [h2, List.length_take]
      exact Nat.min_le_left _ _
    · intro k s hm
      have h1 := loadSnippets_lookup entries [] s2.snippets hk hl k s hm
      refine ⟨h1, fun hlen => ?_⟩
      rw [h1, List.take_of_length_le hlen]
    · intro k text hascii hm
      rw [loadSnippets_lookup entries [] s2.snippets hk hl k _ hm, utf8_ascii_take text 500 hascii]
    · intro hw
      rw [hw] at hsome
      exact absurd hsome (by simp)

/-- The theorem at a document with a snippet value of 501 bytes, one of 500 and a short
one. -/
theorem load_truncates_snippet_values_witness :
    longSnippetMembers.lookup (str "snippets") = some (Json.object longSnippetEntries) ∧
      (longSnippetEntries.map Prod.fst).Nodup ∧
      ((∀ e ∈ loadedSnippets {} longSnippetMembers ⟨true, true⟩, e.2.length ≤ 500) ∧
        (wellTyped longSnippetMembers = true →
          (∀ k s, (k, Json.string s) ∈ longSnippetEntries →
            (loadedSnippets {} longSnippetMembers ⟨true, true⟩).lookup k = some (s.take 500) ∧
              (s.length ≤ 500 →
                (loadedSnippets {} longSnippetMembers ⟨true, true⟩).lookup k = some s)) ∧
          (∀ k text, (∀ c ∈ text, c.toNat < 128) →
            (k, Json.string (utf8 text)) ∈ longSnippetEntries →
            (loadedSnippets {} longSnippetMembers ⟨true, true⟩).lookup k =
              some (utf8 (text.take 500))) ∧
          ∀ e ∈ loadedSnippets {} longSnippetMembers ⟨true, true⟩,
            ∃ s, (e.1, Json.string s) ∈ longSnippetEntries ∧ e.2 = s.take 500) ∧
        (wellTyped longSnippetMembers = false →
          loadedSnippets {} longSnippetMembers ⟨true, true⟩ = ({} : AppSettings).snippets)) :=
  ⟨rfl, by decide,
    load_truncates_snippet_values {} longSnippetMembers longSnippetEntries ⟨true, true⟩
      rfl (by decide)⟩

end FlowOn
